import Mathlib

/-!
# babelweb2: the monitor-feed parser (`parser/parser.go`)

A shallow embedding of the parser package: the schema-driven entries, the
per-router tables, the update model and the parse/apply/emit loop, followed
by the properties established about them.

Conventions of the embedding

* A Go `map[string]T` is a `GoMap T`: a list of bindings with pairwise
  distinct keys.  Go leaves the iteration order of a map unspecified; the
  embedding iterates in list order, and the properties below that speak about
  iteration are stated so that they do not depend on that order.
* The embedded `bufio.Scanner` is library code.  A `Scanner` value is the
  sequence of tokens that `Scan`/`Text` will still deliver, together with the
  error `Err` reports once they are exhausted.
* The functions of `strconv` and `net` that the decoders call are library code
  as well; they are collected in a `Lib` record that the decoders take as an
  argument.
* A Go function returning `(x, error)` returns a pair whose second component
  is an `Option Error` (`none` is `nil`).  A function that receives `*Scanner`
  also returns the scanner it leaves behind.
* Mutexes are not represented: the embedding is sequential.
* Sending on the update channel appends to the list of emitted events.
-/

namespace Babel

/-! ## Go maps -/

/-- Bindings of a Go map: a list of key/value pairs with distinct keys. -/
structure GoMap (α : Type) where
  items : List (String × α)
  nodup : (items.map Prod.fst).Nodup

/-- Value bound to `k` in a list of bindings (the first one). -/
def lookupIn {α : Type} (k : String) : List (String × α) → Option α
  | [] => none
  | (k', v) :: rest => if k' = k then some v else lookupIn k rest

/-- Bindings after `m[k] = v`: the binding of `k` is replaced in place, or a new one is appended. -/
def replaceIn {α : Type} (k : String) (v : α) : List (String × α) → List (String × α)
  | [] => [(k, v)]
  | (k', v') :: rest => if k' = k then (k, v) :: rest else (k', v') :: replaceIn k v rest

/-- Bindings after `delete(m, k)`. -/
def eraseIn {α : Type} (k : String) (l : List (String × α)) : List (String × α) :=
  l.filter (fun p => !decide (p.1 = k))

namespace GoMap

variable {α : Type}

/-- The map returned by `make(map[string]T)`; a `nil` map reads the same. -/
def empty : GoMap α := ⟨[], List.nodup_nil⟩

/-- Go `v, exists := m[k]`. -/
def get (m : GoMap α) (k : String) : Option α := lookupIn k m.items

/-- Go `m[k] = v`. -/
def set (m : GoMap α) (k : String) (v : α) : GoMap α :=
  ⟨replaceIn k v m.items, by
    have keys : ∀ l : List (String × α), (replaceIn k v l).map Prod.fst =
        if k ∈ l.map Prod.fst then l.map Prod.fst else l.map Prod.fst ++ [k] := by
      intro l
      induction l with
      | nil => simp [replaceIn]
      | cons p rest ih =>
        obtain ⟨k', v'⟩ := p
        by_cases h : k' = k
        · subst h; simp [replaceIn]
        · have h' : ¬ k = k' := fun e => h e.symm
          simp only [replaceIn, h, if_false, List.map_cons, ih, List.mem_cons, h', false_or]
          split <;> simp
    rw [keys]
    split
    · exact m.nodup
    · rename_i hk
      rw [List.nodup_append]
      refine ⟨m.nodup, List.nodup_singleton k, ?_⟩
      intro a ha hb
      simp only [List.mem_singleton] at hb
      subst hb
      exact hk ha⟩

/-- Go `delete(m, k)`. -/
def delete (m : GoMap α) (k : String) : GoMap α :=
  ⟨eraseIn k m.items,
    List.Nodup.sublist (List.Sublist.map Prod.fst (List.filter_sublist m.items)) m.nodup⟩

/-- Keys of the map, in iteration order. -/
def keys (m : GoMap α) : List String := m.items.map Prod.fst

end GoMap

/-! ## Errors and values -/

/-- Go `entryError`. -/
inductive entryError
  | FieldPresence
  | FieldAbsence
  deriving DecidableEq, Repr

/-- Go `entryError.Error`. -/
def entryError.Error : entryError → String
  | .FieldPresence => "Field Already Exists"
  | .FieldAbsence => "No Such Field"

/-- Error values that occur in the package.  Go compares errors with `errEOL`
and `io.EOF` by identity; every other error is only passed on. -/
inductive Error
  | errEOL
  | EOF
  | ErrUnterminatedString
  | entry (e : entryError)
  | msg (text : String)
  deriving DecidableEq, Repr

/-- Go `net.IP`: a byte slice. -/
abbrev IP := List Nat

/-- Go `net.IPNet`. -/
structure IPNet where
  ip : List Nat
  mask : List Nat
  deriving DecidableEq, Repr

/-- Dynamic values stored in `entryValue.data` (Go `interface{}`). -/
inductive Value
  | null
  | str (s : String)
  | bool (b : Bool)
  | int (i : Int)
  | uint (n : Nat)
  | ip (a : IP)
  | ipnet (n : IPNet)
  deriving DecidableEq, Repr

/-- Go `reflect.DeepEqual` on the values the decoders produce. -/
def DeepEqual (a b : Value) : Bool := decide (a = b)

/-- Library functions used by the decoders. -/
structure Lib where
  /-- Go `strconv.ParseInt(s, base, bitSize)`. -/
  ParseInt : String → Nat → Nat → Except String Int
  /-- Go `strconv.ParseUint(s, base, bitSize)`. -/
  ParseUint : String → Nat → Nat → Except String Nat
  /-- Go `net.ParseIP(s)`; `none` is the nil result. -/
  ParseIP : String → Option IP
  /-- Go `net.ParseCIDR(s)`, second and third results. -/
  ParseCIDR : String → Except String IPNet
  /-- Go `net.IP.String`. -/
  IPString : IP → String
  /-- Go `(*net.IPNet).String`. -/
  IPNetString : IPNet → String

/-! ## Scanner -/

/-- Errors a `bufio.Scanner` can end with, other than `io.EOF`. -/
inductive ScanError
  | ErrUnterminatedString
  | other (text : String)
  deriving DecidableEq, Repr

/-- The error value that `Err` reports for a scanner error. -/
def ScanError.toError : ScanError → Error
  | .ErrUnterminatedString => Error.ErrUnterminatedString
  | .other t => Error.msg t

/-- State of a scanner: the tokens still to be delivered and the error that
ended the input (`none` when the input ended with `io.EOF`). -/
structure Scanner where
  toks : List String
  err : Option ScanError
  deriving DecidableEq, Repr

/-- Go `s.Scan()` followed by `s.Text()`: the next token, if there is one. -/
def Scanner.Scan (s : Scanner) : Option String × Scanner :=
  match s.toks with
  | [] => (none, s)
  | w :: rest => (some w, { s with toks := rest })

/-- Go `s.Err()`: `nil` when the input ended with `io.EOF`. -/
def Scanner.Err (s : Scanner) : Option Error := s.err.map ScanError.toError

/-- The error `nextWord` returns once the tokens are exhausted: the error of
the scanner, or `io.EOF`. -/
def Scanner.endErr (s : Scanner) : Error :=
  match s.Err with
  | some err => err
  | none => Error.EOF

/-- Go `nextWord`. -/
def nextWord (s : Scanner) : String × Option Error × Scanner :=
  match s.Scan with
  | (some word, s') =>
    if word = "\n" then ("", some Error.errEOL, s') else (word, none, s')
  | (none, s') =>
    match s'.Err with
    | some err => ("", some err, s')
    | none => ("", some Error.EOF, s')

/-! ## Loops -/

/-- How one pass through the body of a `for` loop ends: the function returns
`r`, or the loop goes round again with state `st`. -/
inductive Step (ρ σ : Type)
  | done (r : ρ)
  | next (st : σ)

/-- A `for` loop with the given body, bounded to `fuel` passes; `none` when the
bound is reached before the function returns. -/
def loop {ρ σ : Type} (body : σ → Step ρ σ) : Nat → σ → Option ρ
  | 0, _ => none
  | fuel + 1, st =>
    match body st with
    | Step.done r => some r
    | Step.next st' => loop body fuel st'

/-! ## Entries -/

/-- Go `entryParser`. -/
abbrev entryParser := Scanner → Value × Option Error × Scanner

/-- Go `entryValue`. -/
structure entryValue where
  data : Value
  parser : entryParser

/-- Go `entry`. -/
abbrev entry := GoMap entryValue

/-- Go `NewEntry`. -/
def NewEntry : entry := GoMap.empty

/-- Go `entry.AddField`. -/
def entry.AddField (e : entry) (id : String) (parser : entryParser) : entry × Option Error :=
  match e.get id with
  | some _ => (e, some (Error.entry entryError.FieldPresence))
  | none => (e.set id { data := Value.null, parser := parser }, none)

/-- Go `entry.GetData`. -/
def entry.GetData (e : entry) (id : String) : Value × Option Error :=
  match e.get id with
  | none => (Value.null, some (Error.entry entryError.FieldAbsence))
  | some value => (value.data, none)

/-- Body of the loop of Go `entry.Parse`, on the entry and the scanner. -/
def entry.ParseBody (st : entry × Scanner) :
    Step (entry × Option Error × Scanner) (entry × Scanner) :=
  match nextWord st.2 with
  | (_, some err, s1) => Step.done (st.1, some err, s1)
  | (w, none, s1) =>
    match st.1.get w with
    | none =>
      match nextWord s1 with
      | (_, some err, s2) => Step.done (st.1, some err, s2)
      | (_, none, s2) => Step.next (st.1, s2)
    | some value =>
      match value.parser s1 with
      | (new_data, err, s2) =>
        if err ≠ none ∧ err ≠ some Error.EOF ∧ err ≠ some Error.errEOL then
          Step.done (st.1, err, s2)
        else
          let e' := st.1.set w { value with data := new_data }
          if err = some Error.EOF ∨ err = some Error.errEOL then
            Step.done (e', err, s2)
          else
            Step.next (e', s2)

/-- Go `entry.Parse`: the entry afterwards, the error returned and the scanner
left behind; `none` when the loop does not end within its bound.  Every pass
reads a token, so one more pass than there are tokens is enough for decoders
that only consume. -/
def entry.Parse (e : entry) (s : Scanner) : Option (entry × Option Error × Scanner) :=
  loop entry.ParseBody (s.toks.length + 1) (e, s)

/-! ## Decoders -/

/-- Go `ParseString`: the results of `nextWord`, the word boxed as a value. -/
def ParseString : entryParser := fun s =>
  match nextWord s with
  | (w, err, s') => (Value.str w, err, s')

/-- Go `ParseBool`. -/
def ParseBool : entryParser := fun s =>
  match nextWord s with
  | (_, some err, s') => (Value.null, some err, s')
  | (w, none, s') =>
    if w = "true" ∨ w = "yes" ∨ w = "oui" ∨ w = "tak" ∨ w = "да" then
      (Value.bool true, none, s')
    else if w = "false" ∨ w = "no" ∨ w = "non" ∨ w = "nie" ∨ w = "нет" then
      (Value.bool false, none, s')
    else
      (Value.null, some (Error.msg ("Syntax Error: '" ++ w ++ "' must be a boolean")), s')

/-- Go `GetIntParser`. -/
def GetIntParser (lib : Lib) (base bitSize : Nat) : entryParser := fun s =>
  match nextWord s with
  | (_, some err, s') => (Value.null, some err, s')
  | (w, none, s') =>
    match lib.ParseInt w base bitSize with
    | .error m => (Value.null, some (Error.msg m), s')
    | .ok i => (Value.int i, none, s')

/-- Go `GetUintParser`. -/
def GetUintParser (lib : Lib) (base bitSize : Nat) : entryParser := fun s =>
  match nextWord s with
  | (_, some err, s') => (Value.null, some err, s')
  | (w, none, s') =>
    match lib.ParseUint w base bitSize with
    | .error m => (Value.null, some (Error.msg m), s')
    | .ok i => (Value.uint i, none, s')

/-- Go `ParseIp`. -/
def ParseIp (lib : Lib) : entryParser := fun s =>
  match nextWord s with
  | (_, some err, s') => (Value.null, some err, s')
  | (w, none, s') =>
    match lib.ParseIP w with
    | none => (Value.null, some (Error.msg ("Syntax Error: invalid IP address: " ++ w)), s')
    | some ip => (Value.ip ip, none, s')

/-- Go `ParsePrefix`. -/
def ParsePrefix (lib : Lib) : entryParser := fun s =>
  match nextWord s with
  | (_, some err, s') => (Value.null, some err, s')
  | (w, none, s') =>
    match lib.ParseCIDR w with
    | .error m => (Value.null, some (Error.msg ("Syntax Error: " ++ m)), s')
    | .ok ip => (Value.ipnet ip, none, s')

/-! ## Schemas -/

/-- Go `NewInterfaceEntry`. -/
def NewInterfaceEntry (lib : Lib) : entry :=
  let i := NewEntry
  let i := (i.AddField "up" ParseBool).1
  let i := (i.AddField "ipv4" (ParseIp lib)).1
  let i := (i.AddField "ipv6" (ParseIp lib)).1
  i

/-- Go `NewNeighbourEntry`. -/
def NewNeighbourEntry (lib : Lib) : entry :=
  let i := NewEntry
  let i := (i.AddField "address" (ParseIp lib)).1
  let i := (i.AddField "if" ParseString).1
  let i := (i.AddField "reach" (GetUintParser lib 16 16)).1
  let i := (i.AddField "rxcost" (GetUintParser lib 10 32)).1
  let i := (i.AddField "txcost" (GetUintParser lib 10 32)).1
  let i := (i.AddField "cost" (GetUintParser lib 10 32)).1
  let i := (i.AddField "rtt" ParseString).1
  let i := (i.AddField "rttcost" (GetUintParser lib 10 32)).1
  i

/-- Go `NewRouteEntry`. -/
def NewRouteEntry (lib : Lib) : entry :=
  let i := NewEntry
  let i := (i.AddField "prefix" (ParsePrefix lib)).1
  let i := (i.AddField "from" (ParsePrefix lib)).1
  let i := (i.AddField "installed" ParseBool).1
  let i := (i.AddField "id" ParseString).1
  let i := (i.AddField "metric" (GetIntParser lib 10 32)).1
  let i := (i.AddField "refmetric" (GetUintParser lib 10 32)).1
  let i := (i.AddField "via" (ParseIp lib)).1
  let i := (i.AddField "if" ParseString).1
  i

/-- Go `NewXrouteEntry`. -/
def NewXrouteEntry (lib : Lib) : entry :=
  let i := NewEntry
  let i := (i.AddField "prefix" (ParsePrefix lib)).1
  let i := (i.AddField "from" (ParsePrefix lib)).1
  let i := (i.AddField "metric" (GetUintParser lib 10 32)).1
  i

/-! ## Tables and router state -/

/-- Go `table` (the mutex is not represented). -/
structure table where
  dict : GoMap entry

/-- Go `BabelDesc`. -/
structure BabelDesc where
  ID : String
  Name : String
  Version : String
  ts : GoMap table

/-- Go `NewBabelDesc`. -/
def NewBabelDesc : BabelDesc :=
  let ts : GoMap table := GoMap.empty
  let ts := ts.set "route" { dict := GoMap.empty }
  let ts := ts.set "xroute" { dict := GoMap.empty }
  let ts := ts.set "interface" { dict := GoMap.empty }
  let ts := ts.set "neighbour" { dict := GoMap.empty }
  { ID := "", Name := "", Version := "", ts := ts }

/-- Go `table.Add`: the table afterwards and the error returned. -/
def table.Add (t : table) (id : String) (e : entry) : table × Option Error :=
  match t.dict.get id with
  | some _ => (t, some (Error.entry entryError.FieldPresence))
  | none => ({ dict := t.dict.set id e }, none)

/-- Go `table.Change`. -/
def table.Change (t : table) (id : String) (e : entry) : table × Option Error :=
  match t.dict.get id with
  | none => (t, some (Error.entry entryError.FieldAbsence))
  | some _ => ({ dict := t.dict.set id e }, none)

/-- Go `table.Flush`. -/
def table.Flush (t : table) (id : String) : table × Option Error :=
  match t.dict.get id with
  | none => (t, some (Error.entry entryError.FieldAbsence))
  | some _ => ({ dict := t.dict.delete id }, none)

/-! ## Updates -/

/-- Go `BabelUpdate`. -/
structure BabelUpdate where
  name : String
  router : String
  action : String
  table : String
  entry : String
  entryData : Babel.entry

/-- Go `SBabelUpdate`. -/
structure SBabelUpdate where
  Name : String
  Router : String
  Action : String
  Table : String
  Entry : String
  EntryData : GoMap Value

/-- Value stored by one iteration of the loop of `ToSUpdate` (its type switch). -/
def renderValue (lib : Lib) : Value → Value
  | Value.ipnet t => Value.str (lib.IPNetString t)
  | Value.ip t => Value.str (lib.IPString t)
  | d => d

/-- Go `BabelUpdate.ToSUpdate`. -/
def BabelUpdate.ToSUpdate (lib : Lib) (upd : BabelUpdate) : SBabelUpdate :=
  { Name := upd.name, Router := upd.router, Action := upd.action,
    Table := upd.table, Entry := upd.entry,
    EntryData := upd.entryData.items.foldl
      (fun m p => m.set p.1 (renderValue lib p.2.data)) GoMap.empty }

/-- Go `emptyUpdate`. -/
def emptyUpdate : BabelUpdate :=
  { name := "", router := "", action := "none", table := "", entry := "",
    entryData := GoMap.empty }

/-- Inner loop of Go `BabelDesc.Iter`, over the entries of the table named `tk`.
The callback receives and returns the state it acts on. -/
def BabelDesc.IterEntries {σ : Type} (bd : BabelDesc) (f : BabelUpdate → σ → Option Error × σ)
    (tk : String) : List (String × entry) → σ → Option Error × σ
  | [], st => (none, st)
  | (ek, ev) :: rest, st =>
    match f { name := bd.Name, router := bd.ID, action := "add", table := tk,
              entry := ek, entryData := ev } st with
    | (some err, st') => (some err, st')
    | (none, st') => BabelDesc.IterEntries bd f tk rest st'

/-- Outer loop of Go `BabelDesc.Iter`, over the tables. -/
def BabelDesc.IterTables {σ : Type} (bd : BabelDesc) (f : BabelUpdate → σ → Option Error × σ) :
    List (String × table) → σ → Option Error × σ
  | [], st => (none, st)
  | (tk, tv) :: rest, st =>
    match BabelDesc.IterEntries bd f tk tv.dict.items st with
    | (some err, st') => (some err, st')
    | (none, st') => BabelDesc.IterTables bd f rest st'

/-- Go `BabelDesc.Iter`. -/
def BabelDesc.Iter {σ : Type} (bd : BabelDesc) (f : BabelUpdate → σ → Option Error × σ)
    (st : σ) : Option Error × σ :=
  BabelDesc.IterTables bd f bd.ts.items st

/-- Go `makeEntry`. -/
def makeEntry (lib : Lib) (id : String) : entry × Option Error :=
  if id = "interface" then (NewInterfaceEntry lib, none)
  else if id = "neighbour" then (NewNeighbourEntry lib, none)
  else if id = "route" then (NewRouteEntry lib, none)
  else if id = "xroute" then (NewXrouteEntry lib, none)
  else (GoMap.empty, some (Error.msg "Unknown table Id"))

/-- Go `BabelDesc.ParseAction`; `none` when the loop of `Parse` reaches its bound. -/
def BabelDesc.ParseAction (lib : Lib) (bd : BabelDesc) (s : Scanner) :
    Option (BabelUpdate × Option Error × Scanner) :=
  match nextWord s with
  | (_, some err, s1) => some (emptyUpdate, some err, s1)
  | (w, none, s1) =>
    if w ≠ "add" ∧ w ≠ "change" ∧ w ≠ "flush" then some (emptyUpdate, none, s1)
    else
      match nextWord s1 with
      | (_, some err, s2) => some (emptyUpdate, some err, s2)
      | (table, none, s2) =>
        match nextWord s2 with
        | (_, some err, s3) => some (emptyUpdate, some err, s3)
        | (entry, none, s3) =>
          match makeEntry lib table with
          | (_, some err) => some (emptyUpdate, some err, s3)
          | (new_entry, none) =>
            match new_entry.Parse s3 with
            | none => none
            | some (new_entry, err, s4) =>
              if err ≠ some Error.EOF ∧ err ≠ some Error.errEOL then
                some (emptyUpdate, err, s4)
              else
                some ({ name := bd.Name, router := bd.ID, action := w, table := table,
                        entry := entry, entryData := new_entry }, err, s4)

/-- Go `BabelDesc.Update`: the router state afterwards and the error returned;
`none` when the update names no table of the router (the method call on the
nil table pointer panics). -/
def BabelDesc.Update (bd : BabelDesc) (upd : BabelUpdate) : Option (BabelDesc × Option Error) :=
  if upd.action = "add" then
    match bd.ts.get upd.table with
    | none => none
    | some t =>
      match t.Add upd.entry upd.entryData with
      | (t', err) => some ({ bd with ts := bd.ts.set upd.table t' }, err)
  else if upd.action = "change" then
    match bd.ts.get upd.table with
    | none => none
    | some t =>
      match t.Change upd.entry upd.entryData with
      | (t', err) => some ({ bd with ts := bd.ts.set upd.table t' }, err)
  else if upd.action = "flush" then
    match bd.ts.get upd.table with
    | none => none
    | some t =>
      match t.Flush upd.entry with
      | (t', err) => some ({ bd with ts := bd.ts.set upd.table t' }, err)
  else some (bd, none)

/-- Loop of Go `BabelDesc.CheckUpdate` over the fields of the stored entry;
`none` when the incoming entry lacks a field of the stored one (nil pointer
dereference). -/
def BabelDesc.CheckLoop (entryData : entry) : List (String × entryValue) → Option Bool
  | [] => some false
  | (key, value) :: rest =>
    match entryData.get key with
    | none => none
    | some v =>
      if !(DeepEqual v.data value.data) then some true
      else BabelDesc.CheckLoop entryData rest

/-- Go `BabelDesc.CheckUpdate`; `none` when the call panics.  An id that is
not stored reads as a nil entry, over which the loop does not iterate. -/
def BabelDesc.CheckUpdate (bd : BabelDesc) (upd : BabelUpdate) : Option Bool :=
  if upd.action ≠ "change" then some true
  else
    match bd.ts.get upd.table with
    | none => none
    | some table =>
      match table.dict.get upd.entry with
      | none => BabelDesc.CheckLoop upd.entryData []
      | some stored => BabelDesc.CheckLoop upd.entryData stored.items

/-! ## Session loop -/

/-- Go `BabelDesc.Clean`: the callback sends the flush on the channel. -/
def BabelDesc.Clean (lib : Lib) (bd : BabelDesc) (updChan : List SBabelUpdate) :
    Option Error × List SBabelUpdate :=
  bd.Iter (fun u ch => (none, ch ++ [({ u with action := "flush" } : BabelUpdate).ToSUpdate lib]))
    updChan

/-- How a call of `Listen` ends: it returns an error or nil, it panics, or (in
the embedding only) the bound on the passes of a loop is reached first. -/
inductive Status
  | returned (err : Option Error)
  | panicked
  | unfinished
  deriving DecidableEq, Repr

/-- State of a session: router state, scanner, the events sent so far, and how the call ended. -/
structure Session where
  bd : BabelDesc
  s : Scanner
  out : List SBabelUpdate
  status : Status

/-- Body of the loop of Go `BabelDesc.Listen`, on the router state, the
scanner and the events sent so far. -/
def BabelDesc.ListenBody (lib : Lib) (st : BabelDesc × Scanner × List SBabelUpdate) :
    Step Session (BabelDesc × Scanner × List SBabelUpdate) :=
  match st with
  | (bd, s, out) =>
    match bd.ParseAction lib s with
    | none => Step.done { bd := bd, s := s, out := out, status := Status.unfinished }
    | some (upd, err, s1) =>
      if err ≠ none ∧ err ≠ some Error.EOF ∧ err ≠ some Error.errEOL then
        Step.done { bd := bd, s := s1, out := out, status := Status.returned err }
      else if err = some Error.EOF then
        Step.done { bd := bd, s := s1, out := out, status := Status.returned none }
      else if upd.action ≠ emptyUpdate.action then
        match bd.CheckUpdate upd with
        | none => Step.done { bd := bd, s := s1, out := out, status := Status.panicked }
        | some false => Step.next (bd, s1, out)
        | some true =>
          match bd.Update upd with
          | none => Step.done { bd := bd, s := s1, out := out, status := Status.panicked }
          | some (bd', some e) =>
            Step.done { bd := bd', s := s1, out := out, status := Status.returned (some e) }
          | some (bd', none) => Step.next (bd', s1, out ++ [upd.ToSUpdate lib])
      else Step.next (bd, s1, out)

/-- Loop of Go `BabelDesc.Listen`: the session when the loop is left.  Every
pass reads a token, so one more pass than there are tokens is enough. -/
def BabelDesc.ListenLoop (lib : Lib) (bd : BabelDesc) (s : Scanner) (updChan : List SBabelUpdate) :
    Session :=
  match loop (BabelDesc.ListenBody lib) (s.toks.length + 1) (bd, s, updChan) with
  | some r => r
  | none => { bd := bd, s := s, out := updChan, status := Status.unfinished }

/-- Go `BabelDesc.Listen`: the loop, then the deferred `Clean`, which sends its
flushes whether the loop returned or panicked. -/
def BabelDesc.Listen (lib : Lib) (bd : BabelDesc) (s : Scanner) (updChan : List SBabelUpdate) :
    Session :=
  let r := BabelDesc.ListenLoop lib bd s updChan
  match r.status with
  | Status.unfinished => r
  | _ => { r with out := (r.bd.Clean lib r.out).2 }

/-! ## Handshake -/

/-- Go type assertion `v.(string)`; `none` when it panics. -/
def asString : Value → Option String
  | Value.str t => some t
  | _ => none

/-- How a call of `Fill` ends: the router state and the scanner afterwards. -/
structure Filled where
  bd : BabelDesc
  s : Scanner
  status : Status

/-- The entry `e` that Go `Fill` starts from. -/
def fillEntry : entry :=
  let e := NewEntry
  let e := (e.AddField "BABEL" ParseString).1
  let e := (e.AddField "version" ParseString).1
  let e := (e.AddField "host" ParseString).1
  (e.AddField "my-id" ParseString).1

/-- The code of Go `Fill` after its loop. -/
def BabelDesc.FillAfter (bd : BabelDesc) (e : entry) (s : Scanner) : Filled :=
  match e.get "BABEL" with
  | none => { bd := bd, s := s, status := Status.panicked }
  | some babel =>
    let unsupported : Option Bool :=
      if babel.data ≠ Value.null then (asString babel.data).map (fun t => decide (t = "0.0"))
      else some false
    match unsupported with
    | none => { bd := bd, s := s, status := Status.panicked }
    | some true =>
      { bd := bd, s := s,
        status := Status.returned (some (Error.msg "BABEL 0.0: Unsupported version")) }
    | some false =>
      match (e.get "version").bind (fun f => asString f.data) with
      | none => { bd := bd, s := s, status := Status.panicked }
      | some version =>
        let bd := { bd with Version := version }
        match (e.get "my-id").bind (fun f => asString f.data) with
        | none => { bd := bd, s := s, status := Status.panicked }
        | some id =>
          let bd := { bd with ID := id }
          match e.get "host" with
          | none => { bd := bd, s := s, status := Status.panicked }
          | some host =>
            if host.data = Value.null then
              { bd := { bd with Name := "unknown" }, s := s, status := Status.returned none }
            else
              match asString host.data with
              | none => { bd := bd, s := s, status := Status.panicked }
              | some name =>
                { bd := { bd with Name := name }, s := s, status := Status.returned none }

/-- Body of the loop of Go `Fill`, on the entry and the scanner; when the loop
condition fails, the code after the loop runs. -/
def BabelDesc.FillBody (bd : BabelDesc) (st : entry × Scanner) :
    Step Filled (entry × Scanner) :=
  match st.1.get "my-id" with
  | none => Step.done { bd := bd, s := st.2, status := Status.panicked }
  | some myid =>
    if myid.data = Value.null then
      match st.1.Parse st.2 with
      | none => Step.done { bd := bd, s := st.2, status := Status.unfinished }
      | some (e, err, s) =>
        if err ≠ none ∧ err ≠ some Error.errEOL then
          if err ≠ some Error.EOF then
            Step.done { bd := bd, s := s, status := Status.returned err }
          else
            match e.get "my-id" with
            | none => Step.done { bd := bd, s := s, status := Status.panicked }
            | some myid' =>
              if myid'.data = Value.null then
                Step.done { bd := bd, s := s, status := Status.returned err }
              else Step.next (e, s)
        else Step.next (e, s)
    else Step.done (bd.FillAfter st.1 st.2)

/-- Go `Fill` from a given state of its loop.  A pass either reads a token or
fills `my-id`, so `2 * tokens + 2` passes are enough. -/
def BabelDesc.FillFrom (bd : BabelDesc) (st : entry × Scanner) : Filled :=
  match loop bd.FillBody (2 * st.2.toks.length + 2) st with
  | some r => r
  | none => { bd := bd, s := st.2, status := Status.unfinished }

/-- Go `BabelDesc.Fill`. -/
def BabelDesc.Fill (bd : BabelDesc) (s : Scanner) : Filled :=
  bd.FillFrom (fillEntry, s)

/-! ## Tokenizer -/

/-- The bytes the tokenizer tells apart. -/
abbrev SP : Nat := 32
/-- Carriage return. -/
abbrev CR : Nat := 13
/-- Line feed. -/
abbrev LF : Nat := 10
/-- Double quote. -/
abbrev QUOTE : Nat := 34
/-- Backslash. -/
abbrev BSLASH : Nat := 92

/-- How a call that indexes the buffer ends: it returns, it reads an index
outside the buffer (a runtime panic), or (in the embedding only) the bound on
the passes of a loop is reached first. -/
inductive Outcome (α : Type)
  | returned (a : α)
  | outOfRange
  | unfinished
  deriving DecidableEq, Repr

/-- Go `data[lo:hi]`; `none` when the bounds are not `lo ≤ hi ≤ len(data)`. -/
def slice (data : List Nat) (lo hi : Nat) : Option (List Nat) :=
  if lo ≤ hi ∧ hi ≤ data.length then some ((data.drop lo).take (hi - lo)) else none

/-- Go `i < len(data)-1 && data[i] == '\\' && data[i+1] == '"'`; `none` when an
index outside the buffer is read. -/
def escapeAt (data : List Nat) (i : Nat) : Option Bool :=
  if i < data.length - 1 then
    match data[i]? with
    | none => none
    | some c =>
      if c = BSLASH then
        match data[i + 1]? with
        | none => none
        | some c' => some (decide (c' = QUOTE))
      else some false
  else some false

/-- Body of the first loop of Go `split`, which skips spaces and carriage
returns; the state is `start`. -/
def skipBody (data : List Nat) (start : Nat) : Step (Outcome Nat) Nat :=
  if start < data.length then
    match data[start]? with
    | none => Step.done Outcome.outOfRange
    | some c =>
      if c = SP ∨ c = CR then Step.next (start + 1)
      else Step.done (Outcome.returned start)
  else Step.done (Outcome.returned start)

/-- First loop of Go `split`, from the given value of `start`. -/
def skipFrom (data : List Nat) (start : Nat) : Outcome Nat :=
  match loop (skipBody data) (data.length - start + 1) start with
  | some r => r
  | none => Outcome.unfinished

/-- What `split` and `split_quotes` return: the advance, the token (`none` is
nil) and the error. -/
abbrev SplitResult := Nat × Option (List Nat) × Option Error

/-- State of the loops of `split` and `split_quotes`: `i`, `start`, `token`, `b`. -/
abbrev SplitState := Nat × Nat × List Nat × Bool

/-- Body of the loop of Go `split_quotes`, followed by the code after the loop
when the loop condition fails. -/
def quotesBody (data : List Nat) (st : SplitState) : Step (Outcome SplitResult) SplitState :=
  match st with
  | (i, start, token, b) =>
    let after : Step (Outcome SplitResult) SplitState :=
      if i < data.length then
        if b then Step.done (Outcome.returned (i + 1, some token, none))
        else
          match slice data start i with
          | none => Step.done Outcome.outOfRange
          | some seg => Step.done (Outcome.returned (i + 1, some (token ++ seg), none))
      else Step.done (Outcome.returned (0, none, some Error.ErrUnterminatedString))
    if i < data.length then
      match data[i]? with
      | none => Step.done Outcome.outOfRange
      | some c =>
        if c ≠ QUOTE then
          match escapeAt data i with
          | none => Step.done Outcome.outOfRange
          | some true =>
            match slice data start i with
            | none => Step.done Outcome.outOfRange
            | some seg => Step.next (i + 2, i + 2, token ++ (seg ++ [QUOTE]), true)
          | some false => Step.next (i + 1, start, token, false)
        else after
    else after

/-- Loop of Go `split_quotes` and the code after it, from the given state. -/
def quotesFrom (data : List Nat) (st : SplitState) : Outcome SplitResult :=
  match loop (quotesBody data) (data.length - st.1 + 1) st with
  | some r => r
  | none => Outcome.unfinished

/-- Go `split_quotes`, the closure of `split`, called with the index of the
opening quote. -/
def split_quotes (data : List Nat) (start : Nat) : Outcome SplitResult :=
  quotesFrom data (start + 1, start + 1, [], false)

/-- Body of the main loop of Go `split`, followed by the code after the loop
when the loop condition fails. -/
def splitBody (data : List Nat) (atEOF : Bool) (st : SplitState) :
    Step (Outcome SplitResult) SplitState :=
  match st with
  | (i, start, token, b) =>
    let after : Step (Outcome SplitResult) SplitState :=
      if b then Step.done (Outcome.returned (i, some token, none))
      else if i < data.length then
        match slice data start i with
        | none => Step.done Outcome.outOfRange
        | some seg => Step.done (Outcome.returned (i, some (token ++ seg), none))
      else if atEOF ∧ start < data.length then
        match slice data start data.length with
        | none => Step.done Outcome.outOfRange
        | some seg => Step.done (Outcome.returned (data.length, some (token ++ seg), none))
      else Step.done (Outcome.returned (start, none, none))
    if i < data.length then
      match data[i]? with
      | none => Step.done Outcome.outOfRange
      | some c =>
        if c ≠ SP ∧ c ≠ CR ∧ c ≠ LF then
          match escapeAt data i with
          | none => Step.done Outcome.outOfRange
          | some true => Step.next (i + 2, i + 2, token ++ [QUOTE], b)
          | some false =>
            if c = QUOTE then
              match slice data start i with
              | none => Step.done Outcome.outOfRange
              | some seg =>
                match split_quotes data i with
                | Outcome.outOfRange => Step.done Outcome.outOfRange
                | Outcome.unfinished => Step.done Outcome.unfinished
                | Outcome.returned (n, quotok, err) =>
                  if err ≠ none then Step.done (Outcome.returned (n, quotok, err))
                  else
                    match quotok with
                    | none => Step.next (n, n, token ++ seg, true)
                    | some q => Step.next (n, n, (token ++ seg) ++ q, true)
            else Step.next (i + 1, start, token, false)
        else after
    else after

/-- Main loop of Go `split` and the code after it, from the given state. -/
def splitFrom (data : List Nat) (atEOF : Bool) (st : SplitState) : Outcome SplitResult :=
  match loop (splitBody data atEOF) (data.length - st.1 + 1) st with
  | some r => r
  | none => Outcome.unfinished

/-- Go `split`, the split function of the scanner. -/
def split (data : List Nat) (atEOF : Bool) : Outcome SplitResult :=
  match skipFrom data 0 with
  | Outcome.outOfRange => Outcome.outOfRange
  | Outcome.unfinished => Outcome.unfinished
  | Outcome.returned start =>
    if start < data.length then
      match data[start]? with
      | none => Outcome.outOfRange
      | some c =>
        if c = LF then Outcome.returned (start + 1, some [LF], none)
        else splitFrom data atEOF (start, start, [], false)
    else splitFrom data atEOF (start, start, [], false)

/-- The bytes of a text of ASCII characters. -/
def bytes (s : String) : List Nat := s.toList.map Char.toNat

/-- Go `s.Text()` for a token of ASCII bytes. -/
def Text (token : List Nat) : String := String.mk (token.map Char.ofNat)

/-! ## Vocabulary of the properties -/

/-- A token that `nextWord` reports as a word, not as the end of a line. -/
def Word (w : String) : Prop := w ≠ "\n"

instance (w : String) : Decidable (Word w) := inferInstanceAs (Decidable (w ≠ "\n"))

/-- The action words. -/
def IsAction (w : String) : Prop := w = "add" ∨ w = "change" ∨ w = "flush"

instance (w : String) : Decidable (IsAction w) :=
  inferInstanceAs (Decidable (w = "add" ∨ w = "change" ∨ w = "flush"))

/-- Tokens of a sequence of field-name/value pairs. -/
def pairToks : List (String × String) → List String
  | [] => []
  | (k, v) :: rest => k :: v :: pairToks rest

/-- A decoder that reads one token with `nextWord`, passes on its error, and
otherwise decodes the word it read. -/
def WordDecoder (p : entryParser) : Prop :=
  ∃ (onErr : Value) (decode : String → Value × Option Error),
    (∀ w, (decode w).2 ≠ some Error.EOF ∧ (decode w).2 ≠ some Error.errEOL) ∧
    ∀ s, p s =
      match nextWord s with
      | (w, none, s') => ((decode w).1, (decode w).2, s')
      | (_, some err, s') => (onErr, some err, s')

/-- Every decoder of the entry is a word decoder. -/
def entry.Decoders (e : entry) : Prop :=
  ∀ k v, e.get k = some v → WordDecoder v.parser

/-- The decoders of `e'` are those of `e`, field by field. -/
def entry.SameDecoders (e e' : entry) : Prop :=
  ∀ k, (e'.get k).map entryValue.parser = (e.get k).map entryValue.parser

/-- Field-name/value pairs made of words in which the value of every field
that `e` knows decodes without error. -/
def entry.Accepts (e : entry) (pairs : List (String × String)) : Prop :=
  ∀ p ∈ pairs, Word p.1 ∧ Word p.2 ∧
    ∀ value, e.get p.1 = some value → (value.parser ⟨[p.2], none⟩).2.1 = none

/-- The entry `(table, id)` is stored in the router state. -/
def BabelDesc.Stored (bd : BabelDesc) (tk ek : String) : Prop :=
  ∃ t e, bd.ts.get tk = some t ∧ t.dict.get ek = some e

/-- The flush events for the entries a router state holds, table by table in
iteration order. -/
def BabelDesc.flushes (lib : Lib) (bd : BabelDesc) : List SBabelUpdate :=
  bd.ts.items.flatMap (fun tp =>
    tp.2.dict.items.map (fun ep =>
      ({ name := bd.Name, router := bd.ID, action := "flush", table := tp.1,
         entry := ep.1, entryData := ep.2 } : BabelUpdate).ToSUpdate lib))

/-- A downstream mirror of one router: the `(table, id)` pairs it holds. -/
abbrev Mirror := List (String × String)

/-- Effect of one emitted event on a mirror: `add` inserts the entry, `flush`
removes it, any other event leaves the set of entries as it is. -/
def Mirror.apply (m : Mirror) (u : SBabelUpdate) : Mirror :=
  if u.Action = "add" then
    (if (u.Table, u.Entry) ∈ m then m else m ++ [(u.Table, u.Entry)])
  else if u.Action = "flush" then m.filter (fun p => decide (p ≠ (u.Table, u.Entry)))
  else m

/-- Replay of a sequence of emitted events onto a mirror. -/
def Mirror.replay (m : Mirror) (events : List SBabelUpdate) : Mirror :=
  events.foldl Mirror.apply m

/-- The mirror obtained by replaying the events holds exactly the stored entries. -/
def Agrees (out : List SBabelUpdate) (bd : BabelDesc) : Prop :=
  ∀ tk ek, (tk, ek) ∈ Mirror.replay [] out ↔ bd.Stored tk ek

/-- The router state has a table for every table kind, and every stored entry
has the field names of the schema of its table. -/
def BabelDesc.WellFormed (lib : Lib) (bd : BabelDesc) : Prop :=
  (∀ t, (makeEntry lib t).2 = none → ∃ tbl, bd.ts.get t = some tbl) ∧
  ∀ t tbl id e, bd.ts.get t = some tbl → tbl.dict.get id = some e →
    e.keys = (makeEntry lib t).1.keys

/-- A blank: a space or a carriage return, which `split` skips before a token. -/
def Blank (c : Nat) : Prop := c = SP ∨ c = CR

instance : DecidablePred Blank := fun c => by unfold Blank; infer_instance

/-- A delimiter: a space, a carriage return or a newline, which ends an unquoted run. -/
def Delim (c : Nat) : Prop := c = SP ∨ c = CR ∨ c = LF

instance : DecidablePred Delim := fun c => by unfold Delim; infer_instance

/-- A byte of a literal segment: no delimiter, no quote, no backslash. -/
def Plain (c : Nat) : Prop := c ≠ SP ∧ c ≠ CR ∧ c ≠ LF ∧ c ≠ QUOTE ∧ c ≠ BSLASH

instance : DecidablePred Plain := fun c => by unfold Plain; infer_instance

/-- A byte of a piece of quoted content: no quote and no backslash. -/
def Inner (c : Nat) : Prop := c ≠ QUOTE ∧ c ≠ BSLASH

instance : DecidablePred Inner := fun c => by unfold Inner; infer_instance

/-- The bytes `data[i], …, data[i + k - 1]` exist and all satisfy `P`. -/
def RunAt (P : Nat → Prop) (data : List Nat) (i k : Nat) : Prop :=
  ∀ j, j < k → ∃ c, data[i + j]? = some c ∧ P c

/-- The pieces joined by a separator. -/
def joinWith (sep : List Nat) : List (List Nat) → List Nat
  | [] => []
  | [p] => p
  | p :: q :: ps => p ++ sep ++ joinWith sep (q :: ps)

/-- The escape sequence: a backslash and a quote. -/
abbrev ESC : List Nat := [BSLASH, QUOTE]

/-- The content of a quoted run with each escape sequence replaced by a quote. -/
def unescape : List Nat → List Nat
  | [] => []
  | [c] => [c]
  | c :: c' :: r =>
    if c = BSLASH ∧ c' = QUOTE then QUOTE :: unescape r else c :: unescape (c' :: r)

/-- The length of the leading run of spaces and carriage returns of a buffer. -/
def leadingBlanks (data : List Nat) : Nat :=
  (data.takeWhile (fun c => decide (Blank c))).length

/-- No quote of the content of a quoted run closes it: each quote follows a
backslash. -/
def Unclosed (q : List Nat) : Prop :=
  ∀ j, j < q.length → q[j]? = some QUOTE → 0 < j ∧ q[j - 1]? = some BSLASH

instance : DecidablePred Unclosed := fun q => by unfold Unclosed; infer_instance

/-- Tokens of greeting lines, each a name, a value and the end of the line. -/
def lineToks : List (String × String) → List String
  | [] => []
  | (k, v) :: rest => k :: v :: "\n" :: lineToks rest

/-- The value of the last of the lines that has the name `k`, if there is one. -/
def lastValue (k : String) (lines : List (String × String)) : Option String :=
  lookupIn k lines.reverse

/-- What reading the line `k v` does to an entry of text fields: a known field
takes the value, an unknown name changes nothing. -/
def entry.readLine (e : entry) (p : String × String) : entry :=
  match e.get p.1 with
  | some f => e.set p.1 { f with data := Value.str p.2 }
  | none => e

/-- Every field of the entry is decoded by `ParseString`. -/
def entry.TextFields (e : entry) : Prop :=
  ∀ k f, e.get k = some f → f.parser = ParseString

/-- The field `my-id` of the entry is there and not filled. -/
def entry.AwaitsId (e : entry) : Prop :=
  ∃ f, e.get "my-id" = some f ∧ f.data = Value.null

/-- The states of the loop of `Listen` that a session reaches from a fresh
router state, whatever its identity, the feed and the events already sent. -/
inductive Reachable (lib : Lib) : BabelDesc × Scanner × List SBabelUpdate → Prop
  | start (i n v : String) (s : Scanner) (out : List SBabelUpdate) :
    Reachable lib ({ NewBabelDesc with ID := i, Name := n, Version := v }, s, out)
  | pass (st st' : BabelDesc × Scanner × List SBabelUpdate) :
    Reachable lib st → BabelDesc.ListenBody lib st = Step.next st' → Reachable lib st'

/-! ## The library functions, for worked inputs

`goLib` computes the library functions on the textual forms that occur in the
monitor feed, following the documented behaviour of `strconv` and `net`:
integers in a given base and bit size, dotted-quad IPv4 addresses, colon-hex
IPv6 addresses (with `::` and an embedded dotted quad), and CIDR prefixes.  It
is used for the worked inputs only; the general properties hold for every
`Lib`. -/

/-- Value of a digit character in `strconv` (`0-9`, `a-z`, `A-Z`). -/
def digitVal (c : Char) : Option Nat :=
  if '0' ≤ c ∧ c ≤ '9' then some (c.toNat - '0'.toNat)
  else if 'a' ≤ c ∧ c ≤ 'z' then some (c.toNat - 'a'.toNat + 10)
  else if 'A' ≤ c ∧ c ≤ 'Z' then some (c.toNat - 'A'.toNat + 10)
  else none

/-- The two errors of `strconv`: `ErrSyntax` and `ErrRange`. -/
inductive NumErr
  | ErrSyntax
  | ErrRange
  deriving DecidableEq, Repr

/-- Digit loop of `strconv.ParseUint`: the digits are accumulated left to right,
a character that is no digit of the base is a syntax error, a value above
`maxVal` a range error. -/
def parseDigits (base maxVal : Nat) : List Char → Nat → Except NumErr Nat
  | [], n => .ok n
  | c :: cs, n =>
    match digitVal c with
    | none => .error NumErr.ErrSyntax
    | some d =>
      if d ≥ base then .error NumErr.ErrSyntax
      else if n * base + d > maxVal then .error NumErr.ErrRange
      else parseDigits base maxVal cs (n * base + d)

/-- Text of a `strconv.NumError`. -/
def numErrorText (fn s : String) : NumErr → String
  | NumErr.ErrSyntax => "strconv." ++ fn ++ ": parsing \"" ++ s ++ "\": invalid syntax"
  | NumErr.ErrRange => "strconv." ++ fn ++ ": parsing \"" ++ s ++ "\": value out of range"

/-- Go `strconv.ParseUint` for an explicit base. -/
def goParseUint (s : String) (base bitSize : Nat) : Except String Nat :=
  match s.toList with
  | [] => .error (numErrorText "ParseUint" s NumErr.ErrSyntax)
  | cs =>
    match parseDigits base (2 ^ bitSize - 1) cs 0 with
    | .ok n => .ok n
    | .error e => .error (numErrorText "ParseUint" s e)

/-- Go `strconv.ParseInt` for an explicit base. -/
def goParseInt (s : String) (base bitSize : Nat) : Except String Int :=
  match s.toList with
  | [] => .error (numErrorText "ParseInt" s NumErr.ErrSyntax)
  | c :: cs =>
    let neg := decide (c = '-')
    let ds := if c = '+' ∨ c = '-' then cs else c :: cs
    match ds with
    | [] => .error (numErrorText "ParseInt" s NumErr.ErrSyntax)
    | _ =>
      match parseDigits base (2 ^ bitSize - 1) ds 0 with
      | .error NumErr.ErrSyntax => .error (numErrorText "ParseInt" s NumErr.ErrSyntax)
      | .error NumErr.ErrRange => .error (numErrorText "ParseInt" s NumErr.ErrRange)
      | .ok un =>
        let cutoff := 2 ^ (bitSize - 1)
        if !neg ∧ un ≥ cutoff then .error (numErrorText "ParseInt" s NumErr.ErrRange)
        else if neg ∧ un > cutoff then .error (numErrorText "ParseInt" s NumErr.ErrRange)
        else if neg then .ok (- (un : Int)) else .ok (un : Int)

/-- Pieces of a text between occurrences of `sep` (Go `strings.Split`). -/
def splitOn (sep : Char) : List Char → List (List Char)
  | [] => [[]]
  | c :: cs =>
    match splitOn sep cs with
    | [] => [[]]
    | p :: ps => if c = sep then [] :: p :: ps else (c :: p) :: ps

/-- One octet of a dotted quad: decimal digits, no leading zero, at most 255. -/
def ipv4Field (cs : List Char) : Option Nat :=
  match cs with
  | [] => none
  | c :: rest =>
    if c = '0' ∧ rest ≠ [] then none
    else if cs.all (fun d => decide ('0' ≤ d ∧ d ≤ '9')) then
      match parseDigits 10 255 cs 0 with
      | .ok n => some n
      | .error _ => none
    else none

/-- Four octets of a dotted quad (`parseIPv4Fields` of `net/netip`). -/
def parseIPv4Fields (cs : List Char) : Option (List Nat) :=
  match (splitOn '.' cs).map ipv4Field with
  | [some a, some b, some c, some d] => some [a, b, c, d]
  | _ => none

/-- Value of a hexadecimal digit. -/
def hexVal (c : Char) : Option Nat :=
  if '0' ≤ c ∧ c ≤ '9' then some (c.toNat - '0'.toNat)
  else if 'a' ≤ c ∧ c ≤ 'f' then some (c.toNat - 'a'.toNat + 10)
  else if 'A' ≤ c ∧ c ≤ 'F' then some (c.toNat - 'A'.toNat + 10)
  else none

/-- Leading hexadecimal digits of a text: their count, their value, and the rest. -/
def takeHex : List Char → Nat → Nat → Nat × Nat × List Char
  | [], off, acc => (off, acc, [])
  | c :: cs, off, acc =>
    match hexVal c with
    | some d => takeHex cs (off + 1) (acc * 16 + d)
    | none => (off, acc, c :: cs)

/-- End of `parseIPv6`: the whole text must be used, and the ellipsis expands
to the missing zero bytes. -/
def finishIPv6 (ip : List Nat) (ellipsis : Option Nat) (s : List Char) : Option (List Nat) :=
  if s ≠ [] then none
  else if ip.length < 16 then
    match ellipsis with
    | none => none
    | some e => some (ip.take e ++ List.replicate (16 - ip.length) 0 ++ ip.drop e)
  else
    match ellipsis with
    | some _ => none
    | none => some ip

/-- Group loop of `parseIPv6`; `ip` holds the bytes parsed so far. -/
def loopIPv6 : Nat → List Nat → Option Nat → List Char → Option (List Nat)
  | 0, _, _, _ => none
  | fuel + 1, ip, ellipsis, s =>
    match takeHex s 0 0 with
    | (off, acc, rest) =>
      if off > 4 then none
      else if off = 0 then none
      else if rest.head? = some '.' then
        if ellipsis = none ∧ ip.length ≠ 12 then none
        else if ip.length + 4 > 16 then none
        else
          match parseIPv4Fields s with
          | none => none
          | some v4 => finishIPv6 (ip ++ v4) ellipsis []
      else
        let ip := ip ++ [acc / 256, acc % 256]
        match rest with
        | [] => finishIPv6 ip ellipsis []
        | c :: s1 =>
          if c ≠ ':' then none
          else
            match s1 with
            | [] => none
            | c1 :: s2 =>
              if c1 = ':' then
                if ellipsis ≠ none then none
                else if s2 = [] then finishIPv6 ip (some ip.length) []
                else if ip.length < 16 then loopIPv6 fuel ip (some ip.length) s2
                else finishIPv6 ip (some ip.length) s2
              else if ip.length < 16 then loopIPv6 fuel ip ellipsis s1
              else finishIPv6 ip ellipsis s1

/-- Function `parseIPv6` of `net/netip`, for a text without zone. -/
def parseIPv6 (s : List Char) : Option (List Nat) :=
  match s with
  | ':' :: ':' :: rest =>
    if rest = [] then some (List.replicate 16 0)
    else loopIPv6 (rest.length + 1) [] (some 0) rest
  | _ => loopIPv6 (s.length + 1) [] none s

/-- Address denoted by a text (`netip.ParseAddr` without zone): the four bytes
of an IPv4 address or the sixteen bytes of an IPv6 address. -/
def parseAddr (s : List Char) : Option (List Nat) :=
  match s.find? (fun c => c = '.' ∨ c = ':' ∨ c = '%') with
  | some '.' => parseIPv4Fields s
  | some ':' => parseIPv6 s
  | _ => none

/-- The 16-byte form of an address (`Addr.As16`). -/
def as16 (a : List Nat) : List Nat :=
  if a.length = 4 then List.replicate 10 0 ++ [255, 255] ++ a else a

/-- Go `net.ParseIP`. -/
def goParseIP (s : String) : Option IP := (parseAddr s.toList).map as16

/-- Decimal digits of a number. -/
def decimal (n : Nat) : String := String.mk (Nat.toDigits 10 n)

/-- Hexadecimal digits of a number, lower case. -/
def hexadecimal (n : Nat) : String := String.mk (Nat.toDigits 16 n)

/-- Go `IP.To4`: the four bytes of an IPv4 address in either form. -/
def to4 (ip : List Nat) : Option (List Nat) :=
  if ip.length = 4 then some ip
  else if ip.length = 16 ∧ ip.take 10 = List.replicate 10 0 ∧ (ip.drop 10).take 2 = [255, 255] then
    some (ip.drop 12)
  else none

/-- The eight 16-bit groups of a 16-byte address. -/
def groups16 : List Nat → List Nat
  | hi :: lo :: rest => (hi * 256 + lo) :: groups16 rest
  | _ => []

/-- Length of the run of zero groups at the head of a list. -/
def zeroRun : List Nat → Nat
  | 0 :: rest => zeroRun rest + 1
  | _ => 0

/-- Start and length of the first longest run of at least two zero groups,
scanning from group `i`. -/
def longestZeroRun : List Nat → Nat → Option (Nat × Nat) → Option (Nat × Nat)
  | [], _, best => best
  | g :: rest, i, best =>
    let l := zeroRun (g :: rest)
    let best' :=
      if l ≥ 2 ∧ l > (match best with | some (_, b) => b | none => 0) then some (i, l) else best
    longestZeroRun rest (i + 1) best'

/-- Colon-separated hexadecimal groups. -/
def joinGroups (gs : List Nat) : String := ":".intercalate (gs.map hexadecimal)

/-- Go `net.IP.String`. -/
def goIPString (ip : IP) : String :=
  if ip.length = 0 then "<nil>"
  else
    match to4 ip with
    | some p4 => ".".intercalate (p4.map decimal)
    | none =>
      if ip.length ≠ 16 then "?" ++ String.join (ip.map (fun b => hexadecimal (b / 16) ++ hexadecimal (b % 16)))
      else
        let gs := groups16 ip
        match longestZeroRun gs 0 none with
        | none => joinGroups gs
        | some (i, l) => joinGroups (gs.take i) ++ "::" ++ joinGroups (gs.drop (i + l))

/-- Go `net.CIDRMask(ones, bits)`. -/
def cidrMask (ones bits : Nat) : List Nat :=
  (List.range (bits / 8)).map (fun i =>
    if ones ≥ 8 * (i + 1) then 255
    else if ones ≤ 8 * i then 0
    else 256 - 2 ^ (8 - (ones - 8 * i)))

/-- Go `net.ParseCIDR`, the network it returns. -/
def goParseCIDR (s : String) : Except String IPNet :=
  match splitOn '/' s.toList with
  | addr :: m :: more =>
    let mask := m ++ (more.map (fun p => '/' :: p)).flatten
    match parseAddr addr with
    | none => .error ("invalid CIDR address: " ++ s)
    | some a =>
      if mask = [] ∨ ¬ mask.all (fun d => decide ('0' ≤ d ∧ d ≤ '9')) then
        .error ("invalid CIDR address: " ++ s)
      else
        match parseDigits 10 16777215 mask 0 with
        | .error _ => .error ("invalid CIDR address: " ++ s)
        | .ok n =>
          if n > 8 * a.length then .error ("invalid CIDR address: " ++ s)
          else
            let mk := cidrMask n (8 * a.length)
            .ok { ip := List.zipWith (fun x y => Nat.land x y) a mk, mask := mk }
  | _ => .error ("invalid CIDR address: " ++ s)

/-- Number of leading one bits of a byte, when the byte is a prefix of ones. -/
def byteOnes (b : Nat) : Option Nat :=
  (List.range 9).find? (fun k => decide (b = 256 - 2 ^ (8 - k)))

/-- Go `simpleMaskLength`: the number of leading ones of a mask made of ones
followed by zeros. -/
def simpleMaskLength : List Nat → Option Nat
  | [] => some 0
  | b :: rest =>
    if b = 255 then (simpleMaskLength rest).map (fun n => n + 8)
    else if rest.all (fun x => decide (x = 0)) then byteOnes b
    else none

/-- Go `networkNumberAndMask`: address and mask brought to the same length. -/
def networkNumberAndMask (n : IPNet) : Option (List Nat × List Nat) :=
  let ip := match to4 n.ip with
    | some p4 => some p4
    | none => if n.ip.length = 16 then some n.ip else none
  match ip with
  | none => none
  | some ip =>
    if n.mask.length = 4 then (if ip.length = 4 then some (ip, n.mask) else none)
    else if n.mask.length = 16 then
      (if ip.length = 4 then some (ip, n.mask.drop 12) else some (ip, n.mask))
    else none

/-- Go `(*net.IPNet).String`. -/
def goIPNetString (n : IPNet) : String :=
  match networkNumberAndMask n with
  | none => "<nil>"
  | some (nn, m) =>
    match simpleMaskLength m with
    | some l => goIPString nn ++ "/" ++ decimal l
    | none =>
      goIPString nn ++ "/" ++
        String.join (m.map (fun b => hexadecimal (b / 16) ++ hexadecimal (b % 16)))

/-- The library functions, computed. -/
def goLib : Lib :=
  { ParseInt := goParseInt, ParseUint := goParseUint, ParseIP := goParseIP,
    ParseCIDR := goParseCIDR, IPString := goIPString, IPNetString := goIPNetString }

/-! ## Worked inputs -/

/-- A feed that the scanner delivers as the given tokens and that ends with `io.EOF`. -/
def feed (toks : List String) : Scanner := { toks := toks, err := none }

/-- The entry decoded from `address 2001:db8::1 cost 96` as a neighbour. -/
def entryA : entry :=
  ((NewNeighbourEntry goLib).set "address"
      { data := Value.ip [32, 1, 13, 184, 0, 0, 0, 0, 0, 0, 0, 0, 0, 0, 0, 1],
        parser := ParseIp goLib }).set "cost"
    { data := Value.uint 96, parser := GetUintParser goLib 10 32 }

/-- The neighbour table holding `entryA` under the id `n1`. -/
def tableA : table := { dict := (GoMap.empty : GoMap entry).set "n1" entryA }

/-- Router state after the feed `add neighbour n1 address 2001:db8::1 cost 96`. -/
def stateA : BabelDesc :=
  (NewBabelDesc.Listen goLib
    (feed ["add", "neighbour", "n1", "address", "2001:db8::1", "cost", "96", "\n"]) []).bd

/-- The update of the line `change neighbour n1 address 2001:db8::1 cost 96`. -/
def changeA : BabelUpdate :=
  { name := "", router := "", action := "change", table := "neighbour", entry := "n1",
    entryData := entryA }

/-- The entry decoded from `cost 128` as a neighbour. -/
def entryC : entry :=
  (NewNeighbourEntry goLib).set "cost"
    { data := Value.uint 128, parser := GetUintParser goLib 10 32 }

/-- The update of the line `change neighbour n1 cost 128`. -/
def changeC : BabelUpdate :=
  { name := "", router := "", action := "change", table := "neighbour", entry := "n1",
    entryData := entryC }

/-- Router state after the feed of Scenario A followed by `change neighbour n1 cost 128`. -/
def stateC : BabelDesc :=
  (NewBabelDesc.Listen goLib
    (feed ["add", "neighbour", "n1", "address", "2001:db8::1", "cost", "96", "\n",
           "change", "neighbour", "n1", "cost", "128", "\n"]) []).bd

/-! ## Properties of Go maps -/

theorem GoMap.ext_items {α : Type} {m n : GoMap α} (h : m.items = n.items) : m = n := by
  cases m; cases n; cases h; rfl

theorem lookupIn_replaceIn_same {α : Type} (k : String) (v : α) (l : List (String × α)) :
    lookupIn k (replaceIn k v l) = some v := by
  induction l with
  | nil => simp [replaceIn, lookupIn]
  | cons p rest ih =>
    obtain ⟨k', v'⟩ := p
    by_cases h : k' = k
    · simp [replaceIn, lookupIn, h]
    · simp [replaceIn, lookupIn, h, ih]

theorem lookupIn_replaceIn_ne {α : Type} (k k' : String) (v : α) (l : List (String × α))
    (hne : k' ≠ k) : lookupIn k' (replaceIn k v l) = lookupIn k' l := by
  induction l with
  | nil =>
    have : ¬ k = k' := fun e => hne e.symm
    simp [replaceIn, lookupIn, this]
  | cons p rest ih =>
    obtain ⟨k₀, v₀⟩ := p
    by_cases h : k₀ = k
    · subst h
      have : ¬ k₀ = k' := fun e => hne e.symm
      simp [replaceIn, lookupIn, this]
    · simp only [replaceIn, h, if_false, lookupIn, ih]

theorem lookupIn_eraseIn_same {α : Type} (k : String) (l : List (String × α)) :
    lookupIn k (eraseIn k l) = none := by
  induction l with
  | nil => simp [eraseIn, lookupIn]
  | cons p rest ih =>
    obtain ⟨k', v'⟩ := p
    simp only [eraseIn] at ih
    by_cases h : k' = k
    · simp [eraseIn, List.filter_cons, h, ih]
    · simp [eraseIn, List.filter_cons, h, lookupIn, ih]

theorem lookupIn_eraseIn_ne {α : Type} (k k' : String) (l : List (String × α)) (hne : k' ≠ k) :
    lookupIn k' (eraseIn k l) = lookupIn k' l := by
  induction l with
  | nil => simp [eraseIn, lookupIn]
  | cons p rest ih =>
    obtain ⟨k₀, v₀⟩ := p
    simp only [eraseIn] at ih
    by_cases h : k₀ = k
    · subst h
      have : ¬ k₀ = k' := fun e => hne e.symm
      simp [eraseIn, List.filter_cons, lookupIn, this, ih]
    · simp [eraseIn, List.filter_cons, h, lookupIn, ih]

theorem lookupIn_replaceIn_self {α : Type} (k : String) (v : α) (l : List (String × α))
    (h : lookupIn k l = some v) : replaceIn k v l = l := by
  induction l with
  | nil => simp [lookupIn] at h
  | cons p rest ih =>
    obtain ⟨k', v'⟩ := p
    by_cases hk : k' = k
    · subst hk
      simp only [lookupIn, if_true, Option.some.injEq] at h
      simp [replaceIn, h]
    · simp only [lookupIn, hk, if_false] at h
      simp [replaceIn, hk, ih h]

theorem lookupIn_none_iff {α : Type} (k : String) (l : List (String × α)) :
    lookupIn k l = none ↔ k ∉ l.map Prod.fst := by
  induction l with
  | nil => simp [lookupIn]
  | cons p rest ih =>
    obtain ⟨k', v'⟩ := p
    by_cases hk : k' = k
    · simp [lookupIn, hk]
    · have : ¬ k = k' := fun e => hk e.symm
      simp [lookupIn, hk, ih, this]

theorem mem_iff_lookupIn {α : Type} (l : List (String × α)) (hn : (l.map Prod.fst).Nodup)
    (k : String) (v : α) : (k, v) ∈ l ↔ lookupIn k l = some v := by
  induction l with
  | nil => simp [lookupIn]
  | cons p rest ih =>
    obtain ⟨k', v'⟩ := p
    simp only [List.map_cons, List.nodup_cons] at hn
    by_cases hk : k' = k
    · subst hk
      simp only [List.mem_cons, Prod.mk.injEq, true_and, lookupIn, if_true, Option.some.injEq]
      constructor
      · rintro (h | h)
        · exact h.symm
        · exact absurd (List.mem_map_of_mem Prod.fst h) hn.1
      · intro h; exact Or.inl h.symm
    · have : ¬ k = k' := fun e => hk e.symm
      simp [lookupIn, hk, this, ih hn.2]

namespace GoMap

variable {α : Type}

theorem get_set_same (m : GoMap α) (k : String) (v : α) : (m.set k v).get k = some v :=
  lookupIn_replaceIn_same k v m.items

theorem get_set_ne (m : GoMap α) (k k' : String) (v : α) (h : k' ≠ k) :
    (m.set k v).get k' = m.get k' :=
  lookupIn_replaceIn_ne k k' v m.items h

theorem get_delete_same (m : GoMap α) (k : String) : (m.delete k).get k = none :=
  lookupIn_eraseIn_same k m.items

theorem get_delete_ne (m : GoMap α) (k k' : String) (h : k' ≠ k) :
    (m.delete k).get k' = m.get k' :=
  lookupIn_eraseIn_ne k k' m.items h

theorem set_get_self (m : GoMap α) (k : String) (v : α) (h : m.get k = some v) :
    m.set k v = m :=
  GoMap.ext_items (lookupIn_replaceIn_self k v m.items h)

theorem mem_items_iff (m : GoMap α) (k : String) (v : α) :
    (k, v) ∈ m.items ↔ m.get k = some v :=
  mem_iff_lookupIn m.items m.nodup k v

theorem get_empty (k : String) : (GoMap.empty : GoMap α).get k = none := rfl

end GoMap

namespace GoMap

variable {α : Type}

theorem mem_keys_iff (m : GoMap α) (k : String) : k ∈ m.keys ↔ ∃ v, m.get k = some v := by
  have h := lookupIn_none_iff k m.items
  unfold GoMap.keys GoMap.get
  constructor
  · intro hk
    cases hl : lookupIn k m.items with
    | none => exact absurd hk (h.mp hl)
    | some v => exact ⟨v, rfl⟩
  · rintro ⟨v, hv⟩
    by_contra hk
    rw [h.mpr hk] at hv
    cases hv

end GoMap

/-! ## Bounded loops -/

theorem loop_done {ρ σ : Type} (body : σ → Step ρ σ) (n : Nat) (st : σ) (r : ρ)
    (h : body st = Step.done r) : loop body (n + 1) st = some r := by
  simp [loop, h]

theorem loop_next {ρ σ : Type} (body : σ → Step ρ σ) (n : Nat) (st st' : σ)
    (h : body st = Step.next st') : loop body (n + 1) st = loop body n st' := by
  simp [loop, h]

/-- A loop whose passes decrease a measure returns within any bound above the
measure, and with the same result. -/
theorem loop_fuel {ρ σ : Type} (body : σ → Step ρ σ) (μ : σ → Nat) (I : σ → Prop)
    (hI : ∀ st st', I st → body st = Step.next st' → I st' ∧ μ st' < μ st) :
    ∀ n m st, I st → μ st < n → μ st < m →
      loop body n st = loop body m st ∧ (loop body n st).isSome = true := by
  intro n
  induction n with
  | zero => intro m st _ h; exact absurd h (Nat.not_lt_zero _)
  | succ n ih =>
    intro m st hst hn hm
    cases m with
    | zero => exact absurd hm (Nat.not_lt_zero _)
    | succ m =>
      cases hb : body st with
      | done r => simp [loop, hb]
      | next st' =>
        obtain ⟨hst', hlt⟩ := hI st st' hst hb
        have h1 : μ st' < n := by omega
        have h2 : μ st' < m := by omega
        simpa [loop, hb] using ih m st' hst' h1 h2

/-- What holds of every result of the body under an invariant holds of the result of the loop. -/
theorem loop_result {ρ σ : Type} (body : σ → Step ρ σ) (I : σ → Prop) (Q : ρ → Prop)
    (hnext : ∀ st st', I st → body st = Step.next st' → I st')
    (hdone : ∀ st r, I st → body st = Step.done r → Q r) :
    ∀ n st r, I st → loop body n st = some r → Q r := by
  intro n
  induction n with
  | zero => intro st r _ h; simp [loop] at h
  | succ n ih =>
    intro st r hst h
    cases hb : body st with
    | done r' =>
      simp only [loop, hb, Option.some.injEq] at h
      exact h ▸ hdone st r' hst hb
    | next st' =>
      simp only [loop, hb] at h
      exact ih st' r (hnext st st' hst hb) h

/-! ## Reading words -/

theorem ScanError.toError_ne (e : ScanError) :
    e.toError ≠ Error.EOF ∧ e.toError ≠ Error.errEOL := by
  cases e <;> simp [ScanError.toError]

theorem Scanner.endErr_ne_errEOL (s : Scanner) : s.endErr ≠ Error.errEOL := by
  unfold Scanner.endErr Scanner.Err
  cases h : s.err with
  | none => simp
  | some e => simpa using (ScanError.toError_ne e).2

theorem nextWord_nil (err : Option ScanError) :
    nextWord ⟨[], err⟩ = ("", some (Scanner.endErr ⟨[], err⟩), ⟨[], err⟩) := by
  cases err <;> simp [nextWord, Scanner.Scan, Scanner.endErr, Scanner.Err]

theorem nextWord_eol (r : List String) (err : Option ScanError) :
    nextWord ⟨"\n" :: r, err⟩ = ("", some Error.errEOL, ⟨r, err⟩) := by
  simp [nextWord, Scanner.Scan]

theorem nextWord_word (w : String) (r : List String) (err : Option ScanError) (h : Word w) :
    nextWord ⟨w :: r, err⟩ = (w, none, ⟨r, err⟩) := by
  have h' : ¬ w = "\n" := h
  simp [nextWord, Scanner.Scan, h']

/-- The three ways a call of `nextWord` can go. -/
theorem nextWord_cases (s : Scanner) :
    (s.toks = [] ∧ nextWord s = ("", some s.endErr, s)) ∨
    (∃ r, s.toks = "\n" :: r ∧ nextWord s = ("", some Error.errEOL, ⟨r, s.err⟩)) ∨
    (∃ w r, s.toks = w :: r ∧ Word w ∧ nextWord s = (w, none, ⟨r, s.err⟩)) := by
  obtain ⟨toks, err⟩ := s
  cases toks with
  | nil => exact Or.inl ⟨rfl, nextWord_nil err⟩
  | cons w r =>
    by_cases h : w = "\n"
    · subst h; exact Or.inr (Or.inl ⟨r, rfl, nextWord_eol r err⟩)
    · exact Or.inr (Or.inr ⟨w, r, rfl, h, nextWord_word w r err h⟩)

/-- The scanner `nextWord` leaves behind has lost at most one token, and exactly
one when a word or an end of line was read. -/
theorem nextWord_length (s : Scanner) :
    (nextWord s).2.2.toks.length ≤ s.toks.length ∧
    (((nextWord s).2.1 = none ∨ (nextWord s).2.1 = some Error.errEOL) →
      (nextWord s).2.2.toks.length < s.toks.length) := by
  rcases nextWord_cases s with ⟨h0, h⟩ | ⟨r, h0, h⟩ | ⟨w, r, h0, -, h⟩
  · rw [h]
    refine ⟨Nat.le_refl _, ?_⟩
    rintro (h1 | h1)
    · cases h1
    · simp only [Option.some.injEq] at h1
      exact absurd h1 (Scanner.endErr_ne_errEOL s)
  · rw [h, h0]; simp
  · rw [h, h0]; simp

/-! ## The decoders read one word -/

theorem ParseString_wordDecoder : WordDecoder ParseString := by
  refine ⟨Value.str "", fun w => (Value.str w, none), by simp, ?_⟩
  intro s
  rcases nextWord_cases s with ⟨-, h⟩ | ⟨r, -, h⟩ | ⟨w, r, -, -, h⟩ <;>
    simp [ParseString, h]

theorem ParseBool_wordDecoder : WordDecoder ParseBool := by
  refine ⟨Value.null, fun w =>
    if w = "true" ∨ w = "yes" ∨ w = "oui" ∨ w = "tak" ∨ w = "да" then (Value.bool true, none)
    else if w = "false" ∨ w = "no" ∨ w = "non" ∨ w = "nie" ∨ w = "нет" then
      (Value.bool false, none)
    else (Value.null, some (Error.msg ("Syntax Error: '" ++ w ++ "' must be a boolean"))),
    ?_, ?_⟩
  · intro w
    dsimp only
    split
    · simp
    · split <;> simp
  · intro s
    rcases nextWord_cases s with ⟨-, h⟩ | ⟨r, -, h⟩ | ⟨w, r, -, -, h⟩
    · simp [ParseBool, h]
    · simp [ParseBool, h]
    · simp only [ParseBool, h]
      split
      · rfl
      · split <;> rfl

theorem GetIntParser_wordDecoder (lib : Lib) (base bitSize : Nat) :
    WordDecoder (GetIntParser lib base bitSize) := by
  refine ⟨Value.null, fun w =>
    match lib.ParseInt w base bitSize with
    | .error m => (Value.null, some (Error.msg m))
    | .ok i => (Value.int i, none), ?_, ?_⟩
  · intro w
    dsimp only
    split <;> simp
  · intro s
    rcases nextWord_cases s with ⟨-, h⟩ | ⟨r, -, h⟩ | ⟨w, r, -, -, h⟩
    · simp [GetIntParser, h]
    · simp [GetIntParser, h]
    · simp only [GetIntParser, h]
      split <;> rfl

theorem GetUintParser_wordDecoder (lib : Lib) (base bitSize : Nat) :
    WordDecoder (GetUintParser lib base bitSize) := by
  refine ⟨Value.null, fun w =>
    match lib.ParseUint w base bitSize with
    | .error m => (Value.null, some (Error.msg m))
    | .ok i => (Value.uint i, none), ?_, ?_⟩
  · intro w
    dsimp only
    split <;> simp
  · intro s
    rcases nextWord_cases s with ⟨-, h⟩ | ⟨r, -, h⟩ | ⟨w, r, -, -, h⟩
    · simp [GetUintParser, h]
    · simp [GetUintParser, h]
    · simp only [GetUintParser, h]
      split <;> rfl

theorem ParseIp_wordDecoder (lib : Lib) : WordDecoder (ParseIp lib) := by
  refine ⟨Value.null, fun w =>
    match lib.ParseIP w with
    | none => (Value.null, some (Error.msg ("Syntax Error: invalid IP address: " ++ w)))
    | some ip => (Value.ip ip, none), ?_, ?_⟩
  · intro w
    dsimp only
    split <;> simp
  · intro s
    rcases nextWord_cases s with ⟨-, h⟩ | ⟨r, -, h⟩ | ⟨w, r, -, -, h⟩
    · simp [ParseIp, h]
    · simp [ParseIp, h]
    · simp only [ParseIp, h]
      split <;> rfl

theorem ParsePrefix_wordDecoder (lib : Lib) : WordDecoder (ParsePrefix lib) := by
  refine ⟨Value.null, fun w =>
    match lib.ParseCIDR w with
    | .error m => (Value.null, some (Error.msg ("Syntax Error: " ++ m)))
    | .ok ip => (Value.ipnet ip, none), ?_, ?_⟩
  · intro w
    dsimp only
    split <;> simp
  · intro s
    rcases nextWord_cases s with ⟨-, h⟩ | ⟨r, -, h⟩ | ⟨w, r, -, -, h⟩
    · simp [ParsePrefix, h]
    · simp [ParsePrefix, h]
    · simp only [ParsePrefix, h]
      split <;> rfl

/-! ## Change suppression -/

theorem CheckLoop_spec (ed : entry) (l : List (String × entryValue))
    (hk : ∀ p ∈ l, ∃ v, ed.get p.1 = some v) :
    ∃ b, BabelDesc.CheckLoop ed l = some b ∧
      (b = false ↔ ∀ p ∈ l, ∀ v, ed.get p.1 = some v → DeepEqual v.data p.2.data = true) := by
  induction l with
  | nil => exact ⟨false, rfl, by simp⟩
  | cons p rest ih =>
    obtain ⟨key, value⟩ := p
    obtain ⟨v, hv⟩ := hk (key, value) (List.mem_cons_self _ _)
    obtain ⟨b, hb, hiff⟩ := ih (fun q hq => hk q (List.mem_cons_of_mem _ hq))
    cases hd : DeepEqual v.data value.data with
    | false =>
      refine ⟨true, by simp [BabelDesc.CheckLoop, hv, hd], ?_⟩
      constructor
      · intro h; cases h
      · intro h
        have := h (key, value) (List.mem_cons_self _ _) v hv
        rw [hd] at this
        cases this
    | true =>
      refine ⟨b, by simp [BabelDesc.CheckLoop, hv, hd, hb], ?_⟩
      rw [hiff]
      constructor
      · intro h q hq w hw
        rcases List.mem_cons.mp hq with rfl | hq
        · rw [hv] at hw
          cases hw
          exact hd
        · exact h q hq w hw
      · intro h q hq w hw
        exact h q (List.mem_cons_of_mem _ hq) w hw

/-- C1: for an update against a table of the router state whose id has a
stored entry with the same field names as the incoming entry, `CheckUpdate`
returns (it does not panic), and it returns false exactly when the action is
`change` and every field of the incoming data deep-equals the corresponding
field of the stored entry; `add` and `flush` therefore return true. -/
theorem CheckUpdate_false_iff (bd : BabelDesc) (upd : BabelUpdate) (t : table) (stored : entry)
    (ht : bd.ts.get upd.table = some t) (hs : t.dict.get upd.entry = some stored)
    (hf : ∀ k, k ∈ upd.entryData.keys ↔ k ∈ stored.keys) :
    ∃ b, bd.CheckUpdate upd = some b ∧
      (b = false ↔
        (upd.action = "change" ∧
          ∀ k vNew vOld, upd.entryData.get k = some vNew → stored.get k = some vOld →
            DeepEqual vNew.data vOld.data = true)) := by
  by_cases ha : upd.action = "change"
  · have hk : ∀ p ∈ stored.items, ∃ v, upd.entryData.get p.1 = some v := by
      intro p hp
      have : p.1 ∈ stored.keys := List.mem_map_of_mem Prod.fst hp
      exact (GoMap.mem_keys_iff _ _).mp ((hf p.1).mpr this)
    obtain ⟨b, hb, hiff⟩ := CheckLoop_spec upd.entryData stored.items hk
    refine ⟨b, by simp [BabelDesc.CheckUpdate, ha, ht, hs, hb], ?_⟩
    rw [hiff]
    constructor
    · intro h
      refine ⟨ha, ?_⟩
      intro k vNew vOld hn ho
      exact h (k, vOld) ((GoMap.mem_items_iff stored k vOld).mpr ho) vNew hn
    · rintro ⟨-, h⟩ p hp v hv
      exact h p.1 v p.2 hv ((GoMap.mem_items_iff stored p.1 p.2).mp hp)
  · refine ⟨true, by simp [BabelDesc.CheckUpdate, ha], ?_⟩
    constructor
    · intro h; cases h
    · rintro ⟨h, -⟩; exact absurd h ha

/-! ## Table operations -/

/-- C6: `Add` with an id already present returns the presence error ("Field
Already Exists"), `Change` and `Flush` with an id not present return the
absence error ("No Such Field"), and in each of these cases the table returned
is the table the call started from. -/
theorem table_failing_calls (t : table) (id : String) (e : entry) :
    (∀ old, t.dict.get id = some old →
      t.Add id e = (t, some (Error.entry entryError.FieldPresence)) ∧
      (t.Add id e).1.dict.get id = some old) ∧
    (t.dict.get id = none →
      t.Change id e = (t, some (Error.entry entryError.FieldAbsence)) ∧
      t.Flush id = (t, some (Error.entry entryError.FieldAbsence))) ∧
    entryError.FieldPresence.Error = "Field Already Exists" ∧
    entryError.FieldAbsence.Error = "No Such Field" := by
  refine ⟨?_, ?_, rfl, rfl⟩
  · intro old h
    simp [table.Add, h]
  · intro h
    simp [table.Change, table.Flush, h]

/-! ## Schema entries -/

theorem Decoders_set (e : entry) (k : String) (v : entryValue) (hD : e.Decoders)
    (hv : WordDecoder v.parser) : entry.Decoders (e.set k v) := by
  intro k' v' h
  by_cases hk : k' = k
  · subst hk
    rw [GoMap.get_set_same] at h
    cases h
    exact hv
  · rw [GoMap.get_set_ne _ _ _ _ hk] at h
    exact hD k' v' h

theorem Decoders_empty : entry.Decoders NewEntry := by
  intro k v h
  cases h

theorem AddField_Decoders (e : entry) (id : String) (p : entryParser) (hD : e.Decoders)
    (hp : WordDecoder p) : entry.Decoders (e.AddField id p).1 := by
  unfold entry.AddField
  cases e.get id with
  | some _ => exact hD
  | none => exact Decoders_set e id _ hD hp

theorem NewInterfaceEntry_Decoders (lib : Lib) : entry.Decoders (NewInterfaceEntry lib) := by
  unfold NewInterfaceEntry
  dsimp only
  refine AddField_Decoders _ _ _ ?_ (ParseIp_wordDecoder lib)
  refine AddField_Decoders _ _ _ ?_ (ParseIp_wordDecoder lib)
  refine AddField_Decoders _ _ _ ?_ (ParseBool_wordDecoder)
  exact Decoders_empty

theorem NewNeighbourEntry_Decoders (lib : Lib) : entry.Decoders (NewNeighbourEntry lib) := by
  unfold NewNeighbourEntry
  dsimp only
  refine AddField_Decoders _ _ _ ?_ (GetUintParser_wordDecoder lib _ _)
  refine AddField_Decoders _ _ _ ?_ (ParseString_wordDecoder)
  refine AddField_Decoders _ _ _ ?_ (GetUintParser_wordDecoder lib _ _)
  refine AddField_Decoders _ _ _ ?_ (GetUintParser_wordDecoder lib _ _)
  refine AddField_Decoders _ _ _ ?_ (GetUintParser_wordDecoder lib _ _)
  refine AddField_Decoders _ _ _ ?_ (GetUintParser_wordDecoder lib _ _)
  refine AddField_Decoders _ _ _ ?_ (ParseString_wordDecoder)
  refine AddField_Decoders _ _ _ ?_ (ParseIp_wordDecoder lib)
  exact Decoders_empty

theorem NewRouteEntry_Decoders (lib : Lib) : entry.Decoders (NewRouteEntry lib) := by
  unfold NewRouteEntry
  dsimp only
  refine AddField_Decoders _ _ _ ?_ (ParseString_wordDecoder)
  refine AddField_Decoders _ _ _ ?_ (ParseIp_wordDecoder lib)
  refine AddField_Decoders _ _ _ ?_ (GetUintParser_wordDecoder lib _ _)
  refine AddField_Decoders _ _ _ ?_ (GetIntParser_wordDecoder lib _ _)
  refine AddField_Decoders _ _ _ ?_ (ParseString_wordDecoder)
  refine AddField_Decoders _ _ _ ?_ (ParseBool_wordDecoder)
  refine AddField_Decoders _ _ _ ?_ (ParsePrefix_wordDecoder lib)
  refine AddField_Decoders _ _ _ ?_ (ParsePrefix_wordDecoder lib)
  exact Decoders_empty

theorem NewXrouteEntry_Decoders (lib : Lib) : entry.Decoders (NewXrouteEntry lib) := by
  unfold NewXrouteEntry
  dsimp only
  refine AddField_Decoders _ _ _ ?_ (GetUintParser_wordDecoder lib _ _)
  refine AddField_Decoders _ _ _ ?_ (ParsePrefix_wordDecoder lib)
  refine AddField_Decoders _ _ _ ?_ (ParsePrefix_wordDecoder lib)
  exact Decoders_empty

theorem makeEntry_Decoders (lib : Lib) (id : String) : entry.Decoders (makeEntry lib id).1 := by
  unfold makeEntry
  by_cases h1 : id = "interface"
  · rw [if_pos h1]; dsimp only; exact NewInterfaceEntry_Decoders lib
  · rw [if_neg h1]
    by_cases h2 : id = "neighbour"
    · rw [if_pos h2]; dsimp only; exact NewNeighbourEntry_Decoders lib
    · rw [if_neg h2]
      by_cases h3 : id = "route"
      · rw [if_pos h3]; dsimp only; exact NewRouteEntry_Decoders lib
      · rw [if_neg h3]
        by_cases h4 : id = "xroute"
        · rw [if_pos h4]; dsimp only; exact NewXrouteEntry_Decoders lib
        · rw [if_neg h4]; exact Decoders_empty

/-- The table kinds for which `makeEntry` returns an entry. -/
theorem makeEntry_ok_iff (lib : Lib) (id : String) :
    (makeEntry lib id).2 = none ↔
      id = "interface" ∨ id = "neighbour" ∨ id = "route" ∨ id = "xroute" := by
  unfold makeEntry
  by_cases h1 : id = "interface"
  · simp [h1]
  · by_cases h2 : id = "neighbour"
    · simp [h2]
    · by_cases h3 : id = "route"
      · simp [h3]
      · by_cases h4 : id = "xroute"
        · simp [h4]
        · simp [h1, h2, h3, h4]

/-! ## One pass of `Parse` -/

theorem WordDecoder.scanner {p : entryParser} (hp : WordDecoder p) (s : Scanner) :
    (p s).2.2 = (nextWord s).2.2 := by
  obtain ⟨onErr, decode, -, h⟩ := hp
  rw [h s]
  rcases nextWord_cases s with ⟨-, h1⟩ | ⟨r, -, h1⟩ | ⟨w, r, -, -, h1⟩ <;> rw [h1]

theorem WordDecoder.err_none {p : entryParser} (hp : WordDecoder p) (s : Scanner)
    (h : (p s).2.1 = none) : (nextWord s).2.1 = none := by
  obtain ⟨onErr, decode, -, hs⟩ := hp
  rw [hs s] at h
  rcases nextWord_cases s with ⟨-, h1⟩ | ⟨r, -, h1⟩ | ⟨w, r, -, -, h1⟩
  · rw [h1] at h; cases h
  · rw [h1] at h; cases h
  · rw [h1]

/-- The result of a word decoder on a scanner that holds a word next depends
on that word only. -/
theorem WordDecoder.onWord {p : entryParser} (hp : WordDecoder p) (v : String) (hv : Word v)
    (r r' : List String) (err err' : Option ScanError) :
    (p ⟨v :: r, err⟩).1 = (p ⟨v :: r', err'⟩).1 ∧
    (p ⟨v :: r, err⟩).2.1 = (p ⟨v :: r', err'⟩).2.1 ∧
    (p ⟨v :: r, err⟩).2.2 = ⟨r, err⟩ ∧
    (p ⟨v :: r, err⟩).2.1 ≠ some Error.EOF ∧ (p ⟨v :: r, err⟩).2.1 ≠ some Error.errEOL := by
  obtain ⟨onErr, decode, hd, hs⟩ := hp
  rw [hs, hs, nextWord_word v r err hv, nextWord_word v r' err' hv]
  exact ⟨rfl, rfl, rfl, (hd v).1, (hd v).2⟩

theorem ParseBody_nil (e : entry) (err : Option ScanError) :
    entry.ParseBody (e, ⟨[], err⟩) =
      Step.done (e, some (Scanner.endErr ⟨[], err⟩), ⟨[], err⟩) := by
  simp [entry.ParseBody, nextWord_nil]

theorem ParseBody_eol (e : entry) (r : List String) (err : Option ScanError) :
    entry.ParseBody (e, ⟨"\n" :: r, err⟩) = Step.done (e, some Error.errEOL, ⟨r, err⟩) := by
  simp [entry.ParseBody, nextWord_eol]

/-- An unknown field name followed by a word: both are skipped. -/
theorem ParseBody_unknown (e : entry) (u v : String) (r : List String) (err : Option ScanError)
    (hu : Word u) (hv : Word v) (hg : e.get u = none) :
    entry.ParseBody (e, ⟨u :: v :: r, err⟩) = Step.next (e, ⟨r, err⟩) := by
  simp [entry.ParseBody, nextWord_word u _ err hu, nextWord_word v _ err hv, hg]

/-- An unknown field name at the end of the line or of the input. -/
theorem ParseBody_unknown_end (e : entry) (u : String) (s1 : Scanner)
    (hu : Word u) (hg : e.get u = none) (x : Error) (s2 : Scanner)
    (hn : nextWord s1 = ("", some x, s2)) :
    entry.ParseBody (e, ⟨u :: s1.toks, s1.err⟩) = Step.done (e, some x, s2) := by
  simp [entry.ParseBody, nextWord_word u _ _ hu, hg, hn]

/-- A known field name: the pass is decided by what its decoder returns. -/
theorem ParseBody_known (e : entry) (k : String) (r : List String) (err : Option ScanError)
    (value : entryValue) (hk : Word k) (hg : e.get k = some value) :
    entry.ParseBody (e, ⟨k :: r, err⟩) =
      match value.parser ⟨r, err⟩ with
      | (new_data, err', s2) =>
        if err' ≠ none ∧ err' ≠ some Error.EOF ∧ err' ≠ some Error.errEOL then
          Step.done (e, err', s2)
        else if err' = some Error.EOF ∨ err' = some Error.errEOL then
          Step.done (e.set k { value with data := new_data }, err', s2)
        else
          Step.next (e.set k { value with data := new_data }, s2) := by
  simp only [entry.ParseBody, nextWord_word k _ _ hk, hg]

/-- A known field name whose value decodes: the value is stored and the loop goes on. -/
theorem ParseBody_known_ok (e : entry) (k v : String) (r : List String) (err : Option ScanError)
    (value : entryValue) (hk : Word k) (hg : e.get k = some value)
    (d : Value) (s2 : Scanner) (hp : value.parser ⟨v :: r, err⟩ = (d, none, s2)) :
    entry.ParseBody (e, ⟨k :: v :: r, err⟩) =
      Step.next (e.set k { value with data := d }, s2) := by
  rw [ParseBody_known e k _ err value hk hg, hp]
  simp

/-- A known field name whose value fails to decode: `Parse` returns the error
and the entry is left as it was. -/
theorem ParseBody_known_fail (e : entry) (k : String) (r : List String) (err : Option ScanError)
    (value : entryValue) (hk : Word k) (hg : e.get k = some value)
    (d : Value) (x : Error) (s2 : Scanner) (hp : value.parser ⟨r, err⟩ = (d, some x, s2))
    (hx : x ≠ Error.EOF ∧ x ≠ Error.errEOL) :
    entry.ParseBody (e, ⟨k :: r, err⟩) = Step.done (e, some x, s2) := by
  rw [ParseBody_known e k _ err value hk hg, hp]
  simp [hx.1, hx.2]

theorem keys_set_of_get {α : Type} (m : GoMap α) (k : String) (v v' : α)
    (h : m.get k = some v) : (m.set k v').keys = m.keys := by
  have hk : k ∈ m.keys := (GoMap.mem_keys_iff m k).mpr ⟨v, h⟩
  have keys : ∀ l : List (String × α), (replaceIn k v' l).map Prod.fst =
      if k ∈ l.map Prod.fst then l.map Prod.fst else l.map Prod.fst ++ [k] := by
    intro l
    induction l with
    | nil => simp [replaceIn]
    | cons p rest ih =>
      obtain ⟨k₀, v₀⟩ := p
      by_cases h : k₀ = k
      · subst h; simp [replaceIn]
      · have h' : ¬ k = k₀ := fun e => h e.symm
        simp only [replaceIn, h, if_false, List.map_cons, ih, List.mem_cons, h', false_or]
        split <;> simp
  unfold GoMap.keys GoMap.set
  simp only [keys]
  exact if_pos hk

/-- What a pass that goes round again has done: a token was consumed, the
field names and the decoders are as before. -/
theorem ParseBody_next (e : entry) (s : Scanner) (st' : entry × Scanner) (hD : e.Decoders)
    (h : entry.ParseBody (e, s) = Step.next st') :
    st'.1.Decoders ∧ st'.2.toks.length < s.toks.length ∧ st'.1.keys = e.keys ∧
      st'.2.err = s.err := by
  obtain ⟨toks, err⟩ := s
  cases toks with
  | nil => rw [ParseBody_nil] at h; cases h
  | cons w r =>
    by_cases hw : w = "\n"
    · subst hw; rw [ParseBody_eol] at h; cases h
    · cases hg : e.get w with
      | none =>
        rcases nextWord_cases ⟨r, err⟩ with ⟨-, h1⟩ | ⟨r', -, h1⟩ | ⟨v, r', h0, hv, h1⟩
        · rw [ParseBody_unknown_end e w ⟨r, err⟩ hw hg _ _ h1] at h; cases h
        · rw [ParseBody_unknown_end e w ⟨r, err⟩ hw hg _ _ h1] at h; cases h
        · simp only at h0
          subst h0
          rw [ParseBody_unknown e w v r' err hw hv hg] at h
          cases h
          exact ⟨hD, by simp only [List.length_cons]; omega, rfl, rfl⟩
      | some value =>
        have hwd := hD w value hg
        rw [ParseBody_known e w r err value hw hg] at h
        have hsc := hwd.scanner ⟨r, err⟩
        rcases hp : value.parser ⟨r, err⟩ with ⟨d, err', s2⟩
        rw [hp] at h hsc
        simp only at h hsc
        split at h
        · cases h
        · split at h
          · cases h
          · rename_i h1 h2
            cases h
            have herr : err' = none := by
              cases err' with
              | none => rfl
              | some x =>
                exfalso
                apply h1
                refine ⟨by simp, ?_, ?_⟩
                · intro hx; exact h2 (Or.inl hx)
                · intro hx; exact h2 (Or.inr hx)
            have hnone : (nextWord ⟨r, err⟩).2.1 = none :=
              hwd.err_none ⟨r, err⟩ (by rw [hp]; exact herr)
            have hlen := (nextWord_length ⟨r, err⟩).2 (Or.inl hnone)
            refine ⟨Decoders_set e w _ hD hwd, ?_, keys_set_of_get e w value _ hg, ?_⟩
            · simp only [hsc, List.length_cons]
              simp only at hlen
              omega
            · simp only [hsc]
              rcases nextWord_cases ⟨r, err⟩ with ⟨-, h1⟩ | ⟨r', -, h1⟩ | ⟨v, r', -, -, h1⟩ <;>
                rw [h1]

theorem nextWord_err (s : Scanner) : (nextWord s).2.2.err = s.err := by
  rcases nextWord_cases s with ⟨-, h1⟩ | ⟨r, -, h1⟩ | ⟨v, r, -, -, h1⟩ <;> rw [h1]

/-- What a pass that returns has done. -/
theorem ParseBody_done (e : entry) (s : Scanner) (r : entry × Option Error × Scanner)
    (hD : e.Decoders) (h : entry.ParseBody (e, s) = Step.done r) :
    r.1.Decoders ∧ r.2.2.toks.length ≤ s.toks.length ∧ r.1.keys = e.keys ∧
      r.2.2.err = s.err ∧ r.2.1 ≠ none ∧
      (r.2.1 = some Error.errEOL → r.2.2.toks.length < s.toks.length) := by
  obtain ⟨toks, err⟩ := s
  cases toks with
  | nil =>
    rw [ParseBody_nil] at h
    cases h
    refine ⟨hD, Nat.le_refl _, rfl, rfl, by simp, ?_⟩
    intro hx
    simp only [Option.some.injEq] at hx
    exact absurd hx (Scanner.endErr_ne_errEOL _)
  | cons w rest =>
    by_cases hw : w = "\n"
    · subst hw
      rw [ParseBody_eol] at h
      cases h
      exact ⟨hD, by simp, rfl, rfl, by simp, fun _ => by simp⟩
    · cases hg : e.get w with
      | none =>
        rcases nextWord_cases ⟨rest, err⟩ with ⟨h0, h1⟩ | ⟨r', h0, h1⟩ | ⟨v, r', h0, hv, h1⟩
        · rw [ParseBody_unknown_end e w ⟨rest, err⟩ hw hg _ _ h1] at h
          cases h
          refine ⟨hD, by simp, rfl, rfl, by simp, fun _ => by simp⟩
        · rw [ParseBody_unknown_end e w ⟨rest, err⟩ hw hg _ _ h1] at h
          cases h
          simp only at h0
          subst h0
          refine ⟨hD, by simp only [List.length_cons]; omega, rfl, rfl, by simp, fun _ => by
            simp only [List.length_cons]; omega⟩
        · simp only at h0
          subst h0
          rw [ParseBody_unknown e w v r' err hw hv hg] at h
          cases h
      | some value =>
        have hwd := hD w value hg
        rw [ParseBody_known e w rest err value hw hg] at h
        have hsc := hwd.scanner ⟨rest, err⟩
        have hlen := (nextWord_length ⟨rest, err⟩).1
        have herr := nextWord_err ⟨rest, err⟩
        rcases hp : value.parser ⟨rest, err⟩ with ⟨d, err', s2⟩
        rw [hp] at h hsc
        simp only at h hsc hlen herr
        rw [← hsc] at hlen herr
        have hlt : s2.toks.length < (w :: rest).length := by
          simp only [List.length_cons]; omega
        split at h
        · rename_i h1
          cases h
          exact ⟨hD, Nat.le_of_lt hlt, rfl, herr, h1.1, fun _ => hlt⟩
        · split at h
          · rename_i h2
            cases h
            refine ⟨Decoders_set e w _ hD hwd, Nat.le_of_lt hlt, keys_set_of_get e w value _ hg,
              herr, ?_, fun _ => hlt⟩
            rcases h2 with h2 | h2 <;> simp [h2]
          · cases h

/-- Unfolding of `Parse` by one pass of its loop. -/
theorem Parse_unfold (e : entry) (s : Scanner) (hD : e.Decoders) :
    e.Parse s =
      match entry.ParseBody (e, s) with
      | Step.done r => some r
      | Step.next st' => st'.1.Parse st'.2 := by
  unfold entry.Parse
  cases hb : entry.ParseBody (e, s) with
  | done r => simp [loop, hb]
  | next st' =>
    obtain ⟨hD', hlt, -, -⟩ := ParseBody_next e s st' hD hb
    rw [loop_next _ _ _ _ hb]
    exact (loop_fuel entry.ParseBody (fun st => st.2.toks.length) (fun st => st.1.Decoders)
      (fun st st'' hst hb' => ⟨(ParseBody_next st.1 st.2 st'' hst hb').1,
        (ParseBody_next st.1 st.2 st'' hst hb').2.1⟩)
      s.toks.length (st'.2.toks.length + 1) st' hD' hlt (Nat.lt_succ_self _)).1

/-- `Parse` returns, for entries whose decoders are word decoders; the scanner
it leaves behind has lost tokens only, the field names are those it started
with, and the error it returns is never nil. -/
theorem Parse_returns (e : entry) (s : Scanner) (hD : e.Decoders) :
    ∃ r, e.Parse s = some r ∧
      r.1.Decoders ∧ r.2.2.toks.length ≤ s.toks.length ∧ r.1.keys = e.keys ∧
      r.2.2.err = s.err ∧ r.2.1 ≠ none ∧
      (r.2.1 = some Error.errEOL → r.2.2.toks.length < s.toks.length) := by
  have hsome := (loop_fuel entry.ParseBody (fun st => st.2.toks.length) (fun st => st.1.Decoders)
      (fun st st'' hst hb' => ⟨(ParseBody_next st.1 st.2 st'' hst hb').1,
        (ParseBody_next st.1 st.2 st'' hst hb').2.1⟩)
      (s.toks.length + 1) (s.toks.length + 1) (e, s) hD (Nat.lt_succ_self _)
      (Nat.lt_succ_self _)).2
  obtain ⟨r, hr⟩ := Option.isSome_iff_exists.mp hsome
  refine ⟨r, hr, ?_⟩
  exact loop_result entry.ParseBody
    (fun st => st.1.Decoders ∧ st.2.toks.length ≤ s.toks.length ∧ st.1.keys = e.keys ∧
      st.2.err = s.err)
    (fun r => r.1.Decoders ∧ r.2.2.toks.length ≤ s.toks.length ∧ r.1.keys = e.keys ∧
      r.2.2.err = s.err ∧ r.2.1 ≠ none ∧
      (r.2.1 = some Error.errEOL → r.2.2.toks.length < s.toks.length))
    (fun st st' hst hb => by
      obtain ⟨h1, h2, h3, h4⟩ := ParseBody_next st.1 st.2 st' hst.1 hb
      exact ⟨h1, by omega, h3.trans hst.2.2.1, h4.trans hst.2.2.2⟩)
    (fun st r hst hb => by
      obtain ⟨h1, h2, h3, h4, h5, h6⟩ := ParseBody_done st.1 st.2 r hst.1 hb
      exact ⟨h1, by omega, h3.trans hst.2.2.1, h4.trans hst.2.2.2, h5, fun hx => by
        have := h6 hx; omega⟩)
    (s.toks.length + 1) (e, s) r ⟨hD, Nat.le_refl _, rfl, rfl⟩ hr

/-! ## One action line -/

theorem IsAction.isWord {w : String} (h : IsAction w) : Word w := by
  rcases h with h | h | h <;> subst h <;> unfold Word <;> decide

theorem ParseAction_nil (lib : Lib) (bd : BabelDesc) (err : Option ScanError) :
    bd.ParseAction lib ⟨[], err⟩ =
      some (emptyUpdate, some (Scanner.endErr ⟨[], err⟩), ⟨[], err⟩) := by
  simp [BabelDesc.ParseAction, nextWord_nil]

theorem ParseAction_eol (lib : Lib) (bd : BabelDesc) (r : List String) (err : Option ScanError) :
    bd.ParseAction lib ⟨"\n" :: r, err⟩ = some (emptyUpdate, some Error.errEOL, ⟨r, err⟩) := by
  simp [BabelDesc.ParseAction, nextWord_eol]

/-- A word that is no action word: it alone is consumed. -/
theorem ParseAction_other (lib : Lib) (bd : BabelDesc) (w : String) (r : List String)
    (err : Option ScanError) (hw : Word w) (ha : ¬ IsAction w) :
    bd.ParseAction lib ⟨w :: r, err⟩ = some (emptyUpdate, none, ⟨r, err⟩) := by
  have h : w ≠ "add" ∧ w ≠ "change" ∧ w ≠ "flush" :=
    ⟨fun h => ha (Or.inl h), fun h => ha (Or.inr (Or.inl h)), fun h => ha (Or.inr (Or.inr h))⟩
  simp [BabelDesc.ParseAction, nextWord_word w r err hw, h]

/-- An action word, a table kind and an id: the fields are parsed into a fresh
entry of that kind. -/
theorem ParseAction_line (lib : Lib) (bd : BabelDesc) (w t id : String) (r : List String)
    (err : Option ScanError) (ha : IsAction w) (ht : Word t) (hid : Word id)
    (e0 : entry) (hm : makeEntry lib t = (e0, none)) :
    bd.ParseAction lib ⟨w :: t :: id :: r, err⟩ =
      match e0.Parse ⟨r, err⟩ with
      | none => none
      | some (new_entry, err', s4) =>
        if err' ≠ some Error.EOF ∧ err' ≠ some Error.errEOL then some (emptyUpdate, err', s4)
        else some ({ name := bd.Name, router := bd.ID, action := w, table := t,
                     entry := id, entryData := new_entry }, err', s4) := by
  have h : ¬ (w ≠ "add" ∧ w ≠ "change" ∧ w ≠ "flush") := by
    rcases ha with h | h | h <;> simp [h]
  simp only [BabelDesc.ParseAction, nextWord_word w _ err ha.isWord, h, if_false,
    nextWord_word t _ err ht, nextWord_word id _ err hid, hm]

/-- An action word followed by a word that is no table kind. -/
theorem ParseAction_unknown_table (lib : Lib) (bd : BabelDesc) (w t id : String)
    (r : List String) (err : Option ScanError) (ha : IsAction w) (ht : Word t) (hid : Word id)
    (hm : (makeEntry lib t).2 ≠ none) :
    bd.ParseAction lib ⟨w :: t :: id :: r, err⟩ =
      some (emptyUpdate, some (Error.msg "Unknown table Id"), ⟨r, err⟩) := by
  have h : ¬ (w ≠ "add" ∧ w ≠ "change" ∧ w ≠ "flush") := by
    rcases ha with h | h | h <;> simp [h]
  have hm' : makeEntry lib t = (GoMap.empty, some (Error.msg "Unknown table Id")) := by
    unfold makeEntry at hm ⊢
    by_cases h1 : t = "interface"
    · simp [h1] at hm
    · by_cases h2 : t = "neighbour"
      · simp [h2] at hm
      · by_cases h3 : t = "route"
        · simp [h3] at hm
        · by_cases h4 : t = "xroute"
          · simp [h4] at hm
          · simp [h1, h2, h3, h4]
  simp only [BabelDesc.ParseAction, nextWord_word w _ err ha.isWord, h, if_false,
    nextWord_word t _ err ht, nextWord_word id _ err hid, hm']

/-- `ParseAction` returns.  The scanner it leaves behind has lost tokens only,
and at least one unless an error other than the end of a line is returned; the
update is `emptyUpdate`, or an action on a table kind with the field names of
that kind, returned together with the end of the line or of the input. -/
theorem ParseAction_returns (lib : Lib) (bd : BabelDesc) (s : Scanner) :
    ∃ upd err s', bd.ParseAction lib s = some (upd, err, s') ∧
      s'.toks.length ≤ s.toks.length ∧ s'.err = s.err ∧
      ((err = none ∨ err = some Error.errEOL) → s'.toks.length < s.toks.length) ∧
      (upd = emptyUpdate ∨
        (IsAction upd.action ∧ (makeEntry lib upd.table).2 = none ∧
          upd.entryData.keys = (makeEntry lib upd.table).1.keys ∧
          upd.name = bd.Name ∧ upd.router = bd.ID ∧
          (err = some Error.EOF ∨ err = some Error.errEOL))) := by
  obtain ⟨toks, serr⟩ := s
  -- first word
  rcases nextWord_cases ⟨toks, serr⟩ with ⟨h0, -⟩ | ⟨r, h0, -⟩ | ⟨w, r, h0, hw, -⟩ <;>
    simp only at h0 <;> subst h0
  · refine ⟨_, _, _, ParseAction_nil lib bd serr, Nat.le_refl _, rfl, ?_, Or.inl rfl⟩
    rintro (h | h)
    · cases h
    · simp only [Option.some.injEq] at h
      exact absurd h (Scanner.endErr_ne_errEOL _)
  · exact ⟨_, _, _, ParseAction_eol lib bd r serr, by simp, rfl, fun _ => by simp, Or.inl rfl⟩
  by_cases ha : IsAction w
  swap
  · exact ⟨_, _, _, ParseAction_other lib bd w r serr hw ha, by simp, rfl, fun _ => by simp,
      Or.inl rfl⟩
  have hna : ¬ (w ≠ "add" ∧ w ≠ "change" ∧ w ≠ "flush") := by
    rcases ha with h | h | h <;> simp [h]
  -- table word
  rcases nextWord_cases ⟨r, serr⟩ with ⟨h0, h1⟩ | ⟨r1, h0, h1⟩ | ⟨t, r1, h0, ht, -⟩ <;>
    simp only at h0 <;> subst h0
  · refine ⟨emptyUpdate, some (Scanner.endErr ⟨[], serr⟩), ⟨[], serr⟩, ?_, by simp, rfl, ?_,
      Or.inl rfl⟩
    · simp [BabelDesc.ParseAction, nextWord_word w _ serr hw, hna, nextWord_nil]
    · intro _; simp
  · refine ⟨emptyUpdate, some Error.errEOL, ⟨r1, serr⟩, ?_, ?_, rfl, ?_, Or.inl rfl⟩
    · simp [BabelDesc.ParseAction, nextWord_word w _ serr hw, hna, nextWord_eol]
    · simp only [List.length_cons]; omega
    · intro _; simp only [List.length_cons]; omega
  -- id word
  rcases nextWord_cases ⟨r1, serr⟩ with ⟨h0, h1⟩ | ⟨r2, h0, h1⟩ | ⟨id, r2, h0, hid, -⟩ <;>
    simp only at h0 <;> subst h0
  · refine ⟨emptyUpdate, some (Scanner.endErr ⟨[], serr⟩), ⟨[], serr⟩, ?_, by simp, rfl, ?_,
      Or.inl rfl⟩
    · simp [BabelDesc.ParseAction, nextWord_word w _ serr hw, hna, nextWord_word t _ serr ht,
        nextWord_nil]
    · intro _; simp
  · refine ⟨emptyUpdate, some Error.errEOL, ⟨r2, serr⟩, ?_, ?_, rfl, ?_, Or.inl rfl⟩
    · simp [BabelDesc.ParseAction, nextWord_word w _ serr hw, hna, nextWord_word t _ serr ht,
        nextWord_eol]
    · simp only [List.length_cons]; omega
    · intro _; simp only [List.length_cons]; omega
  -- the entry
  by_cases hm : (makeEntry lib t).2 = none
  swap
  · refine ⟨_, _, _, ParseAction_unknown_table lib bd w t id r2 serr ha ht hid hm, ?_, rfl, ?_,
      Or.inl rfl⟩
    · simp only [List.length_cons]; omega
    · intro _; simp only [List.length_cons]; omega
  have hm' : makeEntry lib t = ((makeEntry lib t).1, none) := by
    rw [← hm]
  obtain ⟨res, hres, -, hlen, hkeys, herr, hne, -⟩ :=
    Parse_returns (makeEntry lib t).1 ⟨r2, serr⟩ (makeEntry_Decoders lib t)
  obtain ⟨e', err', s4⟩ := res
  simp only at hlen hkeys herr hne
  have hPA := ParseAction_line lib bd w t id r2 serr ha ht hid _ hm'
  rw [hres] at hPA
  simp only at hPA
  have hl : s4.toks.length < (w :: t :: id :: r2).length := by
    simp only [List.length_cons]; omega
  by_cases he : err' ≠ some Error.EOF ∧ err' ≠ some Error.errEOL
  · rw [if_pos he] at hPA
    exact ⟨_, _, _, hPA, Nat.le_of_lt hl, herr, fun _ => hl, Or.inl rfl⟩
  · rw [if_neg he] at hPA
    refine ⟨_, _, _, hPA, Nat.le_of_lt hl, herr, fun _ => hl, Or.inr ⟨ha, hm, hkeys, rfl, rfl, ?_⟩⟩
    by_cases h1 : err' = some Error.EOF
    · exact Or.inl h1
    · by_cases h2 : err' = some Error.errEOL
      · exact Or.inr h2
      · exact absurd ⟨h1, h2⟩ he

/-! ## The session loop -/

/-- A pass of the loop of `Listen` that goes round again has consumed a token. -/
theorem ListenBody_next (lib : Lib) (bd : BabelDesc) (s : Scanner) (out : List SBabelUpdate)
    (st' : BabelDesc × Scanner × List SBabelUpdate)
    (h : BabelDesc.ListenBody lib (bd, s, out) = Step.next st') :
    st'.2.1.toks.length < s.toks.length := by
  obtain ⟨upd, err, s1, hPA, -, -, hlt, -⟩ := ParseAction_returns lib bd s
  simp only [BabelDesc.ListenBody, hPA] at h
  split at h
  · cases h
  · rename_i h1
    split at h
    · cases h
    · rename_i h2
      have herr : err = none ∨ err = some Error.errEOL := by
        by_cases h3 : err = none
        · exact Or.inl h3
        · by_cases h4 : err = some Error.errEOL
          · exact Or.inr h4
          · exact absurd ⟨h3, h2, h4⟩ h1
      have hl := hlt herr
      split at h
      · split at h
        · cases h
        · cases h; exact hl
        · split at h
          · cases h
          · cases h
          · cases h; exact hl
      · cases h; exact hl

/-- A pass of the loop of `Listen` that returns does not report an unfinished call. -/
theorem ListenBody_done (lib : Lib) (bd : BabelDesc) (s : Scanner) (out : List SBabelUpdate)
    (r : Session) (h : BabelDesc.ListenBody lib (bd, s, out) = Step.done r) :
    r.status ≠ Status.unfinished := by
  obtain ⟨upd, err, s1, hPA, -, -, -, -⟩ := ParseAction_returns lib bd s
  simp only [BabelDesc.ListenBody, hPA] at h
  split at h
  · cases h; simp
  · split at h
    · cases h; simp
    · split at h
      · split at h
        · cases h; simp
        · cases h
        · split at h
          · cases h; simp
          · cases h; simp
          · cases h
      · cases h

theorem ListenLoop_fuel (lib : Lib) (n m : Nat) (st : BabelDesc × Scanner × List SBabelUpdate)
    (hn : st.2.1.toks.length < n) (hm : st.2.1.toks.length < m) :
    loop (BabelDesc.ListenBody lib) n st = loop (BabelDesc.ListenBody lib) m st ∧
      (loop (BabelDesc.ListenBody lib) n st).isSome = true :=
  loop_fuel (BabelDesc.ListenBody lib) (fun st => st.2.1.toks.length) (fun _ => True)
    (fun st st' _ hb => ⟨trivial, ListenBody_next lib st.1 st.2.1 st.2.2 st' hb⟩)
    n m st trivial hn hm

/-- Unfolding of the loop of `Listen` by one pass. -/
theorem ListenLoop_unfold (lib : Lib) (bd : BabelDesc) (s : Scanner) (out : List SBabelUpdate) :
    BabelDesc.ListenLoop lib bd s out =
      match BabelDesc.ListenBody lib (bd, s, out) with
      | Step.done r => r
      | Step.next st' => BabelDesc.ListenLoop lib st'.1 st'.2.1 st'.2.2 := by
  unfold BabelDesc.ListenLoop
  cases hb : BabelDesc.ListenBody lib (bd, s, out) with
  | done r => simp [loop, hb]
  | next st' =>
    have hlt := ListenBody_next lib bd s out st' hb
    rw [loop_next _ _ _ _ hb]
    rw [(ListenLoop_fuel lib s.toks.length (st'.2.1.toks.length + 1) st' hlt
      (Nat.lt_succ_self _)).1]
    have hsome := (ListenLoop_fuel lib (st'.2.1.toks.length + 1) (st'.2.1.toks.length + 1) st'
      (Nat.lt_succ_self _) (Nat.lt_succ_self _)).2
    obtain ⟨r, hr⟩ := Option.isSome_iff_exists.mp hsome
    obtain ⟨bd', s', out'⟩ := st'
    simp only [hr]

/-- The loop of `Listen` is left within its bound: the call returns or panics. -/
theorem ListenLoop_finished (lib : Lib) (bd : BabelDesc) (s : Scanner) (out : List SBabelUpdate) :
    (BabelDesc.ListenLoop lib bd s out).status ≠ Status.unfinished := by
  unfold BabelDesc.ListenLoop
  have hsome := (ListenLoop_fuel lib (s.toks.length + 1) (s.toks.length + 1) (bd, s, out)
    (Nat.lt_succ_self _) (Nat.lt_succ_self _)).2
  obtain ⟨r, hr⟩ := Option.isSome_iff_exists.mp hsome
  rw [hr]
  exact loop_result (BabelDesc.ListenBody lib) (fun _ => True)
    (fun r => r.status ≠ Status.unfinished) (fun _ _ _ _ => trivial)
    (fun st r _ hb => ListenBody_done lib st.1 st.2.1 st.2.2 r hb) _ _ r trivial hr

/-- `Listen` is the loop followed by `Clean`. -/
theorem Listen_eq (lib : Lib) (bd : BabelDesc) (s : Scanner) (out : List SBabelUpdate) :
    bd.Listen lib s out =
      { BabelDesc.ListenLoop lib bd s out with
        out := ((BabelDesc.ListenLoop lib bd s out).bd.Clean lib
          (BabelDesc.ListenLoop lib bd s out).out).2 } := by
  have h := ListenLoop_finished lib bd s out
  unfold BabelDesc.Listen
  dsimp only
  split
  · rename_i h'; exact absurd h' h
  · rfl

/-! ## Worked instances -/

/-- Instance of C1: the update of Scenario B against the router state of
Scenario A, whose neighbour table stores `entryA` under `n1`. -/
theorem CheckUpdate_false_iff_witness :
    ∃ b, stateA.CheckUpdate changeA = some b ∧
      (b = false ↔
        (changeA.action = "change" ∧
          ∀ k vNew vOld, changeA.entryData.get k = some vNew → entryA.get k = some vOld →
            DeepEqual vNew.data vOld.data = true)) :=
  CheckUpdate_false_iff stateA changeA tableA entryA rfl rfl (fun _ => Iff.rfl)

/-- Instance of C6: on the table that holds `n1` only, a second `Add` of `n1`
and a `Change` or `Flush` of `n2` fail and return the table as it was. -/
theorem table_failing_calls_witness :
    tableA.Add "n1" entryA = (tableA, some (Error.entry entryError.FieldPresence)) ∧
    tableA.Change "n2" entryA = (tableA, some (Error.entry entryError.FieldAbsence)) ∧
    tableA.Flush "n2" = (tableA, some (Error.entry entryError.FieldAbsence)) :=
  ⟨((table_failing_calls tableA "n1" entryA).1 entryA rfl).1,
   ((table_failing_calls tableA "n2" entryA).2.1 rfl).1,
   ((table_failing_calls tableA "n2" entryA).2.1 rfl).2⟩

/-! ## Teardown -/

theorem IterEntries_flush (lib : Lib) (bd : BabelDesc) (tk : String)
    (l : List (String × entry)) (ch : List SBabelUpdate) :
    bd.IterEntries
        (fun u ch => (none, ch ++ [({ u with action := "flush" } : BabelUpdate).ToSUpdate lib]))
        tk l ch =
      (none, ch ++ l.map (fun ep =>
        ({ name := bd.Name, router := bd.ID, action := "flush", table := tk,
           entry := ep.1, entryData := ep.2 } : BabelUpdate).ToSUpdate lib)) := by
  induction l generalizing ch with
  | nil => simp [BabelDesc.IterEntries]
  | cons p rest ih =>
    obtain ⟨ek, ev⟩ := p
    simp only [BabelDesc.IterEntries, ih, List.map_cons, List.append_assoc, List.singleton_append]

theorem IterTables_flush (lib : Lib) (bd : BabelDesc) (l : List (String × table))
    (ch : List SBabelUpdate) :
    bd.IterTables
        (fun u ch => (none, ch ++ [({ u with action := "flush" } : BabelUpdate).ToSUpdate lib]))
        l ch =
      (none, ch ++ l.flatMap (fun tp =>
        tp.2.dict.items.map (fun ep =>
          ({ name := bd.Name, router := bd.ID, action := "flush", table := tp.1,
             entry := ep.1, entryData := ep.2 } : BabelUpdate).ToSUpdate lib))) := by
  induction l generalizing ch with
  | nil => simp [BabelDesc.IterTables]
  | cons p rest ih =>
    obtain ⟨tk, tv⟩ := p
    simp only [BabelDesc.IterTables, IterEntries_flush, ih, List.flatMap_cons, List.append_assoc]

/-- `Clean` returns nil and sends the flush events of the router state. -/
theorem Clean_eq (lib : Lib) (bd : BabelDesc) (ch : List SBabelUpdate) :
    bd.Clean lib ch = (none, ch ++ bd.flushes lib) := by
  unfold BabelDesc.Clean BabelDesc.Iter BabelDesc.flushes
  exact IterTables_flush lib bd bd.ts.items ch

theorem flushes_action (lib : Lib) (bd : BabelDesc) :
    ∀ u ∈ bd.flushes lib, u.Action = "flush" := by
  intro u hu
  simp only [BabelDesc.flushes, List.mem_flatMap, List.mem_map] at hu
  obtain ⟨tp, -, ep, -, rfl⟩ := hu
  rfl

/-- `Listen` is the loop followed by the flush events of the state the loop ends in. -/
theorem Listen_flushes (lib : Lib) (bd : BabelDesc) (s : Scanner) (out : List SBabelUpdate) :
    bd.Listen lib s out =
      { BabelDesc.ListenLoop lib bd s out with
        out := (BabelDesc.ListenLoop lib bd s out).out ++
          (BabelDesc.ListenLoop lib bd s out).bd.flushes lib } := by
  rw [Listen_eq, Clean_eq]

/-! ## Lines of the feed -/

theorem ListenLoop_other (lib : Lib) (bd : BabelDesc) (w : String) (rest : List String)
    (err : Option ScanError) (out : List SBabelUpdate) (hw : Word w) (ha : ¬ IsAction w) :
    BabelDesc.ListenLoop lib bd ⟨w :: rest, err⟩ out =
      BabelDesc.ListenLoop lib bd ⟨rest, err⟩ out := by
  rw [ListenLoop_unfold]
  simp [BabelDesc.ListenBody, ParseAction_other lib bd w rest err hw ha, emptyUpdate]

theorem ListenLoop_eol (lib : Lib) (bd : BabelDesc) (rest : List String)
    (err : Option ScanError) (out : List SBabelUpdate) :
    BabelDesc.ListenLoop lib bd ⟨"\n" :: rest, err⟩ out =
      BabelDesc.ListenLoop lib bd ⟨rest, err⟩ out := by
  rw [ListenLoop_unfold]
  simp [BabelDesc.ListenBody, ParseAction_eol lib bd rest err, emptyUpdate]

/-- C8 (as the code has it): a leading word that is not `add`, `change` or
`flush` is skipped on its own.  No update is applied, no event is emitted and
no error is reported for that word, and `Listen` goes on with the token that
follows it, whether or not that token is on the same line. -/
theorem Listen_skips_one_word (lib : Lib) (bd : BabelDesc) (w : String) (rest : List String)
    (err : Option ScanError) (out : List SBabelUpdate) (hw : Word w) (ha : ¬ IsAction w) :
    bd.Listen lib ⟨w :: rest, err⟩ out = bd.Listen lib ⟨rest, err⟩ out := by
  rw [Listen_eq, Listen_eq, ListenLoop_other lib bd w rest err out hw ha]

/-- Instance of C8 as the code has it: in the feed `foo add neighbour n1 cost 10`
only the word `foo` is skipped. -/
theorem Listen_skips_one_word_witness :
    NewBabelDesc.Listen goLib (feed ["foo", "add", "neighbour", "n1", "cost", "10", "\n"]) [] =
      NewBabelDesc.Listen goLib (feed ["add", "neighbour", "n1", "cost", "10", "\n"]) [] :=
  Listen_skips_one_word goLib NewBabelDesc "foo" _ none []
    (by unfold Word; decide) (by unfold IsAction; decide)

/-- C8 fails as stated: the line `foo add neighbour n1 cost 10` is not a no-op.
From the empty router state the add is applied and emitted, and the entry `n1`
is stored. -/
theorem Listen_foo_line_not_noop :
    (NewBabelDesc.Listen goLib
        (feed ["foo", "add", "neighbour", "n1", "cost", "10", "\n"]) []).out.map
      (fun u => (u.Action, u.Table, u.Entry)) =
      [("add", "neighbour", "n1"), ("flush", "neighbour", "n1")] ∧
    ((NewBabelDesc.Listen goLib
        (feed ["foo", "add", "neighbour", "n1", "cost", "10", "\n"]) []).bd.ts.get
      "neighbour").map (fun t => t.dict.keys) = some ["n1"] := by
  refine ⟨by decide, by decide⟩

/-- C2 (the code at the failing input): from the empty router state the line
`change neighbour n1 cost 10`, whose id is not stored, is dropped without an
error.  `Listen` goes on with the next line, applies and emits its add, and
returns nil at the end of the input. -/
theorem Listen_change_of_missing_id :
    (NewBabelDesc.Listen goLib
        (feed ["change", "neighbour", "n1", "cost", "10", "\n",
               "add", "neighbour", "n2", "cost", "20", "\n"]) []).status =
      Status.returned none ∧
    (NewBabelDesc.Listen goLib
        (feed ["change", "neighbour", "n1", "cost", "10", "\n",
               "add", "neighbour", "n2", "cost", "20", "\n"]) []).out.map
      (fun u => (u.Action, u.Table, u.Entry)) =
      [("add", "neighbour", "n2"), ("flush", "neighbour", "n2")] ∧
    (NewBabelDesc.Listen goLib
        (feed ["flush", "neighbour", "n1", "\n",
               "add", "neighbour", "n2", "cost", "20", "\n"]) []).status =
      Status.returned (some (Error.entry entryError.FieldAbsence)) := by
  refine ⟨by decide, by decide, by decide⟩

/-- C7 (the code at the failing input): the line `add neighbour n1 cost 10`
ended by the end of the input is parsed but neither applied nor emitted,
whereas the same line ended by a newline is applied and emitted. -/
theorem Listen_last_line_without_newline :
    (NewBabelDesc.ParseAction goLib (feed ["add", "neighbour", "n1", "cost", "10"])).map
        (fun r => (r.1.action, r.1.table, r.1.entry)) = some ("add", "neighbour", "n1") ∧
    (NewBabelDesc.ParseAction goLib (feed ["add", "neighbour", "n1", "cost", "10"])).map
        (fun r => r.2.1) = some (some Error.EOF) ∧
    (NewBabelDesc.Listen goLib (feed ["add", "neighbour", "n1", "cost", "10"]) []).out.map
        (fun u => (u.Action, u.Table, u.Entry)) = [] ∧
    ((NewBabelDesc.Listen goLib (feed ["add", "neighbour", "n1", "cost", "10"]) []).bd.ts.get
        "neighbour").map (fun t => t.dict.keys) = some [] ∧
    (NewBabelDesc.Listen goLib (feed ["add", "neighbour", "n1", "cost", "10", "\n"]) []).out.map
        (fun u => (u.Action, u.Table, u.Entry)) =
      [("add", "neighbour", "n1"), ("flush", "neighbour", "n1")] ∧
    ((NewBabelDesc.Listen goLib (feed ["add", "neighbour", "n1", "cost", "10", "\n"]) []).bd.ts.get
        "neighbour").map (fun t => t.dict.keys) = some ["n1"] := by
  refine ⟨by decide, by decide, by decide, by decide, by decide, by decide⟩

/-! ## Parsing field/value pairs -/

theorem SameDecoders_refl (e : entry) : entry.SameDecoders e e := fun _ => rfl

theorem SameDecoders_trans {e e' e'' : entry} (h : entry.SameDecoders e e')
    (h' : entry.SameDecoders e' e'') : entry.SameDecoders e e'' :=
  fun k => (h' k).trans (h k)

theorem SameDecoders_set (e : entry) (k : String) (value : entryValue) (d : Value)
    (hg : e.get k = some value) : entry.SameDecoders e (e.set k { value with data := d }) := by
  intro k'
  by_cases hk : k' = k
  · subst hk
    rw [GoMap.get_set_same, hg]
    rfl
  · rw [GoMap.get_set_ne _ _ _ _ hk]

theorem Accepts_of_sameDecoders {e e' : entry} (h : entry.SameDecoders e e')
    (pairs : List (String × String)) (ha : e.Accepts pairs) : e'.Accepts pairs := by
  intro p hp
  obtain ⟨h1, h2, h3⟩ := ha p hp
  refine ⟨h1, h2, ?_⟩
  intro value' hv'
  have := h p.1
  rw [hv'] at this
  cases hg : e.get p.1 with
  | none => rw [hg] at this; cases this
  | some value =>
    rw [hg] at this
    simp only [Option.map_some', Option.some.injEq] at this
    rw [this]
    exact h3 value hg

/-- Pairs that `e` accepts are consumed by `Parse`, which goes on with the rest
of the tokens; the decoders stay the same. -/
theorem Parse_accepted_pairs (pairs : List (String × String)) :
    ∀ (e : entry), e.Decoders → e.Accepts pairs → ∀ (rest : List String)
      (err : Option ScanError),
      ∃ e', e.Parse ⟨pairToks pairs ++ rest, err⟩ = e'.Parse ⟨rest, err⟩ ∧ e'.Decoders ∧
        entry.SameDecoders e e' := by
  induction pairs with
  | nil => intro e hD _ rest err; exact ⟨e, rfl, hD, SameDecoders_refl e⟩
  | cons p ps ih =>
    intro e hD ha rest err
    obtain ⟨k, x⟩ := p
    obtain ⟨hk, hx, hdec⟩ := ha (k, x) (List.mem_cons_self _ _)
    have ha' : e.Accepts ps := fun q hq => ha q (List.mem_cons_of_mem _ hq)
    simp only at hk hx hdec
    cases hg : e.get k with
    | none =>
      obtain ⟨e', he', hD', hS⟩ := ih e hD ha' rest err
      refine ⟨e', ?_, hD', hS⟩
      rw [← he', Parse_unfold e _ hD]
      simp only [pairToks, List.cons_append]
      rw [ParseBody_unknown e k x _ err hk hx hg]
    | some value =>
      have hwd := hD k value hg
      obtain ⟨h1, h2, h3, -⟩ := hwd.onWord x hx (pairToks ps ++ rest) [] err none
      have hnone : (value.parser ⟨x :: (pairToks ps ++ rest), err⟩).2.1 = none := by
        rw [h2]; exact hdec value hg
      have hp : value.parser ⟨x :: (pairToks ps ++ rest), err⟩ =
          ((value.parser ⟨x :: (pairToks ps ++ rest), err⟩).1, none,
            ⟨pairToks ps ++ rest, err⟩) := by
        rw [← hnone, ← h3]
      have hS1 := SameDecoders_set e k value
        (value.parser ⟨x :: (pairToks ps ++ rest), err⟩).1 hg
      obtain ⟨e', he', hD', hS⟩ :=
        ih (e.set k { value with data := (value.parser ⟨x :: (pairToks ps ++ rest), err⟩).1 })
          (Decoders_set e k { value with data := _ } hD hwd)
          (Accepts_of_sameDecoders hS1 ps ha') rest err
      refine ⟨e', ?_, hD', SameDecoders_trans hS1 hS⟩
      rw [← he', Parse_unfold e _ hD]
      simp only [pairToks, List.cons_append]
      rw [ParseBody_known_ok e k x _ err value hk hg _ _ hp]

theorem makeEntry_word (lib : Lib) (t : String) (h : (makeEntry lib t).2 = none) : Word t := by
  rcases (makeEntry_ok_iff lib t).mp h with h | h | h | h <;> subst h <;> unfold Word <;> decide

/-- C10: in an action line on a valid table, when the value of a known field
fails to decode (after pairs that the entry accepts), `ParseAction` returns the
decoder's error with no update, and `Listen` returns that error: the router
state is the one it started from, and the only events sent after those already
sent are the flush events of the teardown. -/
theorem Listen_decode_error (lib : Lib) (bd : BabelDesc) (w t id k : String)
    (pairs : List (String × String)) (r : List String) (err : Option ScanError)
    (out : List SBabelUpdate) (e0 : entry) (value : entryValue) (d : Value) (x : Error)
    (s2 : Scanner)
    (ha : IsAction w) (hid : Word id) (hm : makeEntry lib t = (e0, none))
    (hacc : e0.Accepts pairs) (hk : Word k) (hg : e0.get k = some value)
    (hfail : value.parser ⟨r, err⟩ = (d, some x, s2))
    (hx : x ≠ Error.EOF ∧ x ≠ Error.errEOL) :
    bd.ParseAction lib ⟨w :: t :: id :: (pairToks pairs ++ k :: r), err⟩ =
      some (emptyUpdate, some x, s2) ∧
    bd.Listen lib ⟨w :: t :: id :: (pairToks pairs ++ k :: r), err⟩ out =
      { bd := bd, s := s2, out := out ++ bd.flushes lib, status := Status.returned (some x) } ∧
    ∀ u ∈ bd.flushes lib, u.Action = "flush" := by
  have hm2 : (makeEntry lib t).2 = none := by rw [hm]
  have hD0 : e0.Decoders := by
    have := makeEntry_Decoders lib t
    rw [hm] at this
    exact this
  obtain ⟨e', he', hD', hS⟩ := Parse_accepted_pairs pairs e0 hD0 hacc (k :: r) err
  have hg' : ∃ value', e'.get k = some value' ∧ value'.parser = value.parser := by
    have := hS k
    rw [hg] at this
    cases hv : e'.get k with
    | none => rw [hv] at this; cases this
    | some value' =>
      rw [hv] at this
      simp only [Option.map_some', Option.some.injEq] at this
      exact ⟨value', rfl, this⟩
  obtain ⟨value', hv', hpar⟩ := hg'
  have hParse : e0.Parse ⟨pairToks pairs ++ k :: r, err⟩ = some (e', some x, s2) := by
    rw [he', Parse_unfold e' _ hD',
      ParseBody_known_fail e' k r err value' hk hv' d x s2 (by rw [hpar]; exact hfail) hx]
  have hPA : bd.ParseAction lib ⟨w :: t :: id :: (pairToks pairs ++ k :: r), err⟩ =
      some (emptyUpdate, some x, s2) := by
    rw [ParseAction_line lib bd w t id _ err ha (makeEntry_word lib t hm2) hid e0 hm, hParse]
    simp [hx.1, hx.2]
  refine ⟨hPA, ?_, flushes_action lib bd⟩
  rw [Listen_flushes, ListenLoop_unfold]
  simp [BabelDesc.ListenBody, hPA, hx.1, hx.2]

/-- Instance of C10: on the router state of Scenario A, in the line
`add neighbour n2 if eth0 cost abc` the value of `cost` is not a number. -/
theorem Listen_decode_error_witness :
    stateA.ParseAction goLib
        ⟨"add" :: "neighbour" :: "n2" :: (pairToks [("if", "eth0")] ++
          "cost" :: ["abc", "\n", "add", "neighbour", "n3", "\n"]), none⟩ =
      some (emptyUpdate,
        some (Error.msg "strconv.ParseUint: parsing \"abc\": invalid syntax"),
        ⟨["\n", "add", "neighbour", "n3", "\n"], none⟩) ∧
    stateA.Listen goLib
        ⟨"add" :: "neighbour" :: "n2" :: (pairToks [("if", "eth0")] ++
          "cost" :: ["abc", "\n", "add", "neighbour", "n3", "\n"]), none⟩ [] =
      { bd := stateA, s := ⟨["\n", "add", "neighbour", "n3", "\n"], none⟩,
        out := [] ++ stateA.flushes goLib,
        status := Status.returned
          (some (Error.msg "strconv.ParseUint: parsing \"abc\": invalid syntax")) } ∧
    ∀ u ∈ stateA.flushes goLib, u.Action = "flush" :=
  Listen_decode_error goLib stateA "add" "neighbour" "n2" "cost" [("if", "eth0")]
    ["abc", "\n", "add", "neighbour", "n3", "\n"] none [] (NewNeighbourEntry goLib)
    { data := Value.null, parser := GetUintParser goLib 10 32 } Value.null
    (Error.msg "strconv.ParseUint: parsing \"abc\": invalid syntax")
    ⟨["\n", "add", "neighbour", "n3", "\n"], none⟩
    (by unfold IsAction; decide) (by unfold Word; decide) rfl
    (by
      intro p hp
      simp only [List.mem_singleton] at hp
      subst hp
      refine ⟨by unfold Word; decide, by unfold Word; decide, ?_⟩
      intro value hv
      have : value = { data := Value.null, parser := ParseString } := by
        have h : (NewNeighbourEntry goLib).get "if" =
            some { data := Value.null, parser := ParseString } := rfl
        rw [h] at hv
        exact (Option.some.inj hv).symm
      subst this
      rfl)
    (by unfold Word; decide) rfl rfl (by constructor <;> simp)

/-! ## Unknown fields -/

theorem Parse_unknown_pair_aux (pre : List (String × String)) :
    ∀ (e : entry), e.Decoders → (∀ p ∈ pre, Word p.1 ∧ Word p.2) →
      ∀ (u v : String), Word u → Word v → e.get u = none →
      ∀ (post : List String) (err : Option ScanError),
      ∃ e' sig s1 s2,
        e.Parse ⟨pairToks pre ++ u :: v :: post, err⟩ = some (e', sig, s1) ∧
        e.Parse ⟨pairToks pre ++ post, err⟩ = some (e', sig, s2) := by
  induction pre with
  | nil =>
    intro e hD _ u v hu hv hunk post err
    obtain ⟨r, hr, -⟩ := Parse_returns e ⟨post, err⟩ hD
    refine ⟨r.1, r.2.1, r.2.2, r.2.2, ?_, hr⟩
    rw [← hr, Parse_unfold e _ hD]
    simp only [pairToks, List.nil_append]
    rw [ParseBody_unknown e u v post err hu hv hunk]
  | cons p ps ih =>
    intro e hD hpre u v hu hv hunk post err
    obtain ⟨k, x⟩ := p
    obtain ⟨hk, hx⟩ := hpre (k, x) (List.mem_cons_self _ _)
    have hpre' : ∀ q ∈ ps, Word q.1 ∧ Word q.2 := fun q hq => hpre q (List.mem_cons_of_mem _ hq)
    simp only at hk hx
    cases hg : e.get k with
    | none =>
      obtain ⟨e', sig, s1, s2, h1, h2⟩ := ih e hD hpre' u v hu hv hunk post err
      refine ⟨e', sig, s1, s2, ?_, ?_⟩
      · rw [← h1, Parse_unfold e _ hD]
        simp only [pairToks, List.cons_append]
        rw [ParseBody_unknown e k x _ err hk hx hg]
      · rw [← h2, Parse_unfold e _ hD]
        simp only [pairToks, List.cons_append]
        rw [ParseBody_unknown e k x _ err hk hx hg]
    | some value =>
      have hwd := hD k value hg
      have hne : u ≠ k := by
        intro h; subst h; rw [hunk] at hg; cases hg
      obtain ⟨a1, a2, a3, a4, a5⟩ :=
        hwd.onWord x hx (pairToks ps ++ u :: v :: post) (pairToks ps ++ post) err err
      obtain ⟨-, -, b3, -, -⟩ :=
        hwd.onWord x hx (pairToks ps ++ post) [] err none
      rcases hp1 : value.parser ⟨x :: (pairToks ps ++ u :: v :: post), err⟩ with ⟨d, err1, t1⟩
      rcases hp2 : value.parser ⟨x :: (pairToks ps ++ post), err⟩ with ⟨d', err2, t2⟩
      rw [hp1] at a1 a2 a3 a4 a5
      rw [hp2] at a1 a2 b3
      simp only at a1 a2 a3 a4 a5 b3
      subst a1 a2 a3 b3
      cases err1 with
      | none =>
        obtain ⟨e', sig, s1, s2, h1, h2⟩ :=
          ih (e.set k { value with data := d }) (Decoders_set e k { value with data := d } hD hwd)
            hpre' u v hu hv (by rw [GoMap.get_set_ne _ _ _ _ hne]; exact hunk) post err
        refine ⟨e', sig, s1, s2, ?_, ?_⟩
        · rw [← h1, Parse_unfold e _ hD]
          simp only [pairToks, List.cons_append]
          rw [ParseBody_known_ok e k x _ err value hk hg _ _ hp1]
        · rw [← h2, Parse_unfold e _ hD]
          simp only [pairToks, List.cons_append]
          rw [ParseBody_known_ok e k x _ err value hk hg _ _ hp2]
      | some y =>
        have hy : y ≠ Error.EOF ∧ y ≠ Error.errEOL :=
          ⟨fun h => a4 (by rw [h]), fun h => a5 (by rw [h])⟩
        refine ⟨e, some y, ⟨pairToks ps ++ u :: v :: post, err⟩, ⟨pairToks ps ++ post, err⟩, ?_, ?_⟩
        · rw [Parse_unfold e _ hD]
          simp only [pairToks, List.cons_append]
          rw [ParseBody_known_fail e k _ err value hk hg _ y _ hp1 hy]
        · rw [Parse_unfold e _ hD]
          simp only [pairToks, List.cons_append]
          rw [ParseBody_known_fail e k _ err value hk hg _ y _ hp2 hy]

/-- C9: for an entry whose decoders read one word each (every schema entry is
one), inserting at a field boundary, that is after any number of complete
name/value pairs of words, a pair `u v` of words whose `u` is no field name of
the entry does not change what `Parse` returns: the entry with its decoded
values and the signal returned (end of line, end of input, or a decoder's
error) are the same as for the tokens without the pair. -/
theorem Parse_ignores_unknown_pair (e : entry) (hD : e.Decoders)
    (pre : List (String × String)) (hpre : ∀ p ∈ pre, Word p.1 ∧ Word p.2)
    (u v : String) (hu : Word u) (hv : Word v) (hunk : e.get u = none)
    (post : List String) (err : Option ScanError) :
    ∃ e' sig s1 s2,
      e.Parse ⟨pairToks pre ++ u :: v :: post, err⟩ = some (e', sig, s1) ∧
      e.Parse ⟨pairToks pre ++ post, err⟩ = some (e', sig, s2) :=
  Parse_unknown_pair_aux pre e hD hpre u v hu hv hunk post err

/-- Instance of C9: `bogusfield xyz` inserted after `if eth0` in the neighbour
line `if eth0 cost 10`; both lines decode `if` and `cost` and leave every other
field absent. -/
theorem Parse_ignores_unknown_pair_witness :
    (∃ e' sig s1 s2,
      (NewNeighbourEntry goLib).Parse
          ⟨pairToks [("if", "eth0")] ++ "bogusfield" :: "xyz" :: ["cost", "10", "\n"], none⟩ =
        some (e', sig, s1) ∧
      (NewNeighbourEntry goLib).Parse ⟨pairToks [("if", "eth0")] ++ ["cost", "10", "\n"], none⟩ =
        some (e', sig, s2)) ∧
    ((NewNeighbourEntry goLib).Parse
          (feed ["bogusfield", "xyz", "cost", "10", "\n"])).map
        (fun r => r.1.items.map (fun f => (f.1, f.2.data))) =
      some [("address", Value.null), ("if", Value.null), ("reach", Value.null),
        ("rxcost", Value.null), ("txcost", Value.null), ("cost", Value.uint 10),
        ("rtt", Value.null), ("rttcost", Value.null)] ∧
    ((NewNeighbourEntry goLib).Parse (feed ["cost", "10", "\n"])).map
        (fun r => r.1.items.map (fun f => (f.1, f.2.data))) =
      some [("address", Value.null), ("if", Value.null), ("reach", Value.null),
        ("rxcost", Value.null), ("txcost", Value.null), ("cost", Value.uint 10),
        ("rtt", Value.null), ("rttcost", Value.null)] :=
  ⟨Parse_ignores_unknown_pair (NewNeighbourEntry goLib) (NewNeighbourEntry_Decoders goLib)
      [("if", "eth0")]
      (by
        intro p hp
        simp only [List.mem_singleton] at hp
        subst hp
        exact ⟨by unfold Word; decide, by unfold Word; decide⟩)
      "bogusfield" "xyz" (by unfold Word; decide) (by unfold Word; decide) rfl
      ["cost", "10", "\n"] none,
    by decide, by decide⟩

/-! ## The serializable projection -/

theorem foldl_set_get {α β : Type} (f : α → β) (l : List (String × α))
    (hn : (l.map Prod.fst).Nodup) (m : GoMap β) (k : String) :
    (l.foldl (fun m p => m.set p.1 (f p.2)) m).get k =
      match lookupIn k l with
      | some v => some (f v)
      | none => m.get k := by
  induction l generalizing m with
  | nil => simp [lookupIn]
  | cons p rest ih =>
    obtain ⟨k₀, v₀⟩ := p
    simp only [List.map_cons, List.nodup_cons] at hn
    simp only [List.foldl_cons, ih hn.2]
    by_cases hk : k₀ = k
    · subst hk
      have : lookupIn k₀ rest = none := (lookupIn_none_iff k₀ rest).mpr hn.1
      simp [lookupIn, this, GoMap.get_set_same]
    · have hk' : k ≠ k₀ := fun h => hk h.symm
      simp only [lookupIn, hk, if_false]
      cases lookupIn k rest with
      | some v => rfl
      | none => simp only [GoMap.get_set_ne _ _ _ _ hk']

theorem foldl_set_keys {α β : Type} (f : α → β) (l : List (String × α))
    (hn : (l.map Prod.fst).Nodup) (m : GoMap β) (hd : ∀ k ∈ l.map Prod.fst, k ∉ m.keys) :
    (l.foldl (fun m p => m.set p.1 (f p.2)) m).keys = m.keys ++ l.map Prod.fst := by
  induction l generalizing m with
  | nil => simp
  | cons p rest ih =>
    obtain ⟨k₀, v₀⟩ := p
    simp only [List.map_cons, List.nodup_cons] at hn
    have hk0 : k₀ ∉ m.keys := hd k₀ (by simp)
    have hkeys : (m.set k₀ (f v₀)).keys = m.keys ++ [k₀] := by
      have hnone : m.get k₀ = none := by
        cases h : m.get k₀ with
        | none => rfl
        | some v => exact absurd ((GoMap.mem_keys_iff m k₀).mpr ⟨v, h⟩) hk0
      have keys : ∀ l : List (String × β), lookupIn k₀ l = none →
          (replaceIn k₀ (f v₀) l).map Prod.fst = l.map Prod.fst ++ [k₀] := by
        intro l
        induction l with
        | nil => intro _; simp [replaceIn]
        | cons q qs ihq =>
          obtain ⟨k₁, v₁⟩ := q
          intro hl
          by_cases h : k₁ = k₀
          · simp [lookupIn, h] at hl
          · simp only [lookupIn, h, if_false] at hl
            simp [replaceIn, h, ihq hl]
      exact keys m.items hnone
    simp only [List.foldl_cons]
    rw [ih hn.2 (m.set k₀ (f v₀)), hkeys]
    · simp
    · intro k hk
      rw [hkeys]
      simp only [List.mem_append, List.mem_singleton, not_or]
      refine ⟨hd k (by simp [hk]), ?_⟩
      intro h
      subst h
      exact hn.1 hk

/-- C5 (as the code has it): the data map produced by `ToSUpdate` has every
field name of the update's entry as a key, decoded or not.  A field is rendered
as its value, an address or prefix as its text, and a field that was never
decoded as nil. -/
theorem ToSUpdate_data (lib : Lib) (upd : BabelUpdate) :
    (upd.ToSUpdate lib).EntryData.keys = upd.entryData.keys ∧
    ∀ k, (upd.ToSUpdate lib).EntryData.get k =
      (upd.entryData.get k).map (fun v => renderValue lib v.data) := by
  constructor
  · have := foldl_set_keys (fun v : entryValue => renderValue lib v.data) upd.entryData.items
      upd.entryData.nodup GoMap.empty (by intro k _ h; cases h)
    simpa [BabelUpdate.ToSUpdate, GoMap.keys, GoMap.empty] using this
  · intro k
    have := foldl_set_get (fun v : entryValue => renderValue lib v.data) upd.entryData.items
      upd.entryData.nodup GoMap.empty k
    simp only [BabelUpdate.ToSUpdate]
    rw [this]
    unfold GoMap.get
    cases lookupIn k upd.entryData.items with
    | some v => rfl
    | none => rfl

/-- C5 fails as stated: the event emitted for
`add neighbour n1 address 2001:db8::1 cost 96` carries all eight field names
of the neighbour schema as keys, the six fields that were never decoded with a
nil value. -/
theorem ToSUpdate_keeps_absent_fields :
    (NewBabelDesc.Listen goLib
        (feed ["add", "neighbour", "n1", "address", "2001:db8::1", "cost", "96", "\n"])
        []).out.map (fun u => (u.Action, u.EntryData.items)) =
      [("add", [("address", Value.str "2001:db8::1"), ("if", Value.null),
          ("reach", Value.null), ("rxcost", Value.null), ("txcost", Value.null),
          ("cost", Value.uint 96), ("rtt", Value.null), ("rttcost", Value.null)]),
       ("flush", [("address", Value.str "2001:db8::1"), ("if", Value.null),
          ("reach", Value.null), ("rxcost", Value.null), ("txcost", Value.null),
          ("cost", Value.uint 96), ("rtt", Value.null), ("rttcost", Value.null)])] := by
  decide

/-! ## What a change line stores -/

/-- Every field of the entry is absent (nil). -/
theorem AddField_fresh (e : entry) (id : String) (p : entryParser)
    (h : ∀ f v, e.get f = some v → v.data = Value.null) :
    ∀ f v, (e.AddField id p).1.get f = some v → v.data = Value.null := by
  intro f v hv
  unfold entry.AddField at hv
  cases hg : e.get id with
  | some _ => rw [hg] at hv; exact h f v hv
  | none =>
    rw [hg] at hv
    simp only at hv
    by_cases hf : f = id
    · subst hf
      rw [GoMap.get_set_same] at hv
      cases hv
      rfl
    · rw [GoMap.get_set_ne _ _ _ _ hf] at hv
      exact h f v hv

theorem NewEntry_fresh : ∀ f v, NewEntry.get f = some v → v.data = Value.null := by
  intro f v h
  cases h

theorem NewInterfaceEntry_fresh (lib : Lib) :
    ∀ f v, (NewInterfaceEntry lib).get f = some v → v.data = Value.null := by
  unfold NewInterfaceEntry
  dsimp only
  refine AddField_fresh _ _ _ ?_
  refine AddField_fresh _ _ _ ?_
  refine AddField_fresh _ _ _ ?_
  exact NewEntry_fresh

theorem NewNeighbourEntry_fresh (lib : Lib) :
    ∀ f v, (NewNeighbourEntry lib).get f = some v → v.data = Value.null := by
  unfold NewNeighbourEntry
  dsimp only
  refine AddField_fresh _ _ _ ?_
  refine AddField_fresh _ _ _ ?_
  refine AddField_fresh _ _ _ ?_
  refine AddField_fresh _ _ _ ?_
  refine AddField_fresh _ _ _ ?_
  refine AddField_fresh _ _ _ ?_
  refine AddField_fresh _ _ _ ?_
  refine AddField_fresh _ _ _ ?_
  exact NewEntry_fresh

theorem NewRouteEntry_fresh (lib : Lib) :
    ∀ f v, (NewRouteEntry lib).get f = some v → v.data = Value.null := by
  unfold NewRouteEntry
  dsimp only
  refine AddField_fresh _ _ _ ?_
  refine AddField_fresh _ _ _ ?_
  refine AddField_fresh _ _ _ ?_
  refine AddField_fresh _ _ _ ?_
  refine AddField_fresh _ _ _ ?_
  refine AddField_fresh _ _ _ ?_
  refine AddField_fresh _ _ _ ?_
  refine AddField_fresh _ _ _ ?_
  exact NewEntry_fresh

theorem NewXrouteEntry_fresh (lib : Lib) :
    ∀ f v, (NewXrouteEntry lib).get f = some v → v.data = Value.null := by
  unfold NewXrouteEntry
  dsimp only
  refine AddField_fresh _ _ _ ?_
  refine AddField_fresh _ _ _ ?_
  refine AddField_fresh _ _ _ ?_
  exact NewEntry_fresh

/-- The entry `makeEntry` returns has no field decoded. -/
theorem makeEntry_fresh (lib : Lib) (t : String) :
    ∀ f v, (makeEntry lib t).1.get f = some v → v.data = Value.null := by
  unfold makeEntry
  by_cases h1 : t = "interface"
  · rw [if_pos h1]; dsimp only; exact NewInterfaceEntry_fresh lib
  · rw [if_neg h1]
    by_cases h2 : t = "neighbour"
    · rw [if_pos h2]; dsimp only; exact NewNeighbourEntry_fresh lib
    · rw [if_neg h2]
      by_cases h3 : t = "route"
      · rw [if_pos h3]; dsimp only; exact NewRouteEntry_fresh lib
      · rw [if_neg h3]
        by_cases h4 : t = "xroute"
        · rw [if_pos h4]; dsimp only; exact NewXrouteEntry_fresh lib
        · rw [if_neg h4]; exact NewEntry_fresh

/-- `Parse` leaves alone every field that the pairs of the line do not name. -/
theorem Parse_pairs_untouched (pairs : List (String × String)) :
    ∀ (e : entry), e.Decoders → (∀ p ∈ pairs, Word p.1 ∧ Word p.2) →
      ∀ (rest : List String) (err : Option ScanError) (r : entry × Option Error × Scanner),
      e.Parse ⟨pairToks pairs ++ "\n" :: rest, err⟩ = some r →
      ∀ f, f ∉ pairs.map Prod.fst → r.1.get f = e.get f := by
  induction pairs with
  | nil =>
    intro e hD _ rest err r hr f _
    rw [Parse_unfold e _ hD] at hr
    simp only [pairToks, List.nil_append] at hr
    rw [ParseBody_eol] at hr
    cases hr
    rfl
  | cons p ps ih =>
    intro e hD hw rest err r hr f hf
    obtain ⟨k, x⟩ := p
    obtain ⟨hk, hx⟩ := hw (k, x) (List.mem_cons_self _ _)
    have hw' : ∀ q ∈ ps, Word q.1 ∧ Word q.2 := fun q hq => hw q (List.mem_cons_of_mem _ hq)
    simp only [List.map_cons, List.mem_cons, not_or] at hf
    simp only at hk hx
    rw [Parse_unfold e _ hD] at hr
    simp only [pairToks, List.cons_append] at hr
    cases hg : e.get k with
    | none =>
      rw [ParseBody_unknown e k x _ err hk hx hg] at hr
      exact ih e hD hw' rest err r hr f hf.2
    | some value =>
      have hwd := hD k value hg
      obtain ⟨-, -, a3, a4, a5⟩ :=
        hwd.onWord x hx (pairToks ps ++ "\n" :: rest) [] err none
      rcases hp : value.parser ⟨x :: (pairToks ps ++ "\n" :: rest), err⟩ with ⟨d, err1, t1⟩
      rw [hp] at a3 a4 a5
      simp only at a3 a4 a5
      subst a3
      cases err1 with
      | none =>
        rw [ParseBody_known_ok e k x _ err value hk hg _ _ hp] at hr
        rw [ih (e.set k { value with data := d })
          (Decoders_set e k { value with data := d } hD hwd) hw' rest err r hr f hf.2]
        exact GoMap.get_set_ne _ _ _ _ hf.1
      | some y =>
        have hy : y ≠ Error.EOF ∧ y ≠ Error.errEOL :=
          ⟨fun h => a4 (by rw [h]), fun h => a5 (by rw [h])⟩
        rw [ParseBody_known_fail e k _ err value hk hg _ y _ hp hy] at hr
        cases hr
        rfl

/-- C4 (as the code has it): a change line that is applied replaces the stored
entry by the entry decoded from that line alone.  After the change the entry
stored under the id is the update's entry, in which every field that the line
does not name is absent (nil), whatever value it held before. -/
theorem change_replaces_entry (lib : Lib) (bd bd' : BabelDesc) (t id : String)
    (pairs : List (String × String)) (rest : List String) (err : Option ScanError)
    (upd : BabelUpdate) (sig : Option Error) (s' : Scanner)
    (ht : (makeEntry lib t).2 = none) (hid : Word id)
    (hpairs : ∀ p ∈ pairs, Word p.1 ∧ Word p.2)
    (hline : bd.ParseAction lib ⟨"change" :: t :: id :: (pairToks pairs ++ "\n" :: rest), err⟩ =
      some (upd, sig, s'))
    (hchange : upd.action = "change")
    (happly : bd.Update upd = some (bd', none)) :
    (∃ t', bd'.ts.get t = some t' ∧ t'.dict.get id = some upd.entryData) ∧
    ∀ f, f ∉ pairs.map Prod.fst → ∀ v, upd.entryData.get f = some v → v.data = Value.null := by
  have hm : makeEntry lib t = ((makeEntry lib t).1, none) := by rw [← ht]
  obtain ⟨r, hr, -⟩ := Parse_returns (makeEntry lib t).1 ⟨pairToks pairs ++ "\n" :: rest, err⟩
    (makeEntry_Decoders lib t)
  rw [ParseAction_line lib bd "change" t id _ err (Or.inr (Or.inl rfl)) (makeEntry_word lib t ht)
    hid _ hm, hr] at hline
  obtain ⟨e', sig', s4⟩ := r
  simp only at hline
  have hupd : upd = BabelUpdate.mk bd.Name bd.ID "change" t id e' := by
    split at hline
    · simp only [Option.some.injEq, Prod.mk.injEq] at hline
      rw [← hline.1] at hchange
      simp [emptyUpdate] at hchange
    · simp only [Option.some.injEq, Prod.mk.injEq] at hline
      exact hline.1.symm
  subst hupd
  constructor
  · simp only [BabelDesc.Update] at happly
    have hne : ¬ ("change" = "add") := by decide
    simp only [hne, if_false, if_true] at happly
    cases hgt : bd.ts.get t with
    | none => rw [hgt] at happly; cases happly
    | some tbl =>
      rw [hgt] at happly
      simp only [table.Change] at happly
      cases hgi : tbl.dict.get id with
      | none => rw [hgi] at happly; simp at happly
      | some old =>
        rw [hgi] at happly
        simp only [Option.some.injEq, Prod.mk.injEq, and_true] at happly
        subst happly
        exact ⟨_, GoMap.get_set_same _ _ _, GoMap.get_set_same _ _ _⟩
  · intro f hf v hv
    have hsame := Parse_pairs_untouched pairs (makeEntry lib t).1 (makeEntry_Decoders lib t)
      hpairs rest err (e', sig', s4) hr f hf
    simp only at hv hsame
    rw [hsame] at hv
    exact makeEntry_fresh lib t f v hv

/-- Instance of C4 as the code has it: `change neighbour n1 cost 128` applied
to the router state of Scenario A. -/
theorem change_replaces_entry_witness :
    (∃ t', stateC.ts.get "neighbour" = some t' ∧ t'.dict.get "n1" = some changeC.entryData) ∧
    ∀ f, f ∉ [("cost", "128")].map Prod.fst → ∀ v, changeC.entryData.get f = some v →
      v.data = Value.null :=
  change_replaces_entry goLib stateA stateC "neighbour" "n1" [("cost", "128")] [] none
    changeC (some Error.errEOL) ⟨[], none⟩ rfl (by unfold Word; decide)
    (by
      intro p hp
      simp only [List.mem_singleton] at hp
      subst hp
      exact ⟨by unfold Word; decide, by unfold Word; decide⟩)
    rfl rfl rfl

/-- C4 fails as stated: after `add neighbour n1 address 2001:db8::1 cost 96`
the stored `address` of `n1` is 2001:db8::1, and after
`change neighbour n1 cost 128` is applied it is absent (nil). -/
theorem change_drops_unnamed_field :
    ((stateA.ts.get "neighbour").bind (fun t => t.dict.get "n1")).map
        (fun e => ((e.get "address").map (fun v => v.data), (e.get "cost").map (fun v => v.data))) =
      some (some (Value.ip [32, 1, 13, 184, 0, 0, 0, 0, 0, 0, 0, 0, 0, 0, 0, 1]),
        some (Value.uint 96)) ∧
    ((stateC.ts.get "neighbour").bind (fun t => t.dict.get "n1")).map
        (fun e => ((e.get "address").map (fun v => v.data), (e.get "cost").map (fun v => v.data))) =
      some (some Value.null, some (Value.uint 128)) ∧
    (NewBabelDesc.Listen goLib
        (feed ["add", "neighbour", "n1", "address", "2001:db8::1", "cost", "96", "\n",
               "change", "neighbour", "n1", "cost", "128", "\n"]) []).out.map
      (fun u => (u.Action, u.Entry)) = [("add", "n1"), ("change", "n1"), ("flush", "n1")] := by
  refine ⟨by decide, by decide, by decide⟩

/-! ## Applying updates -/

/-- An update that fails leaves the router state as it was. -/
theorem Update_error (bd bd' : BabelDesc) (upd : BabelUpdate) (e : Error)
    (h : bd.Update upd = some (bd', some e)) : bd' = bd := by
  have key : ∀ (t : table), bd.ts.get upd.table = some t →
      ({ bd with ts := bd.ts.set upd.table t } : BabelDesc) = bd := by
    intro t ht
    rw [GoMap.set_get_self _ _ _ ht]
  unfold BabelDesc.Update at h
  split at h
  · cases hg : bd.ts.get upd.table with
    | none => rw [hg] at h; cases h
    | some t =>
      rw [hg] at h
      simp only [table.Add] at h
      cases hi : t.dict.get upd.entry with
      | none => rw [hi] at h; simp at h
      | some old =>
        rw [hi] at h
        simp only [Option.some.injEq, Prod.mk.injEq] at h
        rw [← h.1]
        exact key t hg
  · split at h
    · cases hg : bd.ts.get upd.table with
      | none => rw [hg] at h; cases h
      | some t =>
        rw [hg] at h
        simp only [table.Change] at h
        cases hi : t.dict.get upd.entry with
        | some old => rw [hi] at h; simp at h
        | none =>
          rw [hi] at h
          simp only [Option.some.injEq, Prod.mk.injEq] at h
          rw [← h.1]
          exact key t hg
    · split at h
      · cases hg : bd.ts.get upd.table with
        | none => rw [hg] at h; cases h
        | some t =>
          rw [hg] at h
          simp only [table.Flush] at h
          cases hi : t.dict.get upd.entry with
          | some old => rw [hi] at h; simp at h
          | none =>
            rw [hi] at h
            simp only [Option.some.injEq, Prod.mk.injEq] at h
            rw [← h.1]
            exact key t hg
      · simp at h

theorem Stored_set (bd : BabelDesc) (tn : String) (t' : table) (tk ek : String) :
    BabelDesc.Stored { bd with ts := bd.ts.set tn t' } tk ek ↔
      (tk = tn ∧ ∃ e, t'.dict.get ek = some e) ∨ (tk ≠ tn ∧ bd.Stored tk ek) := by
  unfold BabelDesc.Stored
  by_cases h : tk = tn
  · subst h
    simp only [GoMap.get_set_same, Option.some.injEq, true_and, ne_eq, not_true_eq_false,
      false_and, or_false]
    constructor
    · rintro ⟨t, e, rfl, he⟩; exact ⟨e, he⟩
    · rintro ⟨e, he⟩; exact ⟨t', e, rfl, he⟩
  · simp only [GoMap.get_set_ne _ _ _ _ h, h, false_and, ne_eq, not_false_eq_true, true_and,
      false_or]

/-- The entries stored after an update that succeeds. -/
theorem Update_stored (bd bd' : BabelDesc) (upd : BabelUpdate)
    (h : bd.Update upd = some (bd', none)) (tk ek : String) :
    (upd.action = "add" →
      (bd'.Stored tk ek ↔ bd.Stored tk ek ∨ (tk, ek) = (upd.table, upd.entry))) ∧
    (upd.action = "change" → (bd'.Stored tk ek ↔ bd.Stored tk ek)) ∧
    (upd.action = "flush" →
      (bd'.Stored tk ek ↔ bd.Stored tk ek ∧ (tk, ek) ≠ (upd.table, upd.entry))) := by
  have hsame : ∀ t, bd.ts.get upd.table = some t → tk = upd.table →
      (bd.Stored tk ek ↔ ∃ e, t.dict.get ek = some e) := by
    intro t ht htk
    subst htk
    unfold BabelDesc.Stored
    rw [ht]
    constructor
    · rintro ⟨t0, e, h0, he⟩; cases h0; exact ⟨e, he⟩
    · rintro ⟨e, he⟩; exact ⟨t, e, rfl, he⟩
  refine ⟨?_, ?_, ?_⟩
  · intro ha
    simp only [BabelDesc.Update, ha, if_true] at h
    cases hg : bd.ts.get upd.table with
    | none => rw [hg] at h; cases h
    | some t =>
      rw [hg] at h
      simp only [table.Add] at h
      cases hi : t.dict.get upd.entry with
      | some old => rw [hi] at h; simp at h
      | none =>
        rw [hi] at h
        simp only [Option.some.injEq, Prod.mk.injEq, and_true] at h
        subst h
        rw [Stored_set]
        by_cases htk : tk = upd.table
        · rw [hsame t hg htk]
          simp only [htk, true_and, ne_eq, not_true_eq_false, false_and, or_false, Prod.mk.injEq]
          by_cases hek : ek = upd.entry
          · subst hek; simp [GoMap.get_set_same]
          · simp [GoMap.get_set_ne _ _ _ _ hek, hek]
        · simp [htk]
  · intro ha
    have c1 : ¬ ("change" = "add") := by decide
    simp only [BabelDesc.Update, ha, c1, if_true, if_false] at h
    cases hg : bd.ts.get upd.table with
    | none => rw [hg] at h; cases h
    | some t =>
      rw [hg] at h
      simp only [table.Change] at h
      cases hi : t.dict.get upd.entry with
      | none => rw [hi] at h; simp at h
      | some old =>
        rw [hi] at h
        simp only [Option.some.injEq, Prod.mk.injEq, and_true] at h
        subst h
        rw [Stored_set]
        by_cases htk : tk = upd.table
        · rw [hsame t hg htk]
          simp only [htk, true_and, ne_eq, not_true_eq_false, false_and, or_false]
          by_cases hek : ek = upd.entry
          · subst hek; simp [GoMap.get_set_same, hi]
          · simp [GoMap.get_set_ne _ _ _ _ hek]
        · simp [htk]
  · intro ha
    have c1 : ¬ ("flush" = "add") := by decide
    have c2 : ¬ ("flush" = "change") := by decide
    simp only [BabelDesc.Update, ha, c1, c2, if_true, if_false] at h
    cases hg : bd.ts.get upd.table with
    | none => rw [hg] at h; cases h
    | some t =>
      rw [hg] at h
      simp only [table.Flush] at h
      cases hi : t.dict.get upd.entry with
      | none => rw [hi] at h; simp at h
      | some old =>
        rw [hi] at h
        simp only [Option.some.injEq, Prod.mk.injEq, and_true] at h
        subst h
        rw [Stored_set]
        by_cases htk : tk = upd.table
        · rw [hsame t hg htk]
          simp only [htk, true_and, ne_eq, not_true_eq_false, false_and, or_false, Prod.mk.injEq]
          by_cases hek : ek = upd.entry
          · subst hek; simp [GoMap.get_delete_same]
          · simp [GoMap.get_delete_ne _ _ _ hek, hek]
        · simp [htk]

/-! ## The events of a session -/

/-- The ways one pass of the loop of `Listen` can end: it returns with the
router state and the events as they were; it goes round again with both as
they were; or it has applied an action and sent its event. -/
theorem ListenBody_cases (lib : Lib) (bd : BabelDesc) (s : Scanner) (out : List SBabelUpdate) :
    (∃ r, BabelDesc.ListenBody lib (bd, s, out) = Step.done r ∧ r.bd = bd ∧ r.out = out) ∨
    (∃ s1, BabelDesc.ListenBody lib (bd, s, out) = Step.next (bd, s1, out)) ∨
    (∃ upd bd' s1, IsAction upd.action ∧ bd.Update upd = some (bd', none) ∧
      BabelDesc.ListenBody lib (bd, s, out) = Step.next (bd', s1, out ++ [upd.ToSUpdate lib])) := by
  obtain ⟨upd, err, s1, hPA, -, -, -, hupd⟩ := ParseAction_returns lib bd s
  simp only [BabelDesc.ListenBody, hPA]
  split
  · exact Or.inl ⟨_, rfl, rfl, rfl⟩
  · split
    · exact Or.inl ⟨_, rfl, rfl, rfl⟩
    · split
      · rename_i hact
        have hA : IsAction upd.action := by
          rcases hupd with h | h
          · rw [h] at hact; exact absurd rfl hact
          · exact h.1
        cases hc : bd.CheckUpdate upd with
        | none => exact Or.inl ⟨_, rfl, rfl, rfl⟩
        | some b =>
          cases b with
          | false => exact Or.inr (Or.inl ⟨s1, rfl⟩)
          | true =>
            cases hu : bd.Update upd with
            | none => exact Or.inl ⟨_, rfl, rfl, rfl⟩
            | some res =>
              obtain ⟨bd', e⟩ := res
              cases e with
              | some e => exact Or.inl ⟨_, rfl, Update_error bd bd' upd e hu, rfl⟩
              | none => exact Or.inr (Or.inr ⟨upd, bd', s1, hA, hu, rfl⟩)
      · exact Or.inr (Or.inl ⟨s1, rfl⟩)

theorem Mirror.mem_apply (m : Mirror) (u : SBabelUpdate) (p : String × String) :
    (u.Action = "add" → (p ∈ m.apply u ↔ p ∈ m ∨ p = (u.Table, u.Entry))) ∧
    (u.Action = "change" → (p ∈ m.apply u ↔ p ∈ m)) ∧
    (u.Action = "flush" → (p ∈ m.apply u ↔ p ∈ m ∧ p ≠ (u.Table, u.Entry))) := by
  refine ⟨?_, ?_, ?_⟩
  · intro ha
    simp only [Mirror.apply, ha, if_true]
    split
    · rename_i hin
      constructor
      · exact Or.inl
      · rintro (h | h)
        · exact h
        · rw [h]; exact hin
    · simp
  · intro ha
    have c1 : ¬ ("change" = "add") := by decide
    have c2 : ¬ ("change" = "flush") := by decide
    simp only [Mirror.apply, ha, c1, c2, if_false]
  · intro ha
    have c1 : ¬ ("flush" = "add") := by decide
    simp only [Mirror.apply, ha, c1, if_false, if_true, List.mem_filter, decide_eq_true_eq]

theorem Mirror.replay_append (m : Mirror) (a b : List SBabelUpdate) :
    Mirror.replay m (a ++ b) = Mirror.replay (Mirror.replay m a) b := by
  simp [Mirror.replay, List.foldl_append]

/-- Replaying flush events removes their entries from the mirror. -/
theorem Mirror.replay_flushes (l : List SBabelUpdate) (hl : ∀ u ∈ l, u.Action = "flush")
    (m : Mirror) (p : String × String) :
    p ∈ Mirror.replay m l ↔ p ∈ m ∧ p ∉ l.map (fun u => (u.Table, u.Entry)) := by
  induction l generalizing m with
  | nil => simp [Mirror.replay]
  | cons u rest ih =>
    have hu := hl u (List.mem_cons_self _ _)
    have ih' := ih (fun v hv => hl v (List.mem_cons_of_mem _ hv)) (m.apply u)
    simp only [Mirror.replay, List.foldl_cons] at ih' ⊢
    rw [ih', ((Mirror.mem_apply m u p).2.2 hu)]
    simp only [List.map_cons, List.mem_cons, not_or, ne_eq]
    tauto


theorem Agrees_step (lib : Lib) (bd bd' : BabelDesc) (upd : BabelUpdate)
    (out : List SBabelUpdate) (hA : IsAction upd.action)
    (hu : bd.Update upd = some (bd', none)) (h : Agrees out bd) :
    Agrees (out ++ [upd.ToSUpdate lib]) bd' := by
  intro tk ek
  have hst := Update_stored bd bd' upd hu tk ek
  have hm := Mirror.mem_apply (Mirror.replay [] out) (upd.ToSUpdate lib) (tk, ek)
  have hrep : Mirror.replay [] (out ++ [upd.ToSUpdate lib]) =
      (Mirror.replay [] out).apply (upd.ToSUpdate lib) := by
    simp [Mirror.replay, List.foldl_append]
  rw [hrep]
  have hact : (upd.ToSUpdate lib).Action = upd.action := rfl
  have htab : (upd.ToSUpdate lib).Table = upd.table := rfl
  have hent : (upd.ToSUpdate lib).Entry = upd.entry := rfl
  rw [hact, htab, hent] at hm
  rcases hA with ha | ha | ha
  · rw [hm.1 ha, hst.1 ha, h tk ek]
  · rw [hm.2.1 ha, hst.2.1 ha, h tk ek]
  · rw [hm.2.2 ha, hst.2.2 ha, h tk ek]

/-- Replaying the events sent by the loop of `Listen` gives a mirror that holds
exactly the entries stored when the loop is left. -/
theorem ListenLoop_agrees (lib : Lib) (bd : BabelDesc) (s : Scanner) (out : List SBabelUpdate)
    (h : Agrees out bd) :
    Agrees (BabelDesc.ListenLoop lib bd s out).out (BabelDesc.ListenLoop lib bd s out).bd := by
  unfold BabelDesc.ListenLoop
  cases hl : loop (BabelDesc.ListenBody lib) (s.toks.length + 1) (bd, s, out) with
  | none => exact h
  | some r =>
    simp only
    refine loop_result (BabelDesc.ListenBody lib) (fun st => Agrees st.2.2 st.1)
      (fun r => Agrees r.out r.bd) ?_ ?_ _ (bd, s, out) r h hl
    · rintro ⟨bd0, s0, out0⟩ st' hst hb
      rcases ListenBody_cases lib bd0 s0 out0 with ⟨r', h1, -, -⟩ | ⟨s1, h1⟩ |
        ⟨upd, bd', s1, hA, hu, h1⟩
      · rw [h1] at hb; cases hb
      · rw [h1] at hb; cases hb; exact hst
      · rw [h1] at hb; cases hb; exact Agrees_step lib bd0 bd' upd out0 hA hu hst
    · rintro ⟨bd0, s0, out0⟩ r' hst hb
      rcases ListenBody_cases lib bd0 s0 out0 with ⟨r'', h1, h2, h3⟩ | ⟨s1, h1⟩ |
        ⟨upd, bd', s1, hA, hu, h1⟩
      · rw [h1] at hb; cases hb; rw [h2, h3]; exact hst
      · rw [h1] at hb; cases hb
      · rw [h1] at hb; cases hb

theorem flushes_keys_eq (lib : Lib) (bd : BabelDesc) :
    (bd.flushes lib).map (fun u => (u.Table, u.Entry)) =
      bd.ts.items.flatMap (fun tp => tp.2.dict.items.map (fun ep => (tp.1, ep.1))) := by
  unfold BabelDesc.flushes
  rw [List.map_flatMap]
  congr 1
  funext tp
  rw [List.map_map]
  rfl

/-- The flush events name exactly the stored entries. -/
theorem flushes_keys (lib : Lib) (bd : BabelDesc) (tk ek : String) :
    (tk, ek) ∈ (bd.flushes lib).map (fun u => (u.Table, u.Entry)) ↔ bd.Stored tk ek := by
  rw [flushes_keys_eq]
  simp only [List.mem_flatMap, List.mem_map, Prod.mk.injEq, Prod.exists]
  unfold BabelDesc.Stored
  constructor
  · rintro ⟨tk', tv, htv, ek', ev, hev, rfl, rfl⟩
    exact ⟨tv, ev, (GoMap.mem_items_iff _ _ _).mp htv, (GoMap.mem_items_iff _ _ _).mp hev⟩
  · rintro ⟨tv, ev, htv, hev⟩
    exact ⟨tk, tv, (GoMap.mem_items_iff _ _ _).mpr htv, ek, ev,
      (GoMap.mem_items_iff _ _ _).mpr hev, rfl, rfl⟩

/-- No entry is flushed twice. -/
theorem flushes_nodup (lib : Lib) (bd : BabelDesc) :
    ((bd.flushes lib).map (fun u => (u.Table, u.Entry))).Nodup := by
  rw [flushes_keys_eq, List.nodup_flatMap]
  constructor
  · rintro ⟨tk, tv⟩ -
    have h := tv.dict.nodup
    have : tv.dict.items.map (fun ep => (tk, ep.1)) =
        (tv.dict.items.map Prod.fst).map (fun k => (tk, k)) := by
      rw [List.map_map]; rfl
    simp only
    rw [this]
    exact List.Nodup.map (fun a b hab => (Prod.mk.inj hab).2) h
  · have h := bd.ts.nodup
    rw [List.Nodup, List.pairwise_map] at h
    refine List.Pairwise.imp ?_ h
    rintro ⟨tk, tv⟩ ⟨tk', tv'⟩ hne
    simp only [Function.onFun]
    intro p hp hp'
    simp only [List.mem_map] at hp hp'
    obtain ⟨ep, -, rfl⟩ := hp
    obtain ⟨ep', -, h'⟩ := hp'
    exact hne (Prod.mk.inj h').1.symm

theorem NewBabelDesc_empty : ∀ tk ek, ¬ NewBabelDesc.Stored tk ek := by
  rintro tk ek ⟨t, e, ht, he⟩
  have hmem := (GoMap.mem_items_iff _ _ _).mpr ht
  have hitems : NewBabelDesc.ts.items =
      [("route", { dict := GoMap.empty }), ("xroute", { dict := GoMap.empty }),
       ("interface", { dict := GoMap.empty }), ("neighbour", { dict := GoMap.empty })] := rfl
  rw [hitems] at hmem
  simp only [List.mem_cons, Prod.mk.injEq, List.mem_singleton, List.not_mem_nil, or_false] at hmem
  rcases hmem with ⟨-, rfl⟩ | ⟨-, rfl⟩ | ⟨-, rfl⟩ | ⟨-, rfl⟩ <;> cases he

/-! ## The session does not panic -/

theorem CheckUpdate_returns (lib : Lib) (bd : BabelDesc) (upd : BabelUpdate)
    (hwf : bd.WellFormed lib) (ht : (makeEntry lib upd.table).2 = none)
    (hk : upd.entryData.keys = (makeEntry lib upd.table).1.keys) :
    ∃ b, bd.CheckUpdate upd = some b := by
  unfold BabelDesc.CheckUpdate
  split
  · exact ⟨true, rfl⟩
  · obtain ⟨tbl, htbl⟩ := hwf.1 upd.table ht
    rw [htbl]
    simp only
    cases hs : tbl.dict.get upd.entry with
    | none => exact ⟨false, rfl⟩
    | some stored =>
      simp only
      have hkeys := hwf.2 upd.table tbl upd.entry stored htbl hs
      obtain ⟨b, hb, -⟩ := CheckLoop_spec upd.entryData stored.items (by
        intro p hp
        have : p.1 ∈ stored.keys := List.mem_map_of_mem Prod.fst hp
        rw [hkeys, ← hk] at this
        exact (GoMap.mem_keys_iff _ _).mp this)
      exact ⟨b, hb⟩

theorem WellFormed_set (lib : Lib) (bd : BabelDesc) (tn : String) (tbl t' : table)
    (hwf : bd.WellFormed lib) (htbl : bd.ts.get tn = some tbl)
    (h : ∀ id e, t'.dict.get id = some e → e.keys = (makeEntry lib tn).1.keys) :
    BabelDesc.WellFormed lib { bd with ts := bd.ts.set tn t' } := by
  constructor
  · intro t ht
    by_cases htn : t = tn
    · subst htn; exact ⟨t', GoMap.get_set_same _ _ _⟩
    · simp only [GoMap.get_set_ne _ _ _ _ htn]
      exact hwf.1 t ht
  · intro t tb id e hg he
    by_cases htn : t = tn
    · subst htn
      simp only [GoMap.get_set_same, Option.some.injEq] at hg
      subst hg
      exact h id e he
    · simp only [GoMap.get_set_ne _ _ _ _ htn] at hg
      exact hwf.2 t tb id e hg he

/-- An action on a table kind, with an entry of that kind, is applied without
panic, and the router state stays well formed. -/
theorem Update_returns (lib : Lib) (bd : BabelDesc) (upd : BabelUpdate)
    (hwf : bd.WellFormed lib) (ht : (makeEntry lib upd.table).2 = none)
    (hk : upd.entryData.keys = (makeEntry lib upd.table).1.keys) :
    ∃ bd' e, bd.Update upd = some (bd', e) ∧ bd'.WellFormed lib := by
  obtain ⟨tbl, htbl⟩ := hwf.1 upd.table ht
  have hold := hwf.2 upd.table tbl
  unfold BabelDesc.Update
  simp only [htbl]
  split
  · refine ⟨_, _, rfl, WellFormed_set lib bd upd.table tbl _ hwf htbl ?_⟩
    intro id e he
    unfold table.Add at he
    cases hi : tbl.dict.get upd.entry with
    | some old => rw [hi] at he; exact hold id e htbl he
    | none =>
      rw [hi] at he
      simp only at he
      by_cases hid : id = upd.entry
      · subst hid
        rw [GoMap.get_set_same] at he
        cases he
        exact hk
      · rw [GoMap.get_set_ne _ _ _ _ hid] at he
        exact hold id e htbl he
  · split
    · refine ⟨_, _, rfl, WellFormed_set lib bd upd.table tbl _ hwf htbl ?_⟩
      intro id e he
      unfold table.Change at he
      cases hi : tbl.dict.get upd.entry with
      | none => rw [hi] at he; exact hold id e htbl he
      | some old =>
        rw [hi] at he
        simp only at he
        by_cases hid : id = upd.entry
        · subst hid
          rw [GoMap.get_set_same] at he
          cases he
          exact hk
        · rw [GoMap.get_set_ne _ _ _ _ hid] at he
          exact hold id e htbl he
    · split
      · refine ⟨_, _, rfl, WellFormed_set lib bd upd.table tbl _ hwf htbl ?_⟩
        intro id e he
        unfold table.Flush at he
        cases hi : tbl.dict.get upd.entry with
        | none => rw [hi] at he; exact hold id e htbl he
        | some old =>
          rw [hi] at he
          simp only at he
          by_cases hid : id = upd.entry
          · subst hid
            rw [GoMap.get_delete_same] at he
            cases he
          · rw [GoMap.get_delete_ne _ _ _ hid] at he
            exact hold id e htbl he
      · exact ⟨bd, none, rfl, hwf⟩

/-- One pass of the loop of `Listen` from a well-formed router state: it
returns an error or nil, or goes round again, and the state stays well formed. -/
theorem ListenBody_wellFormed (lib : Lib) (bd : BabelDesc) (s : Scanner)
    (out : List SBabelUpdate) (hwf : bd.WellFormed lib) :
    (∃ r err, BabelDesc.ListenBody lib (bd, s, out) = Step.done r ∧
      r.status = Status.returned err ∧ r.bd.WellFormed lib) ∨
    (∃ st', BabelDesc.ListenBody lib (bd, s, out) = Step.next st' ∧ st'.1.WellFormed lib) := by
  obtain ⟨upd, err, s1, hPA, -, -, -, hupd⟩ := ParseAction_returns lib bd s
  simp only [BabelDesc.ListenBody, hPA]
  split
  · exact Or.inl ⟨_, _, rfl, rfl, hwf⟩
  · split
    · exact Or.inl ⟨_, _, rfl, rfl, hwf⟩
    · split
      · rename_i hact
        have hv : (makeEntry lib upd.table).2 = none ∧
            upd.entryData.keys = (makeEntry lib upd.table).1.keys := by
          rcases hupd with h | h
          · rw [h] at hact; exact absurd rfl hact
          · exact ⟨h.2.1, h.2.2.1⟩
        obtain ⟨b, hb⟩ := CheckUpdate_returns lib bd upd hwf hv.1 hv.2
        obtain ⟨bd', e, hu, hwf'⟩ := Update_returns lib bd upd hwf hv.1 hv.2
        rw [hb]
        cases b with
        | false => exact Or.inr ⟨_, rfl, hwf⟩
        | true =>
          simp only [hu]
          cases e with
          | some e => exact Or.inl ⟨_, _, rfl, rfl, hwf'⟩
          | none => exact Or.inr ⟨_, rfl, hwf'⟩
      · exact Or.inr ⟨_, rfl, hwf⟩

theorem NewBabelDesc_wellFormed (lib : Lib) (i n v : String) :
    BabelDesc.WellFormed lib { NewBabelDesc with ID := i, Name := n, Version := v } := by
  constructor
  · intro t ht
    rcases (makeEntry_ok_iff lib t).mp ht with h | h | h | h <;> subst h <;>
      exact ⟨{ dict := GoMap.empty }, rfl⟩
  · intro t tbl id e ht he
    exfalso
    exact NewBabelDesc_empty t id ⟨tbl, e, ht, he⟩

/-- From a well-formed router state `Listen` returns: it ends with nil or with
an error, not with a panic. -/
theorem Listen_returns (lib : Lib) (bd : BabelDesc) (s : Scanner) (out : List SBabelUpdate)
    (hwf : bd.WellFormed lib) :
    ∃ err, (bd.Listen lib s out).status = Status.returned err ∧
      (bd.Listen lib s out).bd.WellFormed lib := by
  have hL := Listen_flushes lib bd s out
  have hstat : (bd.Listen lib s out).status = (BabelDesc.ListenLoop lib bd s out).status := by
    rw [hL]
  have hbd : (bd.Listen lib s out).bd = (BabelDesc.ListenLoop lib bd s out).bd := by rw [hL]
  rw [hstat, hbd]
  have hsome := (ListenLoop_fuel lib (s.toks.length + 1) (s.toks.length + 1) (bd, s, out)
    (Nat.lt_succ_self _) (Nat.lt_succ_self _)).2
  obtain ⟨r, hr⟩ := Option.isSome_iff_exists.mp hsome
  unfold BabelDesc.ListenLoop
  rw [hr]
  simp only
  refine loop_result (BabelDesc.ListenBody lib) (fun st => st.1.WellFormed lib)
    (fun r => ∃ err, r.status = Status.returned err ∧ r.bd.WellFormed lib) ?_ ?_ _ (bd, s, out) r
    hwf hr
  · rintro ⟨bd0, s0, out0⟩ st' hst hb
    rcases ListenBody_wellFormed lib bd0 s0 out0 hst with ⟨r', e, h1, -, -⟩ | ⟨st'', h1, h2⟩
    · rw [h1] at hb; cases hb
    · rw [h1] at hb; cases hb; exact h2
  · rintro ⟨bd0, s0, out0⟩ r' hst hb
    rcases ListenBody_wellFormed lib bd0 s0 out0 hst with ⟨r'', e, h1, h2, h3⟩ | ⟨st'', h1, -⟩
    · rw [h1] at hb; cases hb; exact ⟨e, h2, h3⟩
    · rw [h1] at hb; cases hb

/-- C3: for every feed run through `Listen` from an empty router state (a
table for every table kind, no entry stored), the call returns, with nil when
streaming ended by the end of the input or with the fatal error that ended it;
the events sent after those of the loop are the flush events of the state the
loop ended in, exactly one for each `(table, id)` stored at that moment and
none for any other id; and replaying all the events sent onto an empty mirror
leaves the mirror empty. -/
theorem Listen_flushes_all (lib : Lib) (bd : BabelDesc) (s : Scanner)
    (htables : ∀ t, (makeEntry lib t).2 = none → ∃ tbl, bd.ts.get t = some tbl)
    (hempty : ∀ tk ek, ¬ bd.Stored tk ek) :
    (∃ err, (bd.Listen lib s []).status = Status.returned err) ∧
    (bd.Listen lib s []).bd = (BabelDesc.ListenLoop lib bd s []).bd ∧
    (bd.Listen lib s []).out =
      (BabelDesc.ListenLoop lib bd s []).out ++ (bd.Listen lib s []).bd.flushes lib ∧
    (∀ u ∈ (bd.Listen lib s []).bd.flushes lib, u.Action = "flush") ∧
    (((bd.Listen lib s []).bd.flushes lib).map (fun u => (u.Table, u.Entry))).Nodup ∧
    (∀ tk ek, (tk, ek) ∈ ((bd.Listen lib s []).bd.flushes lib).map (fun u => (u.Table, u.Entry)) ↔
      (bd.Listen lib s []).bd.Stored tk ek) ∧
    Mirror.replay [] (bd.Listen lib s []).out = [] := by
  have hL := Listen_flushes lib bd s []
  have hbd : (bd.Listen lib s []).bd = (BabelDesc.ListenLoop lib bd s []).bd := by rw [hL]
  have hout : (bd.Listen lib s []).out =
      (BabelDesc.ListenLoop lib bd s []).out ++ (bd.Listen lib s []).bd.flushes lib := by
    rw [hbd]; rw [hL]
  have hwf : bd.WellFormed lib :=
    ⟨htables, fun t tbl id e ht he => absurd ⟨tbl, e, ht, he⟩ (hempty t id)⟩
  refine ⟨?_, hbd, hout, flushes_action lib _, flushes_nodup lib _, flushes_keys lib _, ?_⟩
  · obtain ⟨err, herr, -⟩ := Listen_returns lib bd s [] hwf
    exact ⟨err, herr⟩
  · have h0 : Agrees [] bd := by
      intro tk ek
      simp only [Mirror.replay, List.foldl_nil, List.not_mem_nil, false_iff]
      exact hempty tk ek
    have hag := ListenLoop_agrees lib bd s [] h0
    rw [hout, Mirror.replay_append]
    apply List.eq_nil_iff_forall_not_mem.mpr
    rintro ⟨tk, ek⟩ hp
    rw [Mirror.replay_flushes _ (flushes_action lib _)] at hp
    obtain ⟨h1, h2⟩ := hp
    apply h2
    rw [flushes_keys, hbd]
    exact (hag tk ek).mp h1

/-- Instance of C3 (Scenario D): the feed `add route r1 prefix 10.0.0.0/24 via
10.0.0.1` followed by the end of the input, from the empty router state; the
events sent are the add of `r1` and one flush of `r1`. -/
theorem Listen_flushes_all_witness :
    ((NewBabelDesc.Listen goLib
        (feed ["add", "route", "r1", "prefix", "10.0.0.0/24", "via", "10.0.0.1", "\n"])
        []).status = Status.returned none ∧
      Mirror.replay [] (NewBabelDesc.Listen goLib
        (feed ["add", "route", "r1", "prefix", "10.0.0.0/24", "via", "10.0.0.1", "\n"])
        []).out = []) ∧
    (NewBabelDesc.Listen goLib
        (feed ["add", "route", "r1", "prefix", "10.0.0.0/24", "via", "10.0.0.1", "\n"])
        []).out.map (fun u => (u.Action, u.Table, u.Entry)) =
      [("add", "route", "r1"), ("flush", "route", "r1")] :=
  ⟨⟨by decide,
    (Listen_flushes_all goLib NewBabelDesc
      (feed ["add", "route", "r1", "prefix", "10.0.0.0/24", "via", "10.0.0.1", "\n"])
      (NewBabelDesc_wellFormed goLib "" "" "").1 NewBabelDesc_empty).2.2.2.2.2.2⟩, by decide⟩



/-! ## The tokenizer stays inside the buffer -/

theorem getElem?_lt {data : List Nat} {i : Nat} (h : i < data.length) :
    ∃ c, data[i]? = some c := ⟨data[i], List.getElem?_eq_getElem h⟩

theorem getElem?_mid (pre suf : List Nat) (c : Nat) :
    (pre ++ c :: suf)[pre.length]? = some c := by
  rw [List.getElem?_append_right (Nat.le_refl _)]
  simp

theorem slice_some {data : List Nat} {lo hi : Nat} (h1 : lo ≤ hi) (h2 : hi ≤ data.length) :
    slice data lo hi = some ((data.drop lo).take (hi - lo)) := by
  simp [slice, h1, h2]

/-- The escape test reads inside the buffer; when it holds, two more bytes are there. -/
theorem escapeAt_some (data : List Nat) (i : Nat) :
    ∃ b, escapeAt data i = some b ∧ (b = true → i + 2 ≤ data.length) := by
  unfold escapeAt
  split
  · rename_i h
    have h1 : i < data.length := by omega
    have h2 : i + 1 < data.length := by omega
    obtain ⟨c, hc⟩ := getElem?_lt h1
    obtain ⟨c', hc'⟩ := getElem?_lt h2
    rw [hc]
    simp only
    split
    · rw [hc']
      exact ⟨_, rfl, fun _ => by omega⟩
    · exact ⟨false, rfl, fun h => by cases h⟩
  · exact ⟨false, rfl, fun h => by cases h⟩

theorem escapeAt_of_ne (data : List Nat) (i c : Nat) (hc : data[i]? = some c)
    (hne : c ≠ BSLASH) : escapeAt data i = some false := by
  unfold escapeAt
  split
  · rw [hc]; simp [hne]
  · rfl

theorem escapeAt_true (pre suf : List Nat) :
    escapeAt (pre ++ BSLASH :: QUOTE :: suf) pre.length = some true := by
  unfold escapeAt
  have h : pre.length < (pre ++ BSLASH :: QUOTE :: suf).length - 1 := by
    simp only [List.length_append, List.length_cons]; omega
  rw [if_pos h]
  have h1 : (pre ++ BSLASH :: QUOTE :: suf)[pre.length]? = some BSLASH := getElem?_mid _ _ _
  have h2 : (pre ++ BSLASH :: QUOTE :: suf)[pre.length + 1]? = some QUOTE := by
    rw [List.getElem?_append_right (by omega)]
    simp
  rw [h1]
  simp only [if_true]
  rw [h2]
  rfl

/-- A backslash that is not followed by a quote is no escape. -/
theorem escapeAt_false_of_next (data : List Nat) (i : Nat)
    (h : ∀ c, data[i + 1]? = some c → c ≠ QUOTE) : escapeAt data i = some false := by
  unfold escapeAt
  split
  · rename_i hlt
    obtain ⟨c, hc⟩ := getElem?_lt (show i < data.length by omega)
    obtain ⟨c', hc'⟩ := getElem?_lt (show i + 1 < data.length by omega)
    rw [hc]
    simp only
    split
    · rw [hc']
      simp [h c' hc']
    · rfl
  · rfl

/-! ### The loop that skips blanks -/

theorem skipBody_next (data : List Nat) (start start' : Nat)
    (h : skipBody data start = Step.next start') :
    start' = start + 1 ∧ start < data.length ∧
      (data[start]? = some SP ∨ data[start]? = some CR) := by
  unfold skipBody at h
  split at h
  · rename_i hlt
    obtain ⟨c, hc⟩ := getElem?_lt hlt
    rw [hc] at h
    simp only at h
    split at h
    · rename_i hsp
      cases h
      refine ⟨rfl, hlt, ?_⟩
      rcases hsp with h | h <;> subst h
      · exact Or.inl hc
      · exact Or.inr hc
    · cases h
  · cases h

theorem skipFrom_unfold (data : List Nat) (start : Nat) :
    skipFrom data start =
      match skipBody data start with
      | Step.done r => r
      | Step.next start' => skipFrom data start' := by
  unfold skipFrom
  cases hb : skipBody data start with
  | done r => simp [loop, hb]
  | next start' =>
    obtain ⟨h1, h2, -⟩ := skipBody_next data start start' hb
    rw [loop_next _ _ _ _ hb]
    have hdec : ∀ st st', True → skipBody data st = Step.next st' →
        True ∧ data.length - st' < data.length - st := by
      intro st st' _ h
      obtain ⟨a1, a2, -⟩ := skipBody_next data st st' h
      exact ⟨trivial, by omega⟩
    rw [(loop_fuel (skipBody data) (fun st => data.length - st) (fun _ => True) hdec
      (data.length - start) (data.length - start' + 1) start' trivial
      (by show data.length - start' < data.length - start; omega)
      (by show data.length - start' < data.length - start' + 1; omega)).1]

/-- The skipping loop returns an index inside the buffer, or its end. -/
theorem skipFrom_returns (data : List Nat) :
    ∀ (n start : Nat), data.length - start ≤ n → start ≤ data.length →
      ∃ r, skipFrom data start = Outcome.returned r ∧ start ≤ r ∧ r ≤ data.length := by
  intro n
  induction n with
  | zero =>
    intro start h1 h2
    have : ¬ start < data.length := by omega
    rw [skipFrom_unfold]
    simp only [skipBody, this, if_false]
    exact ⟨start, rfl, Nat.le_refl _, h2⟩
  | succ n ih =>
    intro start h1 h2
    rw [skipFrom_unfold]
    cases hb : skipBody data start with
    | next start' =>
      obtain ⟨a1, a2, -⟩ := skipBody_next data start start' hb
      obtain ⟨r, hr, hr1, hr2⟩ := ih start' (by omega) (by omega)
      exact ⟨r, hr, by omega, hr2⟩
    | done r =>
      simp only
      unfold skipBody at hb
      split at hb
      · rename_i hlt
        obtain ⟨c, hc⟩ := getElem?_lt hlt
        rw [hc] at hb
        simp only at hb
        split at hb
        · cases hb
        · cases hb
          exact ⟨start, rfl, Nat.le_refl _, h2⟩
      · cases hb
        exact ⟨start, rfl, Nat.le_refl _, h2⟩
/-! ### The loop of `split_quotes` -/

/-- The ways one pass of the loop of `split_quotes` can end, from a state with
`start ≤ i ≤ len(data)`: an escape is taken, an ordinary byte is passed, the
closing quote is found, or the buffer has ended. -/
theorem quotesBody_cases (data : List Nat) (i start : Nat) (token : List Nat) (b : Bool)
    (h1 : start ≤ i) (h2 : i ≤ data.length) :
    (∃ seg, i + 2 ≤ data.length ∧ slice data start i = some seg ∧
      escapeAt data i = some true ∧
      quotesBody data (i, start, token, b) =
        Step.next (i + 2, i + 2, token ++ (seg ++ [QUOTE]), true)) ∨
    (∃ c, data[i]? = some c ∧ c ≠ QUOTE ∧ escapeAt data i = some false ∧
      quotesBody data (i, start, token, b) = Step.next (i + 1, start, token, false)) ∨
    (∃ seg, data[i]? = some QUOTE ∧ slice data start i = some seg ∧
      quotesBody data (i, start, token, b) =
        Step.done (Outcome.returned (i + 1, some (if b then token else token ++ seg), none))) ∨
    (i = data.length ∧
      quotesBody data (i, start, token, b) =
        Step.done (Outcome.returned (0, none, some Error.ErrUnterminatedString))) := by
  have hs := slice_some h1 h2
  by_cases hlt : i < data.length
  · obtain ⟨c, hc⟩ := getElem?_lt hlt
    by_cases hq : c = QUOTE
    · subst hq
      refine Or.inr (Or.inr (Or.inl ⟨_, hc, hs, ?_⟩))
      simp only [quotesBody, hlt, if_true, hc, ne_eq, not_true_eq_false, if_false, hs]
      cases b <;> simp
    · obtain ⟨e, he, hb⟩ := escapeAt_some data i
      cases e with
      | true =>
        refine Or.inl ⟨_, hb rfl, hs, he, ?_⟩
        simp only [quotesBody, hlt, if_true, hc, ne_eq, hq, not_false_eq_true, he, hs]
      | false =>
        refine Or.inr (Or.inl ⟨c, hc, hq, he, ?_⟩)
        simp only [quotesBody, hlt, if_true, hc, ne_eq, hq, not_false_eq_true, he]
  · refine Or.inr (Or.inr (Or.inr ⟨by omega, ?_⟩))
    simp only [quotesBody, hlt, if_false]

theorem quotesBody_next (data : List Nat) (st st' : SplitState)
    (h : quotesBody data st = Step.next st') :
    st.1 < data.length ∧ st.1 < st'.1 := by
  obtain ⟨i, start, token, b⟩ := st
  by_cases hlt : i < data.length
  · refine ⟨hlt, ?_⟩
    simp only [quotesBody, hlt, if_true] at h
    repeat' (first | (cases h; done) | split at h)
    all_goals (cases h; simp)
  · simp only [quotesBody, hlt, if_false] at h
    cases h

theorem quotesFrom_unfold (data : List Nat) (st : SplitState) :
    quotesFrom data st =
      match quotesBody data st with
      | Step.done r => r
      | Step.next st' => quotesFrom data st' := by
  unfold quotesFrom
  cases hb : quotesBody data st with
  | done r => simp [loop, hb]
  | next st' =>
    obtain ⟨h1, h2⟩ := quotesBody_next data st st' hb
    rw [loop_next _ _ _ _ hb]
    have hdec : ∀ s s', True → quotesBody data s = Step.next s' →
        True ∧ data.length - s'.1 < data.length - s.1 := by
      intro s s' _ h
      obtain ⟨a1, a2⟩ := quotesBody_next data s s' h
      exact ⟨trivial, by omega⟩
    rw [(loop_fuel (quotesBody data) (fun s => data.length - s.1) (fun _ => True) hdec
      (data.length - st.1) (data.length - st'.1 + 1) st' trivial
      (by show data.length - st'.1 < data.length - st.1; omega)
      (by show data.length - st'.1 < data.length - st'.1 + 1; omega)).1]

/-- From a state with `start ≤ i ≤ len(data)` the loop of `split_quotes`
returns: a token and an advance past the closing quote, or the error for an
unterminated string with advance 0 and no token. -/
theorem quotesFrom_returns (data : List Nat) :
    ∀ (n i start : Nat) (token : List Nat) (b : Bool), data.length - i ≤ n →
      start ≤ i → i ≤ data.length →
      (∃ m q, quotesFrom data (i, start, token, b) = Outcome.returned (m, some q, none) ∧
        i < m ∧ m ≤ data.length) ∨
      quotesFrom data (i, start, token, b) =
        Outcome.returned (0, none, some Error.ErrUnterminatedString) := by
  intro n
  induction n with
  | zero =>
    intro i start token b hn h1 h2
    rcases quotesBody_cases data i start token b h1 h2 with
      ⟨seg, hl, -, -, -⟩ | ⟨c, hc, -, -, -⟩ | ⟨seg, hc, -, -⟩ | ⟨-, hb⟩
    · omega
    · have := (List.getElem?_eq_some_iff.mp hc).1; omega
    · have := (List.getElem?_eq_some_iff.mp hc).1; omega
    · right; rw [quotesFrom_unfold, hb]
  | succ n ih =>
    intro i start token b hn h1 h2
    rcases quotesBody_cases data i start token b h1 h2 with
      ⟨seg, hl, -, -, hb⟩ | ⟨c, hc, -, -, hb⟩ | ⟨seg, hc, -, hb⟩ | ⟨-, hb⟩
    · rw [quotesFrom_unfold, hb]
      simp only
      rcases ih (i + 2) (i + 2) (token ++ (seg ++ [QUOTE])) true (by omega) (Nat.le_refl _) hl with
        ⟨m, q, hr, hm1, hm2⟩ | hr
      · exact Or.inl ⟨m, q, hr, by omega, hm2⟩
      · exact Or.inr hr
    · have hlt := (List.getElem?_eq_some_iff.mp hc).1
      rw [quotesFrom_unfold, hb]
      simp only
      rcases ih (i + 1) start token false (by omega) (by omega) (by omega) with
        ⟨m, q, hr, hm1, hm2⟩ | hr
      · exact Or.inl ⟨m, q, hr, by omega, hm2⟩
      · exact Or.inr hr
    · have hlt := (List.getElem?_eq_some_iff.mp hc).1
      left
      rw [quotesFrom_unfold, hb]
      exact ⟨i + 1, _, rfl, by omega, by omega⟩
    · right; rw [quotesFrom_unfold, hb]

theorem split_quotes_returns (data : List Nat) (i : Nat) (h : i < data.length) :
    (∃ m q, split_quotes data i = Outcome.returned (m, some q, none) ∧
      i + 1 < m ∧ m ≤ data.length) ∨
    split_quotes data i = Outcome.returned (0, none, some Error.ErrUnterminatedString) := by
  unfold split_quotes
  exact quotesFrom_returns data (data.length - (i + 1)) (i + 1) (i + 1) [] false
    (Nat.le_refl _) (Nat.le_refl _) (by omega)
/-! ### The main loop of `split` -/

/-- The ways one pass of the main loop of `split` can end, from a state with
`start ≤ i ≤ len(data)`. -/
theorem splitBody_cases (data : List Nat) (atEOF : Bool) (i start : Nat) (token : List Nat)
    (b : Bool) (h1 : start ≤ i) (h2 : i ≤ data.length) :
    (i + 2 ≤ data.length ∧ escapeAt data i = some true ∧
      splitBody data atEOF (i, start, token, b) =
        Step.next (i + 2, i + 2, token ++ [QUOTE], b)) ∨
    (∃ seg m q, data[i]? = some QUOTE ∧ slice data start i = some seg ∧
      split_quotes data i = Outcome.returned (m, some q, none) ∧ i + 1 < m ∧ m ≤ data.length ∧
      splitBody data atEOF (i, start, token, b) =
        Step.next (m, m, (token ++ seg) ++ q, true)) ∨
    (data[i]? = some QUOTE ∧
      split_quotes data i = Outcome.returned (0, none, some Error.ErrUnterminatedString) ∧
      splitBody data atEOF (i, start, token, b) =
        Step.done (Outcome.returned (0, none, some Error.ErrUnterminatedString))) ∨
    (∃ c, data[i]? = some c ∧ c ≠ SP ∧ c ≠ CR ∧ c ≠ LF ∧ c ≠ QUOTE ∧
      escapeAt data i = some false ∧
      splitBody data atEOF (i, start, token, b) = Step.next (i + 1, start, token, false)) ∨
    (∃ c seg, data[i]? = some c ∧ (c = SP ∨ c = CR ∨ c = LF) ∧ slice data start i = some seg ∧
      splitBody data atEOF (i, start, token, b) =
        Step.done (Outcome.returned (i, some (if b then token else token ++ seg), none))) ∨
    (∃ seg, i = data.length ∧ slice data start data.length = some seg ∧
      splitBody data atEOF (i, start, token, b) =
        Step.done (Outcome.returned
          (if b then (i, some token, none)
           else if atEOF = true ∧ start < data.length then
             (data.length, some (token ++ seg), none)
           else (start, none, none)))) := by
  have hs := slice_some h1 h2
  by_cases hlt : i < data.length
  · obtain ⟨c, hc⟩ := getElem?_lt hlt
    by_cases hd : c = SP ∨ c = CR ∨ c = LF
    · refine Or.inr (Or.inr (Or.inr (Or.inr (Or.inl ⟨c, _, hc, hd, hs, ?_⟩))))
      have hn : ¬ (c ≠ SP ∧ c ≠ CR ∧ c ≠ LF) := by
        rintro ⟨a1, a2, a3⟩
        rcases hd with h | h | h
        · exact a1 h
        · exact a2 h
        · exact a3 h
      simp only [splitBody, hlt, if_true, hc, hn, if_false, hs]
      cases b <;> simp
    · have hn : c ≠ SP ∧ c ≠ CR ∧ c ≠ LF := by
        refine ⟨fun h => hd (Or.inl h), fun h => hd (Or.inr (Or.inl h)),
          fun h => hd (Or.inr (Or.inr h))⟩
      obtain ⟨e, he, hb⟩ := escapeAt_some data i
      cases e with
      | true =>
        refine Or.inl ⟨hb rfl, he, ?_⟩
        simp only [splitBody, hlt, if_true, hc, hn, he]
        simp
        intro h
        exact absurd (h hn.1 hn.2.1) hn.2.2
      | false =>
        by_cases hq : c = QUOTE
        · subst hq
          rcases split_quotes_returns data i hlt with ⟨m, q, hr, hm1, hm2⟩ | hr
          · refine Or.inr (Or.inl ⟨_, m, q, hc, hs, hr, hm1, hm2, ?_⟩)
            simp only [splitBody, hlt, if_true, hc, he, hs, hr]
            simp
          · refine Or.inr (Or.inr (Or.inl ⟨hc, hr, ?_⟩))
            simp only [splitBody, hlt, if_true, hc, he, hs, hr]
            simp
        · refine Or.inr (Or.inr (Or.inr (Or.inl ⟨c, hc, hn.1, hn.2.1, hn.2.2, hq, he, ?_⟩)))
          simp only [splitBody, hlt, if_true, hc, hn, he, hq, if_false]
          simp
          intro h
          exact absurd (h hn.1 hn.2.1) hn.2.2
  · have hi : i = data.length := by omega
    subst hi
    refine Or.inr (Or.inr (Or.inr (Or.inr (Or.inr ⟨_, rfl, hs, ?_⟩))))
    simp only [splitBody, hlt, if_false, hs]
    cases b <;> simp
    split <;> simp

theorem splitBody_next (data : List Nat) (atEOF : Bool) (st st' : SplitState)
    (h : splitBody data atEOF st = Step.next st') :
    st.1 < data.length ∧ st.1 < st'.1 := by
  obtain ⟨i, start, token, b⟩ := st
  by_cases hlt : i < data.length
  · refine ⟨hlt, ?_⟩
    simp only [splitBody, hlt, if_true] at h
    split at h
    · cases h
    · rename_i c hc
      split at h
      · split at h
        · cases h
        · cases h; simp
        · split at h
          · rename_i hq
            subst hq
            split at h
            · cases h
            · rcases split_quotes_returns data i hlt with ⟨m, q, hr, hm1, hm2⟩ | hr
              · rw [hr] at h
                simp at h
                cases h
                show i < m
                omega
              · rw [hr] at h
                simp at h
          · cases h; simp
      · repeat' (first | cases h | split at h)
  · simp only [splitBody, hlt, if_false] at h
    repeat' (first | cases h | split at h)

theorem splitFrom_unfold (data : List Nat) (atEOF : Bool) (st : SplitState) :
    splitFrom data atEOF st =
      match splitBody data atEOF st with
      | Step.done r => r
      | Step.next st' => splitFrom data atEOF st' := by
  unfold splitFrom
  cases hb : splitBody data atEOF st with
  | done r => simp [loop, hb]
  | next st' =>
    obtain ⟨h1, h2⟩ := splitBody_next data atEOF st st' hb
    rw [loop_next _ _ _ _ hb]
    have hdec : ∀ s s', True → splitBody data atEOF s = Step.next s' →
        True ∧ data.length - s'.1 < data.length - s.1 := by
      intro s s' _ h
      obtain ⟨a1, a2⟩ := splitBody_next data atEOF s s' h
      exact ⟨trivial, by omega⟩
    rw [(loop_fuel (splitBody data atEOF) (fun s => data.length - s.1) (fun _ => True) hdec
      (data.length - st.1) (data.length - st'.1 + 1) st' trivial
      (by show data.length - st'.1 < data.length - st.1; omega)
      (by show data.length - st'.1 < data.length - st'.1 + 1; omega)).1]

/-- From a state with `start ≤ i ≤ len(data)` the main loop of `split` returns,
with an advance inside the buffer. -/
theorem splitFrom_returns (data : List Nat) (atEOF : Bool) :
    ∀ (n i start : Nat) (token : List Nat) (b : Bool), data.length - i ≤ n →
      start ≤ i → i ≤ data.length →
      ∃ m tok err, splitFrom data atEOF (i, start, token, b) = Outcome.returned (m, tok, err) ∧
        m ≤ data.length := by
  intro n
  induction n using Nat.strong_induction_on with
  | _ n ih =>
    intro i start token b hn h1 h2
    rcases splitBody_cases data atEOF i start token b h1 h2 with
      ⟨hl, -, hb⟩ | ⟨seg, m, q, -, -, -, hm1, hm2, hb⟩ | ⟨-, -, hb⟩ | ⟨c, hc, -, -, -, -, -, hb⟩ |
      ⟨c, seg, hc, -, -, hb⟩ | ⟨seg, hi, -, hb⟩
    · rw [splitFrom_unfold, hb]
      exact ih (data.length - (i + 2)) (by omega) (i + 2) (i + 2) _ _ (Nat.le_refl _)
        (Nat.le_refl _) hl
    · rw [splitFrom_unfold, hb]
      exact ih (data.length - m) (by omega) m m _ _ (Nat.le_refl _) (Nat.le_refl _) hm2
    · rw [splitFrom_unfold, hb]
      exact ⟨0, none, _, rfl, Nat.zero_le _⟩
    · have hlt := (List.getElem?_eq_some_iff.mp hc).1
      rw [splitFrom_unfold, hb]
      exact ih (data.length - (i + 1)) (by omega) (i + 1) start _ _ (Nat.le_refl _)
        (by omega) (by omega)
    · rw [splitFrom_unfold, hb]
      exact ⟨i, _, none, rfl, h2⟩
    · rw [splitFrom_unfold, hb]
      cases b with
      | true => exact ⟨i, _, none, rfl, h2⟩
      | false =>
        by_cases hc : atEOF = true ∧ start < data.length
        · exact ⟨data.length, some (token ++ seg), none, by simp [hc], Nat.le_refl _⟩
        · exact ⟨start, none, none, by simp [hc], by omega⟩

/-- On every buffer `split` returns, and its advance is inside the buffer. -/
theorem split_returns (data : List Nat) (atEOF : Bool) :
    ∃ n tok err, split data atEOF = Outcome.returned (n, tok, err) ∧ n ≤ data.length := by
  obtain ⟨start, hs, -, hle⟩ := skipFrom_returns data data.length 0 (by omega) (Nat.zero_le _)
  have hmain := splitFrom_returns data atEOF (data.length - start) start start [] false
    (Nat.le_refl _) (Nat.le_refl _) hle
  unfold split
  rw [hs]
  simp only
  by_cases hlt : start < data.length
  · obtain ⟨c, hc⟩ := getElem?_lt hlt
    simp only [hlt, if_true, hc]
    by_cases hl : c = LF
    · simp only [hl, if_true]
      exact ⟨start + 1, _, none, rfl, hlt⟩
    · simp only [hl, if_false]
      exact hmain
  · simp only [hlt, if_false]
    exact hmain

/-! ### Single passes of the loops -/

theorem escapeAt_true_iff (data : List Nat) (i : Nat) :
    escapeAt data i = some true ↔ data[i]? = some BSLASH ∧ data[i + 1]? = some QUOTE := by
  constructor
  · intro h
    unfold escapeAt at h
    split at h
    · rename_i hlt
      obtain ⟨c, hc⟩ := getElem?_lt (show i < data.length by omega)
      obtain ⟨c', hc'⟩ := getElem?_lt (show i + 1 < data.length by omega)
      rw [hc] at h
      simp only at h
      split at h
      · rename_i hb
        rw [hc'] at h
        simp only [Option.some.injEq, decide_eq_true_eq] at h
        rw [hc, hc', hb, h]
        exact ⟨rfl, rfl⟩
      · cases h
    · cases h
  · rintro ⟨h1, h2⟩
    have hlt := (List.getElem?_eq_some_iff.mp h2).1
    unfold escapeAt
    rw [if_pos (by omega), h1]
    simp only [if_true]
    rw [h2]
    rfl

theorem quotesBody_plain (data : List Nat) (i start : Nat) (token : List Nat) (b : Bool)
    (c : Nat) (hc : data[i]? = some c) (hq : c ≠ QUOTE) (he : escapeAt data i = some false) :
    quotesBody data (i, start, token, b) = Step.next (i + 1, start, token, false) := by
  have hlt := (List.getElem?_eq_some_iff.mp hc).1
  simp only [quotesBody, hlt, if_true, hc, ne_eq, hq, not_false_eq_true, he]

theorem quotesBody_escape (data : List Nat) (i start : Nat) (token : List Nat) (b : Bool)
    (seg : List Nat) (he : escapeAt data i = some true) (hs : slice data start i = some seg) :
    quotesBody data (i, start, token, b) =
      Step.next (i + 2, i + 2, token ++ (seg ++ [QUOTE]), true) := by
  have hc := ((escapeAt_true_iff data i).mp he).1
  have hlt := (List.getElem?_eq_some_iff.mp hc).1
  have hq : ¬ (BSLASH = QUOTE) := by decide
  simp only [quotesBody, hlt, if_true, hc, ne_eq, hq, not_false_eq_true, he, hs]

theorem quotesBody_close (data : List Nat) (i start : Nat) (token : List Nat) (b : Bool)
    (seg : List Nat) (hc : data[i]? = some QUOTE) (hs : slice data start i = some seg) :
    quotesBody data (i, start, token, b) =
      Step.done (Outcome.returned (i + 1, some (if b then token else token ++ seg), none)) := by
  have hlt := (List.getElem?_eq_some_iff.mp hc).1
  simp only [quotesBody, hlt, if_true, hc, ne_eq, not_true_eq_false, if_false, hs]
  cases b <;> simp

theorem quotesBody_end (data : List Nat) (i start : Nat) (token : List Nat) (b : Bool)
    (h : ¬ i < data.length) :
    quotesBody data (i, start, token, b) =
      Step.done (Outcome.returned (0, none, some Error.ErrUnterminatedString)) := by
  simp only [quotesBody, h, if_false]

theorem splitBody_plain (data : List Nat) (atEOF : Bool) (i start : Nat) (token : List Nat)
    (b : Bool) (c : Nat) (hc : data[i]? = some c) (hp : Plain c) :
    splitBody data atEOF (i, start, token, b) = Step.next (i + 1, start, token, false) := by
  have hlt := (List.getElem?_eq_some_iff.mp hc).1
  obtain ⟨p1, p2, p3, p4, p5⟩ := hp
  have he := escapeAt_of_ne data i c hc p5
  have hn : c ≠ SP ∧ c ≠ CR ∧ c ≠ LF := ⟨p1, p2, p3⟩
  simp only [splitBody, hlt, if_true, hc]
  rw [if_pos hn]
  simp only [he, p4, if_false]

theorem splitBody_escape (data : List Nat) (atEOF : Bool) (i start : Nat) (token : List Nat)
    (b : Bool) (he : escapeAt data i = some true) :
    splitBody data atEOF (i, start, token, b) =
      Step.next (i + 2, i + 2, token ++ [QUOTE], b) := by
  have hc := ((escapeAt_true_iff data i).mp he).1
  have hlt := (List.getElem?_eq_some_iff.mp hc).1
  have hn : BSLASH ≠ SP ∧ BSLASH ≠ CR ∧ BSLASH ≠ LF := by decide
  simp only [splitBody, hlt, if_true, hc]
  rw [if_pos hn]
  simp only [he]

theorem splitBody_quote (data : List Nat) (atEOF : Bool) (i start : Nat) (token : List Nat)
    (b : Bool) (seg : List Nat) (r : SplitResult) (hc : data[i]? = some QUOTE)
    (hs : slice data start i = some seg) (hr : split_quotes data i = Outcome.returned r) :
    splitBody data atEOF (i, start, token, b) =
      if r.2.2 ≠ none then Step.done (Outcome.returned r)
      else Step.next (r.1, r.1, (token ++ seg) ++ r.2.1.getD [], true) := by
  have hlt := (List.getElem?_eq_some_iff.mp hc).1
  have he := escapeAt_of_ne data i QUOTE hc (by decide)
  have hn : QUOTE ≠ SP ∧ QUOTE ≠ CR ∧ QUOTE ≠ LF := by decide
  obtain ⟨n, quotok, err⟩ := r
  simp only [splitBody, hlt, if_true, hc]
  rw [if_pos hn]
  simp only [he, if_true, hs, hr]
  cases err with
  | some e => simp
  | none => cases quotok <;> simp

theorem splitBody_delim (data : List Nat) (atEOF : Bool) (i start : Nat) (token : List Nat)
    (b : Bool) (c : Nat) (seg : List Nat) (hc : data[i]? = some c) (hd : Delim c)
    (hs : slice data start i = some seg) :
    splitBody data atEOF (i, start, token, b) =
      Step.done (Outcome.returned (i, some (if b then token else token ++ seg), none)) := by
  have hlt := (List.getElem?_eq_some_iff.mp hc).1
  have hn : ¬ (c ≠ SP ∧ c ≠ CR ∧ c ≠ LF) := by
    rintro ⟨a1, a2, a3⟩
    rcases hd with h | h | h
    · exact a1 h
    · exact a2 h
    · exact a3 h
  simp only [splitBody, hlt, if_true, hc]
  rw [if_neg hn]
  cases b <;> simp [hs]

theorem splitBody_end (data : List Nat) (atEOF : Bool) (i start : Nat) (token : List Nat)
    (b : Bool) (seg : List Nat) (h : ¬ i < data.length)
    (hs : slice data start data.length = some seg) :
    splitBody data atEOF (i, start, token, b) =
      Step.done (Outcome.returned
        (if b then (i, some token, none)
         else if atEOF = true ∧ start < data.length then
           (data.length, some (token ++ seg), none)
         else (start, none, none))) := by
  simp only [splitBody, h, if_false, hs]
  cases b <;> simp
  split <;> simp

/-! ### Runs of bytes -/

theorem RunAt.head {P : Nat → Prop} {data : List Nat} {i k : Nat}
    (h : RunAt P data i (k + 1)) : ∃ c, data[i]? = some c ∧ P c := by
  simpa using h 0 (Nat.succ_pos k)

theorem RunAt.tail {P : Nat → Prop} {data : List Nat} {i k : Nat}
    (h : RunAt P data i (k + 1)) : RunAt P data (i + 1) k := by
  intro j hj
  have := h (j + 1) (by omega)
  rwa [show i + (j + 1) = i + 1 + j by omega] at this

theorem getElem?_append_mid (pre w rest : List Nat) (j : Nat) (hj : j < w.length) :
    (pre ++ (w ++ rest))[pre.length + j]? = w[j]? := by
  rw [List.getElem?_append_right (by omega)]
  rw [show pre.length + j - pre.length = j by omega]
  exact List.getElem?_append_left hj

theorem RunAt.of_append {P : Nat → Prop} (pre w rest : List Nat) (h : ∀ x ∈ w, P x) :
    RunAt P (pre ++ (w ++ rest)) pre.length w.length := by
  intro j hj
  refine ⟨w[j], ?_, h _ (List.getElem_mem hj)⟩
  rw [getElem?_append_mid pre w rest j hj]
  exact List.getElem?_eq_getElem hj

theorem slice_append (pre w rest : List Nat) :
    slice (pre ++ (w ++ rest)) pre.length (pre.length + w.length) = some w := by
  rw [slice_some (by omega) (by simp only [List.length_append]; omega)]
  simp

theorem skipFrom_run (data : List Nat) :
    ∀ (k i : Nat), RunAt Blank data i k → (∀ c, data[i + k]? = some c → ¬ Blank c) →
      skipFrom data i = Outcome.returned (i + k) := by
  intro k
  induction k with
  | zero =>
    intro i _ hstop
    rw [skipFrom_unfold]
    by_cases hlt : i < data.length
    · obtain ⟨c, hc⟩ := getElem?_lt hlt
      have hb : ¬ (c = SP ∨ c = CR) := hstop c (by simpa using hc)
      simp only [skipBody, hlt, if_true, hc, hb, if_false]
      rfl
    · simp only [skipBody, hlt, if_false]
      rfl
  | succ k ih =>
    intro i hrun hstop
    obtain ⟨c, hc, hb⟩ := hrun.head
    have hlt := (List.getElem?_eq_some_iff.mp hc).1
    have hb' : c = SP ∨ c = CR := hb
    rw [skipFrom_unfold]
    simp only [skipBody, hlt, if_true, hc, hb']
    rw [ih (i + 1) hrun.tail (by rwa [show i + 1 + k = i + (k + 1) by omega])]
    rw [show i + 1 + k = i + (k + 1) by omega]

theorem splitFrom_run (data : List Nat) (atEOF : Bool) (start : Nat) (token : List Nat) :
    ∀ (k i : Nat) (b : Bool), RunAt Plain data i k →
      splitFrom data atEOF (i, start, token, b) =
        splitFrom data atEOF (i + k, start, token, if k = 0 then b else false) := by
  intro k
  induction k with
  | zero => intro i b _; simp
  | succ k ih =>
    intro i b hrun
    obtain ⟨c, hc, hp⟩ := hrun.head
    rw [splitFrom_unfold, splitBody_plain data atEOF i start token b c hc hp]
    simp only
    rw [ih (i + 1) false hrun.tail, show i + 1 + k = i + (k + 1) by omega]
    simp

theorem quotesFrom_run (data : List Nat) (start : Nat) (token : List Nat) :
    ∀ (k i : Nat) (b : Bool), RunAt Inner data i k →
      quotesFrom data (i, start, token, b) =
        quotesFrom data (i + k, start, token, if k = 0 then b else false) := by
  intro k
  induction k with
  | zero => intro i b _; simp
  | succ k ih =>
    intro i b hrun
    obtain ⟨c, hc, hq, hb⟩ := hrun.head
    rw [quotesFrom_unfold,
      quotesBody_plain data i start token b c hc hq (escapeAt_of_ne data i c hc hb)]
    simp only
    rw [ih (i + 1) false hrun.tail, show i + 1 + k = i + (k + 1) by omega]
    simp

/-! ### The start of a token -/

theorem skipFrom_blanks (ws rest : List Nat) (h : ∀ x ∈ ws, Blank x)
    (hr : ∀ c, rest.head? = some c → ¬ Blank c) :
    skipFrom (ws ++ rest) 0 = Outcome.returned ws.length := by
  have hrun : RunAt Blank (ws ++ rest) 0 ws.length := by
    have := RunAt.of_append (P := Blank) [] ws rest h
    simpa using this
  have hstop : ∀ c, (ws ++ rest)[0 + ws.length]? = some c → ¬ Blank c := by
    intro c hc
    apply hr c
    rw [Nat.zero_add, List.getElem?_append_right (Nat.le_refl _), Nat.sub_self] at hc
    cases rest with
    | nil => simp at hc
    | cons x r => simpa using hc
  have := skipFrom_run (ws ++ rest) ws.length 0 hrun hstop
  rwa [Nat.zero_add] at this

/-- After the leading blanks, a newline is returned as a token of its own. -/
theorem split_newline (ws rest : List Nat) (atEOF : Bool) (h : ∀ x ∈ ws, Blank x) :
    split (ws ++ LF :: rest) atEOF = Outcome.returned (ws.length + 1, some [LF], none) := by
  have hs := skipFrom_blanks ws (LF :: rest) h (by
    intro c hc
    simp only [List.head?_cons, Option.some.injEq] at hc
    subst hc
    decide)
  have hlt : ws.length < (ws ++ LF :: rest).length := by
    simp only [List.length_append, List.length_cons]; omega
  unfold split
  rw [hs]
  simp only [hlt, if_true, getElem?_mid]

/-- After the leading blanks, a byte that is no newline starts the main loop. -/
theorem split_word (ws rest : List Nat) (c : Nat) (atEOF : Bool) (h : ∀ x ∈ ws, Blank x)
    (hb : ¬ Blank c) (hl : c ≠ LF) :
    split (ws ++ c :: rest) atEOF =
      splitFrom (ws ++ c :: rest) atEOF (ws.length, ws.length, [], false) := by
  have hs := skipFrom_blanks ws (c :: rest) h (by
    intro c' hc
    simp only [List.head?_cons, Option.some.injEq] at hc
    subst hc
    exact hb)
  have hlt : ws.length < (ws ++ c :: rest).length := by
    simp only [List.length_append, List.length_cons]; omega
  unfold split
  rw [hs]
  simp only [hlt, if_true, getElem?_mid, hl, if_false]

/-- A buffer of blanks only: the main loop starts at its end. -/
theorem split_blanks (ws : List Nat) (atEOF : Bool) (h : ∀ x ∈ ws, Blank x) :
    split ws atEOF = Outcome.returned (ws.length, none, none) := by
  have hs := skipFrom_blanks ws [] h (by intro c hc; simp at hc)
  rw [List.append_nil] at hs
  have hlt : ¬ ws.length < ws.length := Nat.lt_irrefl _
  unfold split
  rw [hs]
  simp only [hlt, if_false]
  rw [splitFrom_unfold,
    splitBody_end ws atEOF ws.length ws.length [] false _ hlt (slice_some (Nat.le_refl _) (Nat.le_refl _))]
  simp

theorem Plain.not_blank {c : Nat} (h : Plain c) : ¬ Blank c := by
  rintro (hb | hb)
  · exact h.1 hb
  · exact h.2.1 hb

/-- An unquoted word followed by a delimiter is returned whole, and the
delimiter is left in the buffer. -/
theorem split_plain_word (ws w rest : List Nat) (d : Nat) (atEOF : Bool)
    (hws : ∀ x ∈ ws, Blank x) (hw : ∀ x ∈ w, Plain x) (hne : w ≠ []) (hd : Delim d) :
    split (ws ++ (w ++ d :: rest)) atEOF =
      Outcome.returned (ws.length + w.length, some w, none) := by
  obtain ⟨c, w', rfl⟩ := List.exists_cons_of_ne_nil hne
  have hc : Plain c := hw c (List.mem_cons_self _ _)
  have h0 := split_word ws (w' ++ d :: rest) c atEOF hws hc.not_blank hc.2.2.1
  rw [List.cons_append, h0, ← List.cons_append]
  rw [splitFrom_run _ atEOF ws.length [] (c :: w').length ws.length false
    (RunAt.of_append ws (c :: w') (d :: rest) hw)]
  have hd' : (ws ++ (c :: w' ++ d :: rest))[ws.length + (c :: w').length]? = some d := by
    rw [← List.append_assoc, ← List.length_append]
    exact getElem?_mid _ _ _
  rw [splitFrom_unfold, splitBody_delim _ atEOF _ ws.length [] _ d (c :: w') hd' hd
    (slice_append ws (c :: w') (d :: rest))]
  simp

/-! ### Quoted runs -/

theorem split_word_head (ws rest : List Nat) (atEOF : Bool) (h : ∀ x ∈ ws, Blank x)
    (hr : ∃ c r, rest = c :: r ∧ ¬ Blank c ∧ c ≠ LF) :
    split (ws ++ rest) atEOF =
      splitFrom (ws ++ rest) atEOF (ws.length, ws.length, [], false) := by
  obtain ⟨c, r, rfl, hb, hl⟩ := hr
  exact split_word ws r c atEOF h hb hl

theorem head_plain_quote (a rest : List Nat) (ha : ∀ x ∈ a, Plain x) :
    ∃ c r, a ++ QUOTE :: rest = c :: r ∧ ¬ Blank c ∧ c ≠ LF := by
  cases a with
  | nil => exact ⟨QUOTE, rest, rfl, by decide, by decide⟩
  | cons x a' =>
    have hx : Plain x := ha x (List.mem_cons_self _ _)
    exact ⟨x, a' ++ QUOTE :: rest, rfl, hx.not_blank, hx.2.2.1⟩

/-- Up to the opening quote: the literal segment before it is kept, and the
result of `split_quotes` decides how `split` goes on. -/
theorem split_open_quote (ws a rest : List Nat) (atEOF : Bool) (hws : ∀ x ∈ ws, Blank x)
    (ha : ∀ x ∈ a, Plain x) (r : SplitResult)
    (hr : split_quotes (ws ++ (a ++ QUOTE :: rest)) (ws.length + a.length) =
      Outcome.returned r) :
    split (ws ++ (a ++ QUOTE :: rest)) atEOF =
      if r.2.2 ≠ none then Outcome.returned r
      else splitFrom (ws ++ (a ++ QUOTE :: rest)) atEOF
        (r.1, r.1, a ++ r.2.1.getD [], true) := by
  rw [split_word_head ws _ atEOF hws (head_plain_quote a rest ha)]
  rw [splitFrom_run _ atEOF ws.length [] a.length ws.length false
    (RunAt.of_append ws a (QUOTE :: rest) ha)]
  have hq : (ws ++ (a ++ QUOTE :: rest))[ws.length + a.length]? = some QUOTE := by
    rw [← List.append_assoc, ← List.length_append]
    exact getElem?_mid _ _ _
  rw [splitFrom_unfold, splitBody_quote _ atEOF _ ws.length [] _ a r hq
    (slice_append ws a (QUOTE :: rest)) hr]
  by_cases he : r.2.2 = none
  · simp only [he, ne_eq, not_true_eq_false, if_false, List.nil_append]
  · simp only [he, ne_eq, not_false_eq_true, if_true]

/-- When every quote after index `k` follows a backslash, the loop of
`split_quotes`, once past `k` and not on a quote, reaches the end of the buffer. -/
theorem quotesFrom_unclosed (data : List Nat) (k : Nat)
    (hq : ∀ j, k < j → data[j]? = some QUOTE → data[j - 1]? = some BSLASH) :
    ∀ (n i start : Nat) (token : List Nat) (b : Bool), data.length - i ≤ n →
      start ≤ i → i ≤ data.length → k < i → data[i]? ≠ some QUOTE →
      quotesFrom data (i, start, token, b) =
        Outcome.returned (0, none, some Error.ErrUnterminatedString) := by
  intro n
  induction n using Nat.strong_induction_on with
  | _ n ih =>
    intro i start token b hn h1 h2 hk hi
    rcases quotesBody_cases data i start token b h1 h2 with
      ⟨seg, hl, -, he, hb⟩ | ⟨c, hc, -, he, hb⟩ | ⟨seg, hc, -, -⟩ | ⟨-, hb⟩
    · rw [quotesFrom_unfold, hb]
      refine ih (data.length - (i + 2)) (by omega) (i + 2) (i + 2) _ _ (Nat.le_refl _)
        (Nat.le_refl _) hl (by omega) ?_
      intro h
      have h3 := hq (i + 2) (by omega) h
      rw [show i + 2 - 1 = i + 1 by omega, ((escapeAt_true_iff data i).mp he).2] at h3
      exact absurd h3 (by decide)
    · have hlt := (List.getElem?_eq_some_iff.mp hc).1
      rw [quotesFrom_unfold, hb]
      refine ih (data.length - (i + 1)) (by omega) (i + 1) start _ _ (Nat.le_refl _)
        (by omega) (by omega) (by omega) ?_
      intro h
      have h3 := hq (i + 1) (by omega) h
      rw [show i + 1 - 1 = i by omega] at h3
      rw [(escapeAt_true_iff data i).mpr ⟨h3, h⟩] at he
      cases he
    · exact absurd hc hi
    · rw [quotesFrom_unfold, hb]

/-- A quoted run in which every quote follows a backslash is not closed:
`split` fails with `ErrUnterminatedString`, whatever `atEOF` is. -/
theorem split_unclosed (ws a q : List Nat) (atEOF : Bool) (hws : ∀ x ∈ ws, Blank x)
    (ha : ∀ x ∈ a, Plain x)
    (hq : ∀ j, q[j]? = some QUOTE → 0 < j ∧ q[j - 1]? = some BSLASH) :
    split (ws ++ (a ++ QUOTE :: q)) atEOF =
      Outcome.returned (0, none, some Error.ErrUnterminatedString) := by
  have hlen : (ws ++ (a ++ QUOTE :: q)).length = ws.length + a.length + 1 + q.length := by
    simp only [List.length_append, List.length_cons]; omega
  have hget : ∀ j, ws.length + a.length + 1 ≤ j →
      (ws ++ (a ++ QUOTE :: q))[j]? = q[j - (ws.length + a.length + 1)]? := by
    intro j hj
    rw [List.getElem?_append_right (by omega), List.getElem?_append_right (by omega)]
    rw [show j - ws.length - a.length = (j - (ws.length + a.length + 1)) + 1 by omega]
    exact List.getElem?_cons_succ
  have hr : split_quotes (ws ++ (a ++ QUOTE :: q)) (ws.length + a.length) =
      Outcome.returned (0, none, some Error.ErrUnterminatedString) := by
    unfold split_quotes
    refine quotesFrom_unclosed _ (ws.length + a.length) ?_ _ _ _ _ _ (Nat.le_refl _)
      (Nat.le_refl _) (by omega) (by omega) ?_
    · intro j hj h
      rw [hget j (by omega)] at h
      obtain ⟨h1, h2⟩ := hq _ h
      rw [hget (j - 1) (by omega), show j - 1 - (ws.length + a.length + 1) =
        j - (ws.length + a.length + 1) - 1 by omega]
      exact h2
    · intro h
      rw [hget _ (Nat.le_refl _), Nat.sub_self] at h
      exact absurd (hq 0 h).1 (Nat.lt_irrefl 0)
  rw [split_open_quote ws a q atEOF hws ha _ hr]
  simp

theorem joinWith_cons_cons (sep p q : List Nat) (ps : List (List Nat)) :
    joinWith sep (p :: q :: ps) = p ++ sep ++ joinWith sep (q :: ps) := rfl

/-- The loop of `split_quotes` on quoted content made of pieces joined by the
escape sequence, up to the closing quote: the pieces come out joined by quotes. -/
theorem quotesFrom_pieces (rest : List Nat) :
    ∀ (ps : List (List Nat)) (pre token : List Nat) (b : Bool),
      (∀ p ∈ ps, ∀ x ∈ p, Inner x) →
      quotesFrom (pre ++ (joinWith ESC ps ++ QUOTE :: rest)) (pre.length, pre.length, token, b) =
        Outcome.returned (pre.length + (joinWith ESC ps).length + 1,
          some (token ++ joinWith [QUOTE] ps), none) := by
  intro ps
  induction ps with
  | nil =>
    intro pre token b _
    have hc : (pre ++ (joinWith ESC [] ++ QUOTE :: rest))[pre.length]? = some QUOTE :=
      getElem?_mid _ _ _
    rw [quotesFrom_unfold, quotesBody_close _ _ _ token b [] hc
      (by rw [slice_some (Nat.le_refl _) (by simp)]; simp)]
    cases b <;> simp [joinWith]
  | cons p ps ih =>
    intro pre token b hin
    have hp : ∀ x ∈ p, Inner x := hin p (List.mem_cons_self _ _)
    cases ps with
    | nil =>
      show quotesFrom (pre ++ (p ++ QUOTE :: rest)) _ = Outcome.returned (_ + p.length + 1, _, _)
      rw [quotesFrom_run _ pre.length token p.length pre.length b
        (RunAt.of_append pre p (QUOTE :: rest) hp)]
      have hc : (pre ++ (p ++ QUOTE :: rest))[pre.length + p.length]? = some QUOTE := by
        rw [← List.append_assoc, ← List.length_append]
        exact getElem?_mid _ _ _
      rw [quotesFrom_unfold, quotesBody_close _ _ _ token _ p hc
        (slice_append pre p (QUOTE :: rest))]
      cases p with
      | nil => cases b <;> simp [joinWith]
      | cons x p' => simp [joinWith]
    | cons q ps =>
      obtain ⟨data, hdata⟩ : ∃ d, d = pre ++ (joinWith ESC (p :: q :: ps) ++ QUOTE :: rest) :=
        ⟨_, rfl⟩
      have e1 : data = pre ++ (p ++ (ESC ++ (joinWith ESC (q :: ps) ++ QUOTE :: rest))) := by
        rw [hdata, joinWith_cons_cons]; simp only [List.append_assoc]
      have e2 : data = (pre ++ p) ++
          BSLASH :: QUOTE :: (joinWith ESC (q :: ps) ++ QUOTE :: rest) := by
        rw [e1]; simp
      have e3 : data = (pre ++ p ++ ESC) ++ (joinWith ESC (q :: ps) ++ QUOTE :: rest) := by
        rw [e1]; simp
      have hrun : RunAt Inner data pre.length p.length := by
        rw [e1]; exact RunAt.of_append pre p _ hp
      have hesc : escapeAt data (pre.length + p.length) = some true := by
        rw [e2, ← List.length_append]; exact escapeAt_true _ _
      have hsl : slice data pre.length (pre.length + p.length) = some p := by
        rw [e1]; exact slice_append pre p _
      have hih := ih (pre ++ p ++ ESC) (token ++ (p ++ [QUOTE])) true
        (fun p' hp' => hin p' (List.mem_cons_of_mem _ hp'))
      rw [← e3] at hih
      have hl : (pre ++ p ++ ESC).length = pre.length + p.length + 2 := by
        simp only [List.length_append, List.length_cons, List.length_nil]
      rw [hl] at hih
      rw [← hdata, quotesFrom_run data pre.length token p.length pre.length b hrun,
        quotesFrom_unfold, quotesBody_escape data _ _ token _ p hesc hsl]
      simp only
      rw [hih, joinWith_cons_cons]
      simp only [List.length_append, List.length_cons, List.length_nil, joinWith,
        List.append_assoc, List.singleton_append]
      have : pre.length + p.length + 2 + (joinWith ESC (q :: ps)).length + 1 =
          pre.length + (p.length + (0 + 1 + 1 + (joinWith ESC (q :: ps)).length)) + 1 := by
        omega
      rw [this]

theorem unescape_cons_of_ne (x : Nat) (r : List Nat) (h : x ≠ BSLASH) :
    unescape (x :: r) = x :: unescape r := by
  cases r with
  | nil => simp [unescape]
  | cons y t => simp [unescape, h]

theorem unescape_append (p r : List Nat) (h : ∀ x ∈ p, x ≠ BSLASH) :
    unescape (p ++ r) = p ++ unescape r := by
  induction p with
  | nil => rfl
  | cons x p ih =>
    rw [List.cons_append, unescape_cons_of_ne _ _ (h x (List.mem_cons_self _ _)),
      ih (fun y hy => h y (List.mem_cons_of_mem _ hy)), List.cons_append]

/-- Unescaping pieces joined by the escape sequence joins them by quotes. -/
theorem unescape_joinWith (ps : List (List Nat)) (h : ∀ p ∈ ps, ∀ x ∈ p, Inner x) :
    unescape (joinWith ESC ps) = joinWith [QUOTE] ps := by
  induction ps with
  | nil => rfl
  | cons p ps ih =>
    have hp : ∀ x ∈ p, x ≠ BSLASH := fun x hx => (h p (List.mem_cons_self _ _) x hx).2
    cases ps with
    | nil =>
      show unescape p = p
      have := unescape_append p [] hp
      simpa [unescape] using this
    | cons q ps =>
      rw [joinWith_cons_cons, joinWith_cons_cons, List.append_assoc, unescape_append _ _ hp]
      have : unescape (ESC ++ joinWith ESC (q :: ps)) =
          QUOTE :: unescape (joinWith ESC (q :: ps)) := by
        simp [unescape]
      rw [this, ih (fun p' hp' => h p' (List.mem_cons_of_mem _ hp'))]
      simp

/-- A token made of a literal segment, a quoted run and a literal segment. -/
theorem split_quoted (ws a c rest : List Nat) (ps : List (List Nat)) (d : Nat) (atEOF : Bool)
    (hws : ∀ x ∈ ws, Blank x) (ha : ∀ x ∈ a, Plain x) (hc : ∀ x ∈ c, Plain x)
    (hps : ∀ p ∈ ps, ∀ x ∈ p, Inner x) (hd : Delim d) :
    split (ws ++ (a ++ QUOTE :: (joinWith ESC ps ++ QUOTE :: (c ++ d :: rest)))) atEOF =
      Outcome.returned
        (ws.length + a.length + 1 + (joinWith ESC ps).length + 1 + c.length,
          some (a ++ joinWith [QUOTE] ps ++ c), none) := by
  obtain ⟨data, hdata⟩ :
      ∃ x, x = ws ++ (a ++ QUOTE :: (joinWith ESC ps ++ QUOTE :: (c ++ d :: rest))) := ⟨_, rfl⟩
  have e1 : data = (ws ++ a ++ [QUOTE]) ++ (joinWith ESC ps ++ QUOTE :: (c ++ d :: rest)) := by
    rw [hdata]; simp
  have e2 : data = (ws ++ a ++ [QUOTE] ++ joinWith ESC ps ++ [QUOTE]) ++ (c ++ d :: rest) := by
    rw [hdata]; simp
  have e3 : data = (ws ++ a ++ [QUOTE] ++ joinWith ESC ps ++ [QUOTE] ++ c) ++ d :: rest := by
    rw [hdata]; simp
  have l1 : (ws ++ a ++ [QUOTE]).length = ws.length + a.length + 1 := by
    simp only [List.length_append, List.length_cons, List.length_nil]
  have l2 : (ws ++ a ++ [QUOTE] ++ joinWith ESC ps ++ [QUOTE]).length =
      ws.length + a.length + 1 + (joinWith ESC ps).length + 1 := by
    simp only [List.length_append, List.length_cons, List.length_nil]
  have l3 : (ws ++ a ++ [QUOTE] ++ joinWith ESC ps ++ [QUOTE] ++ c).length =
      ws.length + a.length + 1 + (joinWith ESC ps).length + 1 + c.length := by
    simp only [List.length_append, List.length_cons, List.length_nil]
  have hr : split_quotes data (ws.length + a.length) =
      Outcome.returned (ws.length + a.length + 1 + (joinWith ESC ps).length + 1,
        some (joinWith [QUOTE] ps), none) := by
    have := quotesFrom_pieces (c ++ d :: rest) ps (ws ++ a ++ [QUOTE]) [] false hps
    rw [← e1, l1, List.nil_append] at this
    exact this
  have hrun : RunAt Plain data
      (ws.length + a.length + 1 + (joinWith ESC ps).length + 1) c.length := by
    rw [e2, ← l2]; exact RunAt.of_append _ c _ hc
  have hsl : slice data (ws.length + a.length + 1 + (joinWith ESC ps).length + 1)
      (ws.length + a.length + 1 + (joinWith ESC ps).length + 1 + c.length) = some c := by
    rw [e2, ← l2]; exact slice_append _ c _
  have hdl : data[ws.length + a.length + 1 + (joinWith ESC ps).length + 1 + c.length]? =
      some d := by
    rw [e3, ← l3]; exact getElem?_mid _ _ _
  have h0 := split_open_quote ws a (joinWith ESC ps ++ QUOTE :: (c ++ d :: rest)) atEOF hws ha _
    (by rw [← hdata]; exact hr)
  rw [← hdata] at h0 ⊢
  rw [h0]
  simp only [ne_eq, not_true_eq_false, if_false, Option.getD_some]
  rw [splitFrom_run data atEOF _ _ c.length _ true hrun, splitFrom_unfold,
    splitBody_delim data atEOF _ _ _ _ d c hdl hd hsl]
  cases c with
  | nil => simp
  | cons x c' => simp


/-! ## Tokens of the scanner -/

/-- C19: on every buffer and for either value of `atEOF`, `split` returns (its
loops end and no index it reads is outside the buffer), and the advance it
returns is at most `len(data)`. -/
theorem split_terminates_in_range (data : List Nat) (atEOF : Bool) :
    ∃ n tok err, split data atEOF = Outcome.returned (n, tok, err) ∧ 0 ≤ n ∧
      n ≤ data.length := by
  obtain ⟨n, tok, err, h, hn⟩ := split_returns data atEOF
  exact ⟨n, tok, err, h, Nat.zero_le _, hn⟩

/-- C16: after any blanks a newline is returned as the one-byte token `\n`, with
advance one past it, and `nextWord` reports that token as the end of the line;
a non-empty literal word followed by a newline is returned whole with an
advance that stops before the newline, so that the next call, on the bytes
left, returns the newline token. -/
theorem split_newline_token (atEOF : Bool) (ws w rest : List Nat) (toks : List String)
    (err : Option ScanError) (hws : ∀ x ∈ ws, Blank x) (hw : ∀ x ∈ w, Plain x)
    (hne : w ≠ []) :
    split (ws ++ LF :: rest) atEOF = Outcome.returned (ws.length + 1, some [LF], none) ∧
    nextWord ⟨Text [LF] :: toks, err⟩ = ("", some Error.errEOL, ⟨toks, err⟩) ∧
    split (ws ++ (w ++ LF :: rest)) atEOF =
      Outcome.returned (ws.length + w.length, some w, none) ∧
    (ws ++ (w ++ LF :: rest)).drop (ws.length + w.length) = LF :: rest ∧
    split (LF :: rest) atEOF = Outcome.returned (1, some [LF], none) := by
  refine ⟨split_newline ws rest atEOF hws, ?_,
    split_plain_word ws w rest LF atEOF hws hw hne (Or.inr (Or.inr rfl)), ?_, ?_⟩
  · have h : Text [LF] = "\n" := by decide
    rw [h]
    exact nextWord_eol toks err
  · rw [← List.append_assoc, ← List.length_append, List.drop_left]
  · exact split_newline [] rest atEOF (by simp)

/-- Instance of C16: the buffer ` \r\n` gives the newline token with advance 3,
and the buffer `ok\nadd` gives `ok` with advance 2, then the newline token. -/
theorem split_newline_token_witness :
    split [32, 13, 10] false = Outcome.returned (3, some [10], none) ∧
    nextWord ⟨Text [10] :: ["add"], none⟩ = ("", some Error.errEOL, ⟨["add"], none⟩) ∧
    split [111, 107, 10, 97, 100, 100] false = Outcome.returned (2, some [111, 107], none) ∧
    ([] ++ ([111, 107] ++ 10 :: [97, 100, 100])).drop 2 = [10, 97, 100, 100] ∧
    split [10, 97, 100, 100] false = Outcome.returned (1, some [10], none) := by
  have h1 := (split_newline_token false [32, 13] [111, 107] [] ["add"] none (by decide)
    (by decide) (by decide)).1
  have h2 := (split_newline_token false [] [111, 107] [97, 100, 100] ["add"] none (by decide)
    (by decide) (by decide)).2
  exact ⟨h1, h2⟩


/-- C13: on `ws ++ a ++ "\"" ++ q ++ "\"" ++ c ++ d ++ rest`, where `ws` is a run
of blanks, `a` and `c` are literal segments, `q` is made of pieces free of
quotes and backslashes joined by the escape sequence and `d` is a delimiter,
`split` returns the token `a ++ unescape(q) ++ c` and no error, with an advance
that is the number of bytes before `d`. -/
theorem split_quoted_token (atEOF : Bool) (ws a c rest : List Nat) (ps : List (List Nat))
    (d : Nat) (hws : ∀ x ∈ ws, Blank x) (ha : ∀ x ∈ a, Plain x) (hc : ∀ x ∈ c, Plain x)
    (hps : ∀ p ∈ ps, ∀ x ∈ p, Inner x) (hd : Delim d) :
    split (ws ++ (a ++ QUOTE :: (joinWith ESC ps ++ QUOTE :: (c ++ d :: rest)))) atEOF =
      Outcome.returned
        ((ws ++ (a ++ QUOTE :: (joinWith ESC ps ++ QUOTE :: c))).length,
          some (a ++ unescape (joinWith ESC ps) ++ c), none) := by
  rw [split_quoted ws a c rest ps d atEOF hws ha hc hps hd, unescape_joinWith ps hps]
  have : (ws ++ (a ++ QUOTE :: (joinWith ESC ps ++ QUOTE :: c))).length =
      ws.length + a.length + 1 + (joinWith ESC ps).length + 1 + c.length := by
    simp only [List.length_append, List.length_cons]
    omega
  rw [this]

/-- Instance of C13: the buffer `foo"bar baz"qux ` gives the token
`foobar bazqux` with advance 15, and ` a"b\"c"d\n` gives `ab"cd` with advance 9. -/
theorem split_quoted_token_witness :
    split [102, 111, 111, 34, 98, 97, 114, 32, 98, 97, 122, 34, 113, 117, 120, 32] false =
      Outcome.returned
        (15, some [102, 111, 111, 98, 97, 114, 32, 98, 97, 122, 113, 117, 120], none) ∧
    Text [102, 111, 111, 98, 97, 114, 32, 98, 97, 122, 113, 117, 120] = "foobar bazqux" ∧
    split [32, 97, 34, 98, 92, 34, 99, 34, 100, 10] true =
      Outcome.returned (9, some [97, 98, 34, 99, 100], none) :=
  ⟨split_quoted_token false [] [102, 111, 111] [113, 117, 120] []
      [[98, 97, 114, 32, 98, 97, 122]] 32 (by decide) (by decide) (by decide) (by decide)
      (by decide),
    by decide,
    split_quoted_token true [32] [97] [100] [] [[98], [99]] 10 (by decide) (by decide)
      (by decide) (by decide) (by decide)⟩

/-- C15: when the buffer is blanks, a literal segment, an opening quote and
content in which no quote closes the run, `split` called with `atEOF = true`
returns `ErrUnterminatedString` and no token. -/
theorem split_unterminated_atEOF (ws a q : List Nat) (hws : ∀ x ∈ ws, Blank x)
    (ha : ∀ x ∈ a, Plain x) (hq : Unclosed q) :
    split (ws ++ (a ++ QUOTE :: q)) true =
      Outcome.returned (0, none, some Error.ErrUnterminatedString) := by
  refine split_unclosed ws a q true hws ha ?_
  intro j h
  exact hq j (List.getElem?_eq_some_iff.mp h).1 h

/-- Instance of C15: the buffer ` ab"c\"d` at the end of the input. -/
theorem split_unterminated_atEOF_witness :
    split [32, 97, 98, 34, 99, 92, 34, 100] true =
      Outcome.returned (0, none, some Error.ErrUnterminatedString) :=
  split_unterminated_atEOF [32] [97, 98] [99, 92, 34, 100] (by decide) (by decide)
    (by unfold Unclosed; decide)

/-- C14 fails in the code: on the buffer `ab"cd` with `atEOF = false`, `split`
does not ask for more bytes but returns `ErrUnterminatedString`. -/
theorem split_unterminated_before_EOF :
    split [97, 98, 34, 99, 100] false =
      Outcome.returned (0, none, some Error.ErrUnterminatedString) ∧
    split [97, 98, 34, 99, 100] false ≠ Outcome.returned (0, none, none) := by
  decide

/-- C17 fails in the code: on the buffer `ab\"cd `, whose unquoted run `ab` is
followed by an escaped quote, `split` returns the token `"cd`, which does not
begin with `ab`. -/
theorem split_escape_drops_run :
    split ([] ++ ([97, 98] ++ [92, 34, 99, 100, 32])) false =
      Outcome.returned (6, some [34, 99, 100], none) ∧
    (∀ x ∈ [97, 98], Plain x) ∧ ¬ ([97, 98] <+: [34, 99, 100]) := by
  decide

/-- C20 fails in the code: on the buffer `ab"cd"ef` with `atEOF = false`, `split`
returns no token and no error with advance 6, although the buffer has no
leading blank: the bytes `ab"cd"` are dropped. -/
theorem split_discards_token_bytes :
    split [97, 98, 34, 99, 100, 34, 101, 102] false = Outcome.returned (6, none, none) ∧
    leadingBlanks [97, 98, 34, 99, 100, 34, 101, 102] = 0 := by
  decide


/-! ## The handshake -/

theorem TextFields_set (e : entry) (k : String) (f : entryValue) (h : e.TextFields)
    (hf : f.parser = ParseString) : entry.TextFields (e.set k f) := by
  intro k' f' hg
  by_cases hk : k' = k
  · subst hk
    rw [GoMap.get_set_same] at hg
    cases hg
    exact hf
  · rw [GoMap.get_set_ne _ _ _ _ hk] at hg
    exact h k' f' hg

theorem TextFields_AddField (e : entry) (k : String) (h : e.TextFields) :
    entry.TextFields (e.AddField k ParseString).1 := by
  unfold entry.AddField
  cases e.get k with
  | some _ => exact h
  | none => exact TextFields_set e k _ h rfl

theorem fillEntry_textFields : fillEntry.TextFields := by
  unfold fillEntry
  dsimp only
  refine TextFields_AddField _ _ ?_
  refine TextFields_AddField _ _ ?_
  refine TextFields_AddField _ _ ?_
  refine TextFields_AddField _ _ ?_
  intro k f h
  cases h

theorem TextFields_decoders {e : entry} (h : e.TextFields) : e.Decoders := by
  intro k f hg
  rw [h k f hg]
  exact ParseString_wordDecoder

theorem readLine_get (e : entry) (p : String × String) (k : String) :
    (e.readLine p).get k =
      if k = p.1 then (e.get k).map (fun f => { f with data := Value.str p.2 })
      else e.get k := by
  obtain ⟨k₀, v₀⟩ := p
  unfold entry.readLine
  by_cases hk : k = k₀
  · subst hk
    cases hg : e.get k with
    | none => simp [hg]
    | some f => simp [GoMap.get_set_same]
  · cases hg : e.get k₀ with
    | none => simp [hk]
    | some f => simp [hk, GoMap.get_set_ne _ _ _ _ hk]

theorem readLine_textFields (e : entry) (p : String × String) (h : e.TextFields) :
    (e.readLine p).TextFields := by
  unfold entry.readLine
  cases hg : e.get p.1 with
  | none => exact h
  | some f => exact TextFields_set e p.1 _ h (h p.1 f hg)

theorem readLine_awaitsId (e : entry) (p : String × String) (h : e.AwaitsId)
    (hp : p.1 ≠ "my-id") : (e.readLine p).AwaitsId := by
  obtain ⟨f, hf, hd⟩ := h
  refine ⟨f, ?_, hd⟩
  rw [readLine_get, if_neg (fun hk => hp hk.symm)]
  exact hf

/-- One greeting line: `Parse` stores the value when the name is a field, and
returns `errEOL` at the end of the line. -/
theorem Parse_line (e : entry) (k v : String) (r : List String) (err : Option ScanError)
    (h : e.TextFields) (hk : Word k) (hv : Word v) :
    e.Parse ⟨k :: v :: "\n" :: r, err⟩ =
      some (e.readLine (k, v), some Error.errEOL, ⟨r, err⟩) := by
  rw [Parse_unfold e _ (TextFields_decoders h)]
  cases hg : e.get k with
  | none =>
    rw [ParseBody_unknown e k v _ err hk hv hg]
    simp only
    rw [Parse_unfold e _ (TextFields_decoders h), ParseBody_eol]
    simp [entry.readLine, hg]
  | some f =>
    have hp : f.parser ⟨v :: "\n" :: r, err⟩ = (Value.str v, none, ⟨"\n" :: r, err⟩) := by
      rw [h k f hg]
      simp [ParseString, nextWord_word v _ err hv]
    rw [ParseBody_known_ok e k v _ err f hk hg _ _ hp]
    simp only
    have h' : entry.TextFields (e.set k { f with data := Value.str v }) :=
      TextFields_set e k _ h (h k f hg)
    rw [Parse_unfold _ _ (TextFields_decoders h'), ParseBody_eol]
    simp [entry.readLine, hg]

/-- A pass of the loop of `Fill` that goes round again has read a token or
filled `my-id`. -/
theorem FillBody_next (bd : BabelDesc) (e : entry) (s : Scanner) (st' : entry × Scanner)
    (hD : e.Decoders) (h : bd.FillBody (e, s) = Step.next st') :
    st'.1.Decoders ∧
      2 * st'.2.toks.length +
          (match st'.1.get "my-id" with
            | some f => if f.data = Value.null then 1 else 0
            | none => 0) <
        2 * s.toks.length +
          (match e.get "my-id" with
            | some f => if f.data = Value.null then 1 else 0
            | none => 0) := by
  obtain ⟨r, hr, hD', hle, -, -, hne, hlt⟩ := Parse_returns e s hD
  obtain ⟨e', err, s'⟩ := r
  simp only at hD' hle hne hlt
  unfold BabelDesc.FillBody at h
  simp only at h
  cases hg : e.get "my-id" with
  | none => rw [hg] at h; cases h
  | some myid =>
    rw [hg] at h
    simp only at h
    by_cases hnull : myid.data = Value.null
    · simp only [hnull, if_true, hr] at h
      by_cases hc : err ≠ none ∧ err ≠ some Error.errEOL
      · rw [if_pos hc] at h
        by_cases hEOF : err ≠ some Error.EOF
        · rw [if_pos hEOF] at h; cases h
        · rw [if_neg hEOF] at h
          cases hg' : e'.get "my-id" with
          | none => rw [hg'] at h; cases h
          | some myid' =>
            rw [hg'] at h
            simp only at h
            by_cases hnull' : myid'.data = Value.null
            · rw [if_pos hnull'] at h; cases h
            · rw [if_neg hnull'] at h
              cases h
              refine ⟨hD', ?_⟩
              simp only [hg', hg, hnull', hnull, if_false, if_true]
              omega
      · rw [if_neg hc] at h
        cases h
        have herr : err = some Error.errEOL := by
          by_contra hx
          exact hc ⟨hne, hx⟩
        have := hlt herr
        refine ⟨hD', ?_⟩
        simp only [hnull, if_true]
        split
        · split <;> omega
        · omega
    · rw [if_neg hnull] at h
      cases h

theorem FillFrom_unfold (bd : BabelDesc) (e : entry) (s : Scanner) (hD : e.Decoders) :
    bd.FillFrom (e, s) =
      match bd.FillBody (e, s) with
      | Step.done r => r
      | Step.next st' => bd.FillFrom st' := by
  unfold BabelDesc.FillFrom
  cases hb : bd.FillBody (e, s) with
  | done r => simp [loop, hb]
  | next st' =>
    obtain ⟨hD', hlt⟩ := FillBody_next bd e s st' hD hb
    have h1 : (match e.get "my-id" with
        | some f => if f.data = Value.null then 1 else 0
        | none => 0) ≤ 1 := by
      split
      · split <;> omega
      · omega
    have h2 : (match st'.1.get "my-id" with
        | some f => if f.data = Value.null then 1 else 0
        | none => 0) ≤ 1 := by
      split
      · split <;> omega
      · omega
    have hf := loop_fuel bd.FillBody
      (fun st => 2 * st.2.toks.length +
        (match st.1.get "my-id" with
          | some f => if f.data = Value.null then 1 else 0
          | none => 0))
      (fun st => st.1.Decoders)
      (fun st st'' hst hb' => FillBody_next bd st.1 st.2 st'' hst hb')
      (2 * s.toks.length + 1) (2 * st'.2.toks.length + 2) st' hD' (by
        show 2 * st'.2.toks.length + _ < 2 * s.toks.length + 1
        omega) (by
        show 2 * st'.2.toks.length + _ < 2 * st'.2.toks.length + 2
        omega)
    obtain ⟨r, hr⟩ := Option.isSome_iff_exists.mp hf.2
    have hr' := hr
    rw [hf.1] at hr'
    simp only
    rw [show 2 * s.toks.length + 2 = (2 * s.toks.length + 1) + 1 by omega,
      loop_next _ _ _ _ hb, hr, hr']

theorem FillBody_line (bd : BabelDesc) (e : entry) (k v : String) (r : List String)
    (err : Option ScanError) (h : e.TextFields) (ha : e.AwaitsId) (hk : Word k) (hv : Word v) :
    bd.FillBody (e, ⟨k :: v :: "\n" :: r, err⟩) = Step.next (e.readLine (k, v), ⟨r, err⟩) := by
  obtain ⟨f, hf, hd⟩ := ha
  unfold BabelDesc.FillBody
  simp only [hf, hd, if_true, Parse_line e k v r err h hk hv]
  simp

theorem FillBody_filled (bd : BabelDesc) (e : entry) (s : Scanner) (f : entryValue)
    (hf : e.get "my-id" = some f) (hd : f.data ≠ Value.null) :
    bd.FillBody (e, s) = Step.done (bd.FillAfter e s) := by
  unfold BabelDesc.FillBody
  simp only [hf, hd, if_false]

theorem foldl_readLine_textFields (pre : List (String × String)) :
    ∀ e : entry, e.TextFields → (pre.foldl entry.readLine e).TextFields := by
  induction pre with
  | nil => intro e h; exact h
  | cons p pre ih => intro e h; exact ih _ (readLine_textFields e p h)

/-- The lines before the `my-id` line are read one by one into the entry. -/
theorem FillFrom_lines (bd : BabelDesc) (r : List String) (err : Option ScanError) :
    ∀ (pre : List (String × String)) (e : entry), e.TextFields → e.AwaitsId →
      (∀ p ∈ pre, Word p.1 ∧ Word p.2 ∧ p.1 ≠ "my-id") →
      bd.FillFrom (e, ⟨lineToks pre ++ r, err⟩) =
        bd.FillFrom (pre.foldl entry.readLine e, ⟨r, err⟩) := by
  intro pre
  induction pre with
  | nil => intro e _ _ _; rfl
  | cons p pre ih =>
    intro e h ha hp
    obtain ⟨k, v⟩ := p
    obtain ⟨hk, hv, hne⟩ := hp (k, v) (List.mem_cons_self _ _)
    show bd.FillFrom (e, ⟨k :: v :: "\n" :: (lineToks pre ++ r), err⟩) = _
    rw [FillFrom_unfold bd e _ (TextFields_decoders h),
      FillBody_line bd e k v _ err h ha hk hv]
    exact ih _ (readLine_textFields e _ h) (readLine_awaitsId e _ ha hne)
      (fun q hq => hp q (List.mem_cons_of_mem _ hq))

/-- The `my-id` line ends the loop: the code after the loop runs on the entry
with `my-id` filled, and nothing after that line is read. -/
theorem FillFrom_my_id (bd : BabelDesc) (e : entry) (i : String) (r : List String)
    (err : Option ScanError) (h : e.TextFields) (ha : e.AwaitsId) (hi : Word i) :
    bd.FillFrom (e, ⟨"my-id" :: i :: "\n" :: r, err⟩) =
      bd.FillAfter (e.readLine ("my-id", i)) ⟨r, err⟩ := by
  have hw : Word "my-id" := by unfold Word; decide
  rw [FillFrom_unfold bd e _ (TextFields_decoders h),
    FillBody_line bd e "my-id" i r err h ha hw hi]
  simp only
  obtain ⟨f, hf, hd⟩ := ha
  have hg : (e.readLine ("my-id", i)).get "my-id" =
      some { f with data := Value.str i } := by
    rw [readLine_get]
    simp [hf]
  rw [FillFrom_unfold bd _ _ (TextFields_decoders (readLine_textFields e _ h)),
    FillBody_filled bd _ _ _ hg (by simp)]

theorem readLine_fresh_get (pre : List (String × String)) (k : String)
    (hk : k ∉ pre.map Prod.fst) :
    ∀ e : entry, (pre.foldl entry.readLine e).get k = e.get k := by
  induction pre with
  | nil => intro e; rfl
  | cons p pre ih =>
    intro e
    simp only [List.map_cons, List.mem_cons, not_or] at hk
    rw [List.foldl_cons, ih hk.2, readLine_get, if_neg hk.1]

/-- The value a field has after the lines are read, when no name comes twice:
the value of its line, or the value it had. -/
theorem foldl_readLine_get (pre : List (String × String)) (k : String)
    (hn : (pre.map Prod.fst).Nodup) :
    ∀ e : entry, (pre.foldl entry.readLine e).get k =
      (e.get k).map (fun f =>
        match lookupIn k pre with
        | some v => { f with data := Value.str v }
        | none => f) := by
  induction pre with
  | nil => intro e; cases hg : e.get k <;> simp [lookupIn, hg]
  | cons p pre ih =>
    intro e
    obtain ⟨k₀, v₀⟩ := p
    simp only [List.map_cons, List.nodup_cons] at hn
    by_cases hk : k₀ = k
    · subst hk
      rw [List.foldl_cons, readLine_fresh_get pre k₀ hn.1, readLine_get]
      cases e.get k₀ <;> simp [lookupIn]
    · rw [List.foldl_cons, ih hn.2, readLine_get, if_neg (fun h => hk h.symm)]
      simp [lookupIn, hk]

theorem fillEntry_get (k : String)
    (hk : k = "BABEL" ∨ k = "version" ∨ k = "host" ∨ k = "my-id") :
    fillEntry.get k = some { data := Value.null, parser := ParseString } := by
  rcases hk with h | h | h | h <;> subst h <;> rfl

theorem fillEntry_awaitsId : fillEntry.AwaitsId :=
  ⟨_, fillEntry_get "my-id" (by simp), rfl⟩

/-- The fields of the entry of `Fill` once the lines `pre` and then the line
`my-id i` are read: each field other than `my-id` holds the value of its line. -/
theorem greeting_get (pre : List (String × String)) (i k : String)
    (hn : (pre.map Prod.fst).Nodup)
    (hk : k = "BABEL" ∨ k = "version" ∨ k = "host") :
    ∃ f, ((pre.foldl entry.readLine fillEntry).readLine ("my-id", i)).get k = some f ∧
      f.data = ((lookupIn k pre).map Value.str).getD Value.null := by
  have hne : k ≠ "my-id" := by
    rcases hk with h | h | h <;> subst h <;> decide
  have hk' : k = "BABEL" ∨ k = "version" ∨ k = "host" ∨ k = "my-id" := by
    rcases hk with h | h | h
    · exact Or.inl h
    · exact Or.inr (Or.inl h)
    · exact Or.inr (Or.inr (Or.inl h))
  rw [readLine_get, if_neg hne, foldl_readLine_get pre k hn, fillEntry_get k hk']
  cases lookupIn k pre <;> exact ⟨_, rfl, rfl⟩

theorem greeting_get_id (pre : List (String × String)) (i : String)
    (hp : ∀ p ∈ pre, Word p.1 ∧ Word p.2 ∧ p.1 ≠ "my-id") :
    ((pre.foldl entry.readLine fillEntry).readLine ("my-id", i)).get "my-id" =
      some { data := Value.str i, parser := ParseString } := by
  have hfresh : "my-id" ∉ pre.map Prod.fst := by
    intro h
    obtain ⟨p, hp1, hp2⟩ := List.mem_map.mp h
    exact (hp p hp1).2.2 hp2
  rw [readLine_get, if_pos rfl, readLine_fresh_get pre "my-id" hfresh,
    fillEntry_get "my-id" (by simp)]
  rfl

theorem FillAfter_unsupported (bd : BabelDesc) (e : entry) (s : Scanner) (f : entryValue)
    (hg : e.get "BABEL" = some f) (hd : f.data = Value.str "0.0") :
    bd.FillAfter e s =
      { bd := bd, s := s,
        status := Status.returned (some (Error.msg "BABEL 0.0: Unsupported version")) } := by
  unfold BabelDesc.FillAfter
  simp [hg, hd, asString]

theorem FillAfter_ok (bd : BabelDesc) (e : entry) (s : Scanner) (fb fv fi fh : entryValue)
    (ob oh : Option String) (v i : String)
    (hb : e.get "BABEL" = some fb) (hbd : fb.data = (ob.map Value.str).getD Value.null)
    (hob : ob ≠ some "0.0")
    (hv : e.get "version" = some fv) (hvd : fv.data = Value.str v)
    (hi : e.get "my-id" = some fi) (hid : fi.data = Value.str i)
    (hh : e.get "host" = some fh) (hhd : fh.data = (oh.map Value.str).getD Value.null) :
    bd.FillAfter e s =
      { bd := { bd with Version := v, ID := i, Name := oh.getD "unknown" }, s := s,
        status := Status.returned none } := by
  obtain ⟨db, pb⟩ := fb
  obtain ⟨dv, pv⟩ := fv
  obtain ⟨di, pi⟩ := fi
  obtain ⟨dh, ph⟩ := fh
  simp only at hbd hvd hid hhd
  subst hbd hvd hid hhd
  unfold BabelDesc.FillAfter
  cases ob with
  | none =>
    cases oh with
    | none => simp [hb, hv, hi, hh, asString]
    | some t => simp [hb, hv, hi, hh, asString]
  | some b =>
    have hne : b ≠ "0.0" := fun h => hob (by rw [h])
    cases oh with
    | none => simp [hb, hv, hi, hh, asString, hne]
    | some t => simp [hb, hv, hi, hh, asString, hne]

/-- On a greeting that ends with the `my-id` line, `Fill` reads the lines
before it, then that line, and runs the code after its loop. -/
theorem Fill_greeting_eq (bd : BabelDesc) (pre : List (String × String)) (i : String)
    (r : List String) (err : Option ScanError)
    (hp : ∀ p ∈ pre, Word p.1 ∧ Word p.2 ∧ p.1 ≠ "my-id") (hi : Word i) :
    bd.Fill ⟨lineToks pre ++ "my-id" :: i :: "\n" :: r, err⟩ =
      bd.FillAfter ((pre.foldl entry.readLine fillEntry).readLine ("my-id", i)) ⟨r, err⟩ := by
  unfold BabelDesc.Fill
  rw [FillFrom_lines bd _ err pre fillEntry fillEntry_textFields fillEntry_awaitsId hp]
  have ha : (pre.foldl entry.readLine fillEntry).AwaitsId := by
    have hfresh : "my-id" ∉ pre.map Prod.fst := by
      intro h
      obtain ⟨p, hp1, hp2⟩ := List.mem_map.mp h
      exact (hp p hp1).2.2 hp2
    obtain ⟨f, hf, hd⟩ := fillEntry_awaitsId
    exact ⟨f, by rw [readLine_fresh_get pre "my-id" hfresh, hf], hd⟩
  exact FillFrom_my_id bd _ i r err (foldl_readLine_textFields pre _ fillEntry_textFields) ha hi

theorem lookupIn_append {α : Type} (k : String) (l₁ l₂ : List (String × α)) :
    lookupIn k (l₁ ++ l₂) =
      match lookupIn k l₁ with
      | some v => some v
      | none => lookupIn k l₂ := by
  induction l₁ with
  | nil => rfl
  | cons p l₁ ih =>
    obtain ⟨k₀, v₀⟩ := p
    by_cases hk : k₀ = k
    · simp [lookupIn, hk]
    · simp only [List.cons_append, lookupIn, hk, if_false]
      exact ih

theorem lastValue_cons (k : String) (p : String × String) (pre : List (String × String)) :
    lastValue k (p :: pre) =
      match lastValue k pre with
      | some v => some v
      | none => if p.1 = k then some p.2 else none := by
  obtain ⟨k₀, v₀⟩ := p
  unfold lastValue
  rw [List.reverse_cons, lookupIn_append]
  cases lookupIn k pre.reverse <;> simp [lookupIn]

/-- The value a field has after the lines are read: the value of the last line
with its name, or the value it had. -/
theorem foldl_readLine_last (pre : List (String × String)) (k : String) :
    ∀ e : entry, (pre.foldl entry.readLine e).get k =
      (e.get k).map (fun f =>
        match lastValue k pre with
        | some v => { f with data := Value.str v }
        | none => f) := by
  induction pre with
  | nil => intro e; cases hg : e.get k <;> simp [lastValue, lookupIn, hg]
  | cons p pre ih =>
    intro e
    obtain ⟨k₀, v₀⟩ := p
    rw [List.foldl_cons, ih, readLine_get, lastValue_cons]
    by_cases hk : k = k₀
    · subst hk
      cases e.get k <;> cases lastValue k pre <;> simp
    · have hk' : ¬ k₀ = k := fun h => hk h.symm
      cases e.get k <;> cases lastValue k pre <;> simp [hk, hk']

/-- The `BABEL` field of the entry of `Fill` once the lines `pre` and then the
line `my-id i` are read: it holds the value of the last `BABEL` line. -/
theorem greeting_get_last (pre : List (String × String)) (i : String) :
    ∃ f, ((pre.foldl entry.readLine fillEntry).readLine ("my-id", i)).get "BABEL" = some f ∧
      f.data = ((lastValue "BABEL" pre).map Value.str).getD Value.null := by
  have hne : ¬ ("BABEL" = ("my-id", i).1) := by
    show ¬ ("BABEL" = "my-id")
    decide
  rw [readLine_get, if_neg hne, foldl_readLine_last pre "BABEL",
    fillEntry_get "BABEL" (Or.inl rfl)]
  cases lastValue "BABEL" pre <;> exact ⟨_, rfl, rfl⟩

/-- C12, amended: when the last `BABEL` line before the `my-id` line of a
greeting is `BABEL 0.0`, whatever other lines come before `my-id` and whatever
follows it, `Fill` returns the unsupported-version error and the router state
is as it was. -/
theorem Fill_unsupported_version (bd : BabelDesc) (pre : List (String × String)) (i : String)
    (r : List String) (err : Option ScanError)
    (hp : ∀ p ∈ pre, Word p.1 ∧ Word p.2 ∧ p.1 ≠ "my-id")
    (hb : lastValue "BABEL" pre = some "0.0") (hi : Word i) :
    (bd.Fill ⟨lineToks pre ++ "my-id" :: i :: "\n" :: r, err⟩).status =
      Status.returned (some (Error.msg "BABEL 0.0: Unsupported version")) ∧
    (bd.Fill ⟨lineToks pre ++ "my-id" :: i :: "\n" :: r, err⟩).bd = bd := by
  obtain ⟨f, hf, hd⟩ := greeting_get_last pre i
  rw [hb] at hd
  rw [Fill_greeting_eq bd pre i r err hp hi, FillAfter_unsupported bd _ _ f hf hd]
  exact ⟨rfl, rfl⟩

/-- Instance of the amended C12: the greeting `BABEL 0.0`, `version 1.0`,
`my-id abc`, and the greeting `BABEL 1.0`, `BABEL 0.0`, `my-id abc`. -/
theorem Fill_unsupported_version_witness :
    ((NewBabelDesc.Fill
        (feed ["BABEL", "0.0", "\n", "version", "1.0", "\n", "my-id", "abc", "\n"])).status =
      Status.returned (some (Error.msg "BABEL 0.0: Unsupported version")) ∧
    (NewBabelDesc.Fill
        (feed ["BABEL", "0.0", "\n", "version", "1.0", "\n", "my-id", "abc", "\n"])).bd =
      NewBabelDesc) ∧
    ((NewBabelDesc.Fill
        (feed ["BABEL", "1.0", "\n", "BABEL", "0.0", "\n", "my-id", "abc", "\n"])).status =
      Status.returned (some (Error.msg "BABEL 0.0: Unsupported version")) ∧
    (NewBabelDesc.Fill
        (feed ["BABEL", "1.0", "\n", "BABEL", "0.0", "\n", "my-id", "abc", "\n"])).bd =
      NewBabelDesc) :=
  ⟨Fill_unsupported_version NewBabelDesc [("BABEL", "0.0"), ("version", "1.0")] "abc" [] none
      (by unfold Word; decide) (by decide) (by unfold Word; decide),
    Fill_unsupported_version NewBabelDesc [("BABEL", "1.0"), ("BABEL", "0.0")] "abc" [] none
      (by unfold Word; decide) (by decide) (by unfold Word; decide)⟩

/-- C12 fails as stated: a later `BABEL` line replaces the value of an earlier
one.  On the greeting `BABEL 0.0`, `BABEL 1.0`, `version 1.0`, `my-id abc`, in
which `BABEL 0.0` is read before `my-id` is filled, `Fill` returns no error and
sets ID to `abc` and Version to `1.0`. -/
theorem Fill_later_BABEL_line :
    (NewBabelDesc.Fill (feed ["BABEL", "0.0", "\n", "BABEL", "1.0", "\n", "version", "1.0", "\n",
        "my-id", "abc", "\n"])).status = Status.returned none ∧
    (NewBabelDesc.Fill (feed ["BABEL", "0.0", "\n", "BABEL", "1.0", "\n", "version", "1.0", "\n",
        "my-id", "abc", "\n"])).bd.ID = "abc" ∧
    (NewBabelDesc.Fill (feed ["BABEL", "0.0", "\n", "BABEL", "1.0", "\n", "version", "1.0", "\n",
        "my-id", "abc", "\n"])).bd.Version = "1.0" := by
  decide

/-- C11, amended: when the `my-id i` line comes last, after the line `version v`
and, in any order, lines with other names, none twice and none `BABEL 0.0`,
`Fill` returns no error and sets ID to `i`, Version to `v`, and Name to the
value of the `host` line, or to `unknown` when there is none. -/
theorem Fill_greeting (bd : BabelDesc) (pre : List (String × String)) (v i : String)
    (r : List String) (err : Option ScanError)
    (hp : ∀ p ∈ pre, Word p.1 ∧ Word p.2 ∧ p.1 ≠ "my-id")
    (hn : (pre.map Prod.fst).Nodup) (hv : ("version", v) ∈ pre)
    (hb : ("BABEL", "0.0") ∉ pre) (hi : Word i) :
    (bd.Fill ⟨lineToks pre ++ "my-id" :: i :: "\n" :: r, err⟩).status = Status.returned none ∧
    (bd.Fill ⟨lineToks pre ++ "my-id" :: i :: "\n" :: r, err⟩).bd =
      { bd with ID := i, Version := v, Name := (lookupIn "host" pre).getD "unknown" } := by
  obtain ⟨fb, hfb, hdb⟩ := greeting_get pre i "BABEL" hn (Or.inl rfl)
  obtain ⟨fv, hfv, hdv⟩ := greeting_get pre i "version" hn (Or.inr (Or.inl rfl))
  obtain ⟨fh, hfh, hdh⟩ := greeting_get pre i "host" hn (Or.inr (Or.inr rfl))
  rw [(mem_iff_lookupIn pre hn "version" v).mp hv] at hdv
  have hob : lookupIn "BABEL" pre ≠ some "0.0" :=
    fun h => hb ((mem_iff_lookupIn pre hn "BABEL" "0.0").mpr h)
  rw [Fill_greeting_eq bd pre i r err hp hi,
    FillAfter_ok bd _ _ fb fv _ fh _ _ v i hfb hdb hob hfv hdv (greeting_get_id pre i hp) rfl
      hfh hdh]
  exact ⟨rfl, rfl⟩

/-- Instance of the amended C11: the greeting `BABEL 1.0`, `host foo`,
`version 1.0`, `my-id abc`. -/
theorem Fill_greeting_witness :
    (NewBabelDesc.Fill (feed ["BABEL", "1.0", "\n", "host", "foo", "\n", "version", "1.0", "\n",
        "my-id", "abc", "\n"])).status = Status.returned none ∧
    (NewBabelDesc.Fill (feed ["BABEL", "1.0", "\n", "host", "foo", "\n", "version", "1.0", "\n",
        "my-id", "abc", "\n"])).bd =
      { NewBabelDesc with ID := "abc", Version := "1.0", Name := "foo" } :=
  Fill_greeting NewBabelDesc [("BABEL", "1.0"), ("host", "foo"), ("version", "1.0")] "1.0" "abc"
    [] none (by unfold Word; decide) (by decide) (by decide) (by decide)
    (by unfold Word; decide)

/-- C11 fails as stated: `Fill` stops reading at the `my-id` line.  With the
`host` line after it, Name is `unknown`, not the host given; with the `version`
line after it, the type assertion on the unset version panics. -/
theorem Fill_stops_at_my_id :
    (NewBabelDesc.Fill (feed ["version", "1.0", "\n", "my-id", "abc", "\n",
        "host", "foo", "\n"])).status = Status.returned none ∧
    (NewBabelDesc.Fill (feed ["version", "1.0", "\n", "my-id", "abc", "\n",
        "host", "foo", "\n"])).bd.Name = "unknown" ∧
    (NewBabelDesc.Fill (feed ["my-id", "abc", "\n", "version", "1.0", "\n"])).status =
      Status.panicked := by
  decide


/-! ## The schema invariant -/

/-- One pass of `Parse` keeps the field names of the entry, whatever the
decoders are. -/
theorem ParseBody_keys (e : entry) (s : Scanner) :
    (∀ r, entry.ParseBody (e, s) = Step.done r → r.1.keys = e.keys) ∧
    (∀ st', entry.ParseBody (e, s) = Step.next st' → st'.1.keys = e.keys) := by
  constructor
  · intro r h
    unfold entry.ParseBody at h
    simp only at h
    split at h
    · cases h; rfl
    · split at h
      · split at h
        · cases h; rfl
        · cases h
      · rename_i value hg
        split at h
        · cases h; rfl
        · split at h
          · cases h; exact keys_set_of_get e _ value _ hg
          · cases h
  · intro st' h
    unfold entry.ParseBody at h
    simp only at h
    split at h
    · cases h
    · split at h
      · split at h
        · cases h
        · cases h; rfl
      · rename_i value hg
        split at h
        · cases h
        · split at h
          · cases h
          · cases h; exact keys_set_of_get e _ value _ hg

/-- When `Parse` returns, the entry has the field names it had. -/
theorem Parse_keys (e : entry) (s : Scanner) (r : entry × Option Error × Scanner)
    (h : e.Parse s = some r) : r.1.keys = e.keys :=
  loop_result entry.ParseBody (fun st => st.1.keys = e.keys) (fun r => r.1.keys = e.keys)
    (fun st st' hst hb => ((ParseBody_keys st.1 st.2).2 st' hb).trans hst)
    (fun st r hst hb => ((ParseBody_keys st.1 st.2).1 r hb).trans hst)
    _ (e, s) r rfl h

theorem Reachable.wellFormed {lib : Lib} {st : BabelDesc × Scanner × List SBabelUpdate}
    (h : Reachable lib st) : st.1.WellFormed lib := by
  induction h with
  | start i n v s out => exact NewBabelDesc_wellFormed lib i n v
  | pass st st' _ hb ih =>
    obtain ⟨bd, s, out⟩ := st
    rcases ListenBody_wellFormed lib bd s out ih with ⟨r, e, h1, -, -⟩ | ⟨st'', h1, h2⟩
    · rw [h1] at hb; cases hb
    · rw [h1] at hb; cases hb; exact h2

/-- C18: `Parse` keeps the field names of the entry it fills; `ParseAction`
returns, and an update with the action add, change or flush names one of the
four table kinds and carries an entry with the field names of that kind; so in
every state the loop of `Listen` reaches from a fresh router state each table
kind has its table and each stored entry has the field names of the schema of
its table, `CheckUpdate` and `Update` do not panic on the update read there,
and `Listen` returns. -/
theorem schema_invariant (lib : Lib) :
    (∀ (e : entry) (s : Scanner) r, e.Parse s = some r → r.1.keys = e.keys) ∧
    (∀ (t : String) (s : Scanner), (makeEntry lib t).2 = none →
      ∃ r, (makeEntry lib t).1.Parse s = some r ∧ r.1.keys = (makeEntry lib t).1.keys) ∧
    (∀ (bd : BabelDesc) (s : Scanner), ∃ upd err s', bd.ParseAction lib s = some (upd, err, s') ∧
      (IsAction upd.action →
        (upd.table = "interface" ∨ upd.table = "neighbour" ∨ upd.table = "route" ∨
          upd.table = "xroute") ∧
        upd.entryData.keys = (makeEntry lib upd.table).1.keys)) ∧
    (∀ st, Reachable lib st →
      (∀ t, t = "interface" ∨ t = "neighbour" ∨ t = "route" ∨ t = "xroute" →
        ∃ tbl, st.1.ts.get t = some tbl) ∧
      (∀ t tbl id e, st.1.ts.get t = some tbl → tbl.dict.get id = some e →
        e.keys = (makeEntry lib t).1.keys) ∧
      (∀ upd err s', st.1.ParseAction lib st.2.1 = some (upd, err, s') → IsAction upd.action →
        (∃ b, st.1.CheckUpdate upd = some b) ∧ ∃ bd' x, st.1.Update upd = some (bd', x)) ∧
      ∃ err, (st.1.Listen lib st.2.1 st.2.2).status = Status.returned err) := by
  refine ⟨Parse_keys, ?_, ?_, ?_⟩
  · intro t s _
    obtain ⟨r, hr, -, -, hk, -⟩ := Parse_returns (makeEntry lib t).1 s (makeEntry_Decoders lib t)
    exact ⟨r, hr, hk⟩
  · intro bd s
    obtain ⟨upd, err, s', h, -, -, -, hupd⟩ := ParseAction_returns lib bd s
    refine ⟨upd, err, s', h, ?_⟩
    intro ha
    rcases hupd with h0 | ⟨-, ht, hk, -⟩
    · rw [h0] at ha
      exact absurd ha (by unfold IsAction emptyUpdate; decide)
    · exact ⟨(makeEntry_ok_iff lib upd.table).mp ht, hk⟩
  · intro st hst
    have hwf := hst.wellFormed
    refine ⟨fun t ht => hwf.1 t ((makeEntry_ok_iff lib t).mpr ht), hwf.2, ?_,
      (Listen_returns lib st.1 st.2.1 st.2.2 hwf).imp (fun _ h => h.1)⟩
    intro upd err s' hPA ha
    obtain ⟨upd', err', s'', h, -, -, -, hupd⟩ := ParseAction_returns lib st.1 st.2.1
    rw [hPA] at h
    cases h
    rcases hupd with h0 | ⟨-, ht, hk, -⟩
    · rw [h0] at ha
      exact absurd ha (by unfold IsAction emptyUpdate; decide)
    · obtain ⟨bd', x, hu, -⟩ := Update_returns lib st.1 upd hwf ht hk
      exact ⟨CheckUpdate_returns lib st.1 upd hwf ht hk, bd', x, hu⟩

end Babel
